import Mathlib

/-!
# goBookMarker: tag management and persistence

A shallow embedding of the tag-related code of the bookmark manager:

* `internal/models/tag.go`     : `Tag`, `TagStats`, `TagGroup`, `TagExport`
* `internal/app/state.go`      : `AppState` and its operations, with the
  state's `sync.RWMutex` carried as explicit state
* `internal/storage/tag_store.go` : `TagStore` over a relational model of the
  `tags` and `tag_groups` tables, with what the SQL driver reads back from a
  time column as a parameter (`Driver`)
* `Time.Format` of the Go library for the layout of the export file name
* `Tag.UpdateStats`, `Tag.MarshalJSON` and `Tag.UnmarshalJSON`, with
  `Time.Format` and `time.Parse` of the Go library for the layout of RFC 3339,
  and the timestamp grammar of RFC 3339 as a second description to compare
  `time.Parse` with
* `internal/ui/tags.go`        : the three batch handlers of the tags page
* `internal/share/handler.go`  : `extractMetaTag`

Conventions of the embedding:

* Go slices are Lean lists, Go strings are Lean strings, Go `int` is `Int`;
  where the code computes with an `int` that it stores (`UpdateStats`), the
  result is wrapped to the width of `int`.
* Go `error` is `Option String`; `none` is `nil`.
* A call on `AppState` yields an `Outcome`: it returns, it panics, or its
  goroutine blocks for ever on a lock acquisition.
* Values read from the outside world (`time.Now()`) are extra arguments.
-/

namespace GoBookMarker

/-! ## Data model (`internal/models`) -/

/-- Go `error`: `none` is `nil`, `some msg` is an error with that message. -/
abbrev Error := Option String

/-- A `time.Time` value: the instant (nanoseconds relative to the Unix epoch)
and the zone offset it is rendered in (seconds east of UTC). -/
structure Time where
  unixNano : Int
  zoneOffset : Int := 0
deriving DecidableEq, Repr

/-- The zero `time.Time{}`: January 1, year 1, 00:00:00 UTC. -/
def Time.zero : Time := { unixNano := -62135596800000000000, zoneOffset := 0 }

instance : Inhabited Time := ⟨Time.zero⟩

/-- `models.TagStats`. -/
structure TagStats where
  LastUsed : Time := Time.zero
  UsageCount : Int := 0
  BookmarkCount : Int := 0
  HistoricalCount : Int := 0
deriving DecidableEq, Repr, Inhabited

/-- `models.Tag`. -/
structure Tag where
  ID : String := ""
  Name : String := ""
  Color : String := ""
  Description : String := ""
  ParentID : String := ""
  Order : Int := 0
  Count : Int := 0
  CreatedAt : Time := Time.zero
  UpdatedAt : Time := Time.zero
  UsageStats : TagStats := {}
deriving DecidableEq, Repr, Inhabited

/-- `models.TagGroup`. -/
structure TagGroup where
  ID : String := ""
  Name : String := ""
  TagIDs : List String := []
  Order : Int := 0
  Expanded : Bool := false
deriving DecidableEq, Repr, Inhabited

/-- `models.TagExport`: the import/export envelope. -/
structure TagExport where
  Tags : List Tag := []
  TagGroups : List TagGroup := []
  ExportedAt : Time := Time.zero
  Version : String := ""
deriving DecidableEq, Repr, Inhabited

/-- `models.Bookmark`. -/
structure Bookmark where
  ID : String := ""
  UserID : String := ""
  URL : String := ""
  Title : String := ""
  Description : String := ""
  ImageURL : String := ""
  FaviconURL : String := ""
  IsFavorite : Bool := false
  Tags : List String := []
  CreatedAt : Time := Time.zero
  UpdatedAt : Time := Time.zero
deriving DecidableEq, Repr, Inhabited

/-- `models.User`. -/
structure User where
  ID : String := ""
  Email : String := ""
  Name : String := ""
  NavPosition : String := ""
  NavItems : List String := []
  Theme : String := ""
  SyncEnabled : Bool := false
  LastSync : String := ""
  CreatedAt : String := ""
  LastSyncTime : Int := 0
deriving DecidableEq, Repr, Inhabited

/-- `TagGroup.ContainsTag` (tag.go 121-128): the loop over `g.TagIDs`. -/
def TagGroup.ContainsTag.loop (tagID : String) : List String → Bool
  | [] => false
  | id :: rest => if id = tagID then true else TagGroup.ContainsTag.loop tagID rest

/-- `TagGroup.ContainsTag` (tag.go 121-128). -/
def TagGroup.ContainsTag (g : TagGroup) (tagID : String) : Bool :=
  TagGroup.ContainsTag.loop tagID g.TagIDs

/-- `TagGroup.AddTag` (tag.go 106-110); the result is the group after the call. -/
def TagGroup.AddTag (g : TagGroup) (tagID : String) : TagGroup :=
  if !g.ContainsTag tagID then { g with TagIDs := g.TagIDs ++ [tagID] } else g

/-- The loop of `TagGroup.RemoveTag` from index `i` on: at the first entry
equal to `tagID` the list becomes `append(all[:i], all[i+1:]...)` and the loop
is left; a loop that runs to its end leaves the list as it is. -/
def TagGroup.RemoveTag.loop (tagID : String) (all : List String) : List String → Nat → List String
  | [], _ => all
  | id :: rest, i =>
    if id = tagID then all.take i ++ all.drop (i + 1)
    else TagGroup.RemoveTag.loop tagID all rest (i + 1)

/-- `TagGroup.RemoveTag` (tag.go 112-119); the result is the group after the call. -/
def TagGroup.RemoveTag (g : TagGroup) (tagID : String) : TagGroup :=
  { g with TagIDs := TagGroup.RemoveTag.loop tagID g.TagIDs g.TagIDs 0 }

/-! ## Rendering a time (`Time.Format` of the Go library)

`ExportTags` names its file with `time.Now().Format("2006-01-02_15-04-05")`.
The layout has the fields year (four digits), month, day, hour (24-hour),
minute and second (two digits each, zero-padded), of the time in its own zone,
and no field below the second. -/

/-- The whole seconds of a time since the Unix epoch, shifted to its zone. -/
def Time.localSeconds (t : Time) : Int := t.unixNano / 1000000000 + t.zoneOffset

/-- The time truncated to whole seconds (`t.Truncate(time.Second)`). -/
def Time.truncSecond (t : Time) : Time :=
  { t with unixNano := t.unixNano - t.unixNano % 1000000000 }

/-- Year, month and day of a day number counted from 1970-01-01, in the
proleptic Gregorian calendar. -/
def civilFromDays (days : Int) : Int × Int × Int :=
  let z := days + 719468
  let era := z / 146097
  let doe := z - era * 146097
  let yoe := (doe - doe / 1460 + doe / 36524 - doe / 146096) / 365
  let doy := doe - (365 * yoe + yoe / 4 - yoe / 100)
  let mp := (5 * doy + 2) / 153
  let d := doy - (153 * mp + 2) / 5 + 1
  let m := if mp < 10 then mp + 3 else mp - 9
  let y := yoe + era * 400 + (if m ≤ 2 then 1 else 0)
  (y, m, d)

/-- The `appendInt` of package `time`: the decimal digits of `x`, zero-padded to
`width`, after a minus sign when `x` is negative. -/
def appendInt (x : Int) (width : Nat) : String :=
  let digits := toString x.natAbs
  let padded := String.mk (List.replicate (width - digits.length) '0') ++ digits
  if x < 0 then "-" ++ padded else padded

/-- `t.Format("2006-01-02_15-04-05")`. -/
def Time.FormatStamp (t : Time) : String :=
  let secs := t.localSeconds
  let date := civilFromDays (secs / 86400)
  let rem := secs % 86400
  appendInt date.1 4 ++ "-" ++ appendInt date.2.1 2 ++ "-" ++ appendInt date.2.2 2 ++ "_" ++
    appendInt (rem / 3600) 2 ++ "-" ++ appendInt (rem % 3600 / 60) 2 ++ "-" ++
    appendInt (rem % 60) 2

/-! ## The reader/writer lock -/

/-- State of a `sync.RWMutex`: free, held by one writer, or held by
`readers + 1` readers. -/
inductive RWMutex where
  | unlocked
  | writeLocked
  | readLocked (readers : Nat)
deriving DecidableEq, Repr

/-- `mu.Lock()`: succeeds only on a free lock; `none` means the caller blocks. -/
def RWMutex.Lock : RWMutex → Option RWMutex
  | .unlocked => some .writeLocked
  | .writeLocked => none
  | .readLocked _ => none

/-- `mu.Unlock()`: `none` is the runtime's fatal "Unlock of unlocked RWMutex". -/
def RWMutex.Unlock : RWMutex → Option RWMutex
  | .writeLocked => some .unlocked
  | .unlocked => none
  | .readLocked _ => none

/-- `mu.RLock()`: succeeds unless a writer holds the lock. -/
def RWMutex.RLock : RWMutex → Option RWMutex
  | .unlocked => some (.readLocked 0)
  | .readLocked n => some (.readLocked (n + 1))
  | .writeLocked => none

/-- `mu.RUnlock()`: `none` is the runtime's fatal "RUnlock of unlocked RWMutex". -/
def RWMutex.RUnlock : RWMutex → Option RWMutex
  | .readLocked 0 => some .unlocked
  | .readLocked (n + 1) => some (.readLocked n)
  | .unlocked => none
  | .writeLocked => none

/-! ## Application state (`internal/app/state.go`) -/

/-- `app.AppState`. -/
structure AppState where
  mu : RWMutex := .unlocked
  bookmarks : List Bookmark := []
  currentUser : Option User := none
  searchQuery : String := ""
  currentPage : String := ""
  tags : List Tag := []
  tagGroups : List TagGroup := []
deriving DecidableEq, Repr

/-- `NewAppState()`. -/
def NewAppState : AppState :=
  { bookmarks := [], tags := [], tagGroups := [] }

/-- How a call on the state ends: it returns `result`, a runtime panic
unwinds out of it, or the calling goroutine blocks for ever. In each case `s`
is the state the call leaves behind. -/
inductive Outcome (α : Type) where
  | returned (s : AppState) (result : α)
  | panicked (s : AppState) (msg : String)
  | blocked (s : AppState)
deriving DecidableEq, Repr

/-- The state an outcome leaves behind. -/
def Outcome.state {α : Type} : Outcome α → AppState
  | .returned s _ => s
  | .panicked s _ => s
  | .blocked s => s

/-- The deferred `s.mu.Unlock()`: runs when the body returns or panics, never
when the body is blocked. -/
def deferUnlock {α : Type} : Outcome α → Outcome α
  | .returned s r =>
    match s.mu.Unlock with
    | some m => .returned { s with mu := m } r
    | none => .panicked s "sync: Unlock of unlocked RWMutex"
  | .panicked s msg =>
    match s.mu.Unlock with
    | some m => .panicked { s with mu := m } msg
    | none => .panicked s "sync: Unlock of unlocked RWMutex"
  | .blocked s => .blocked s

/-- The deferred `s.mu.RUnlock()`. -/
def deferRUnlock {α : Type} : Outcome α → Outcome α
  | .returned s r =>
    match s.mu.RUnlock with
    | some m => .returned { s with mu := m } r
    | none => .panicked s "sync: RUnlock of unlocked RWMutex"
  | .panicked s msg =>
    match s.mu.RUnlock with
    | some m => .panicked { s with mu := m } msg
    | none => .panicked s "sync: RUnlock of unlocked RWMutex"
  | .blocked s => .blocked s

/-- `s.mu.Lock(); defer s.mu.Unlock(); body`. -/
def AppState.withLock {α : Type} (s : AppState) (body : AppState → Outcome α) : Outcome α :=
  match s.mu.Lock with
  | none => .blocked s
  | some m => deferUnlock (body { s with mu := m })

/-- `s.mu.RLock(); defer s.mu.RUnlock(); body`. -/
def AppState.withRLock {α : Type} (s : AppState) (body : AppState → Outcome α) : Outcome α :=
  match s.mu.RLock with
  | none => .blocked s
  | some m => deferRUnlock (body { s with mu := m })

/-- A Go `map[string]bool`; a missing key reads as `false`. -/
abbrev BoolMap := String → Bool

/-- `make(map[string]bool)`. -/
def BoolMap.empty : BoolMap := fun _ => false

/-- `m[k] = v`. -/
def BoolMap.set (m : BoolMap) (k : String) (v : Bool) : BoolMap :=
  fun k' => if k' = k then v else m k'

/-- `for _, id := range ids { m[id] = true }` on a fresh map. -/
def BoolMap.ofKeys (ids : List String) : BoolMap :=
  ids.foldl (fun m id => m.set id true) BoolMap.empty

/-- The `for i, t := range s.tags` loop of `SaveTag`, from index `i` on, over
the not yet visited entries: `some tags'` when an entry with the tag's id was
found and overwritten (`s.tags[i] = *tag; return nil`), `none` when the loop
ran to its end. -/
def AppState.SaveTag.scan (tag : Tag) (all : List Tag) : List Tag → Nat → Option (List Tag)
  | [], _ => none
  | t :: rest, i =>
    if t.ID = tag.ID then some (all.set i tag)
    else AppState.SaveTag.scan tag all rest (i + 1)

/-- `AppState.SaveTag` (state.go 124-135). -/
def AppState.SaveTag (s : AppState) (tag : Tag) : Outcome Error :=
  s.withLock fun s =>
    match AppState.SaveTag.scan tag s.tags s.tags 0 with
    | some tags' => .returned { s with tags := tags' } none
    | none => .returned { s with tags := s.tags ++ [tag] } none

/-- `AppState.DeleteTags` (state.go 150-181). The capacity argument of
`make([]models.Tag, 0, len(s.tags)-len(tagIDs))` makes the runtime panic when
it is negative. -/
def AppState.DeleteTags (s : AppState) (tagIDs : List String) : Outcome Error :=
  s.withLock fun s =>
    let toDelete := BoolMap.ofKeys tagIDs
    if (s.tags.length : Int) - (tagIDs.length : Int) < 0 then
      .panicked s "runtime error: makeslice: cap out of range"
    else
      let newTags := s.tags.foldl
        (fun acc tag => if !toDelete tag.ID then acc ++ [tag] else acc) []
      let tagGroups := s.tagGroups.map fun group =>
        let newTagIDs := group.TagIDs.foldl
          (fun acc tagID => if !toDelete tagID then acc ++ [tagID] else acc) []
        { group with TagIDs := newTagIDs }
      .returned { s with tagGroups := tagGroups, tags := newTags } none

/-- `AppState.SaveTagGroup` (state.go 189-200): the same upsert loop as
`SaveTag`, over the groups. -/
def AppState.SaveTagGroup.scan (group : TagGroup) (all : List TagGroup) :
    List TagGroup → Nat → Option (List TagGroup)
  | [], _ => none
  | existingGroup :: rest, i =>
    if existingGroup.ID = group.ID then some (all.set i group)
    else AppState.SaveTagGroup.scan group all rest (i + 1)

/-- `AppState.SaveTagGroup` (state.go 189-200). -/
def AppState.SaveTagGroup (s : AppState) (group : TagGroup) : Outcome Error :=
  s.withLock fun s =>
    match AppState.SaveTagGroup.scan group s.tagGroups s.tagGroups 0 with
    | some groups' => .returned { s with tagGroups := groups' } none
    | none => .returned { s with tagGroups := s.tagGroups ++ [group] } none

/-- `generateID()` of package `app`: `fmt.Sprintf("%d", time.Now().UnixNano())`,
with the clock reading as argument. -/
def generateID (now : Time) : String := toString now.unixNano

/-- `AppState.GroupTags` (state.go 247-261). The body runs with `s.mu` held
and ends in a call of the method `SaveTagGroup`, which locks `s.mu` itself. -/
def AppState.GroupTags (s : AppState) (tagIDs : List String) (now : Time) : Outcome Error :=
  s.withLock fun s =>
    let group : TagGroup :=
      { ID := generateID now
        Name := "New Group"
        TagIDs := tagIDs
        Order := (s.tagGroups.length : Int)
        Expanded := true }
    s.SaveTagGroup group

/-- `strings.Contains(s, substr)` on the characters of the two strings: some
suffix of `s` starts with `substr`. -/
def strings.ContainsChars : List Char → List Char → Bool
  | [], substr => substr.isPrefixOf []
  | c :: cs, substr => substr.isPrefixOf (c :: cs) || strings.ContainsChars cs substr

/-- `strings.Contains(s, substr)`. -/
def strings.Contains (s substr : String) : Bool :=
  strings.ContainsChars s.data substr.data

/-- `AppState.SearchTags` (state.go 215-233). `ToLower` is `strings.ToLower`
of the Go library. -/
def AppState.SearchTags (ToLower : String → String) (s : AppState) (query : String) :
    Outcome (List Tag) :=
  s.withRLock fun s =>
    if query = "" then .returned s s.tags
    else
      let filteredTags := s.tags.foldl
        (fun acc tag =>
          if strings.Contains (ToLower tag.Name) (ToLower query) ||
              strings.Contains (ToLower tag.Description) (ToLower query)
          then acc ++ [tag] else acc) []
      .returned s filteredTags

/-- The inner loop of `ExportTags` over one group's ids:
`hasExportedTag` is set, and the loop left, at the first requested id. -/
def AppState.ExportTags.hasExportedTag (toExport : BoolMap) : List String → Bool
  | [] => false
  | tagID :: rest =>
    if toExport tagID then true else AppState.ExportTags.hasExportedTag toExport rest

/-- The envelope (the Go variable `export`) that `ExportTags` builds (state.go 267-302);
`now` is the `time.Now()` of line 300. -/
def AppState.ExportTags.envelope (s : AppState) (tagIDs : List String) (now : Time) : TagExport :=
  let toExport := BoolMap.ofKeys tagIDs
  let tagsToExport := s.tags.foldl
    (fun acc tag => if toExport tag.ID then acc ++ [tag] else acc) []
  let groupsToExport := s.tagGroups.foldl
    (fun acc group =>
      if AppState.ExportTags.hasExportedTag toExport group.TagIDs then acc ++ [group] else acc) []
  { Tags := tagsToExport
    TagGroups := groupsToExport
    ExportedAt := now
    Version := "1.0" }

/-- What `ExportTags` takes from outside the program: the two clock readings,
`json.MarshalIndent`, `Time.Format` with the layout `2006-01-02_15-04-05`,
and the result of `os.WriteFile`. -/
structure ExportWorld where
  now : Time
  nowPath : Time
  MarshalIndent : TagExport → Except String String
  Format : Time → String
  WriteFile : String → String → Error

/-- `AppState.ExportTags` (state.go 263-318). -/
def AppState.ExportTags (w : ExportWorld) (s : AppState) (tagIDs : List String) :
    Outcome (String × Error) :=
  s.withRLock fun s =>
    let envelope := AppState.ExportTags.envelope s tagIDs w.now
    match w.MarshalIndent envelope with
    | .error err => .returned s ("", some ("failed to marshal export data: " ++ err))
    | .ok data =>
      let exportPath := "tag_export_" ++ w.Format w.nowPath ++ ".json"
      match w.WriteFile exportPath data with
      | some err => .returned s ("", some ("failed to write export file: " ++ err))
      | none => .returned s (exportPath, none)

/-- `AppState.DeleteTag` (state.go 137-148). The capacity argument of
`make([]models.Tag, 0, len(s.tags)-1)` makes the runtime panic when it is
negative. -/
def AppState.DeleteTag (s : AppState) (tag : Tag) : Outcome Error :=
  s.withLock fun s =>
    if (s.tags.length : Int) - 1 < 0 then
      .panicked s "runtime error: makeslice: cap out of range"
    else
      let newTags := s.tags.foldl
        (fun acc t => if t.ID != tag.ID then acc ++ [t] else acc) []
      .returned { s with tags := newTags } none

/-- The loop of `DeleteTagGroup` from index `i` on: `some groups'` when a group
with the id was found and cut out
(`append(s.tagGroups[:i], s.tagGroups[i+1:]...)`), `none` when the loop ran to
its end. -/
def AppState.DeleteTagGroup.scan (group : TagGroup) (all : List TagGroup) :
    List TagGroup → Nat → Option (List TagGroup)
  | [], _ => none
  | existingGroup :: rest, i =>
    if existingGroup.ID = group.ID then some (all.take i ++ all.drop (i + 1))
    else AppState.DeleteTagGroup.scan group all rest (i + 1)

/-- `AppState.DeleteTagGroup` (state.go 202-212). -/
def AppState.DeleteTagGroup (s : AppState) (group : TagGroup) : Outcome Error :=
  s.withLock fun s =>
    match AppState.DeleteTagGroup.scan group s.tagGroups s.tagGroups 0 with
    | some groups' => .returned { s with tagGroups := groups' } none
    | none => .returned s (some "tag group not found")

/-- ASCII lowercasing, a `ToLower` that evaluates; the examples use it. -/
def asciiToLower (s : String) : String := ⟨s.data.map Char.toLower⟩

/-- The substring relation on Go strings: `substr` occurs in `s`. -/
def IsSubstring (substr s : String) : Prop :=
  ∃ pre post : List Char, s.data = pre ++ substr.data ++ post

/-! ## The tag store (`internal/storage/tag_store.go`)

The database behind `*sql.DB` is modelled as the rows of the two tables, in
insertion order. Columns hold the values the store's own statements bind (Go
strings, ints, times, bools); foreign keys are not enforced (SQLite's default,
and no code of the repository turns them on). A statement fails only on a
constraint of the schema of `InitSchema`; failures of the engine itself (I/O,
busy database) are outside the model.

A time bound to a TIMESTAMP column is written by the driver as text, and
`rows.Scan` into a `*time.Time` has to read that text back: this step, which
can fail, is `Driver.scanTime`. -/

/-- What the driver `modernc.org/sqlite` and `database/sql` do with a time on
its way through a TIMESTAMP column. The bound time is written as the text of
`Time.String()` (layout `2006-01-02 15:04:05.999999999 -0700 MST`); on reading,
the driver parses that text, and when it does not parse hands the text on as a
string, which `rows.Scan` cannot store into a `*time.Time`. `scanTime` is the
two steps together: the time a stored time is read back as, or the error of
the conversion inside `rows.Scan`. The text ends in the name of the time's zone, which `Time` does
not record, so the driver is a parameter of everything that reads a row. -/
structure Driver where
  scanTime : Time → Except String Time

/-- A row of table `tags`. -/
structure TagRow where
  id : String
  name : String
  color : String
  description : String
  parent_id : String
  tag_order : Int
  created_at : Time
  updated_at : Time
  usage_stats : String
deriving DecidableEq, Repr, Inhabited

/-- A row of table `tag_groups`. -/
structure TagGroupRow where
  id : String
  name : String
  tag_ids : String
  group_order : Int
  expanded : Bool
deriving DecidableEq, Repr, Inhabited

/-- The database contents. -/
structure DB where
  tags : List TagRow := []
  tag_groups : List TagGroupRow := []
deriving DecidableEq, Repr, Inhabited

/-- `encoding/json` on the two types the store serialises into a column:
`TagStats` (column `usage_stats`) and `[]string` (column `tag_ids`). -/
structure JSON where
  MarshalStats : TagStats → Except String String
  UnmarshalStats : String → Except String TagStats
  MarshalTagIDs : List String → Except String String
  UnmarshalTagIDs : String → Except String (List String)

/-- The fragment of `encoding/json` given by two finite tables of
(value, JSON text) pairs; everything else is an error. The examples run on it. -/
def JSON.ofTables (stats : List (TagStats × String)) (ids : List (List String × String)) :
    JSON where
  MarshalStats v :=
    match stats.find? (fun p => p.1 = v) with
    | some p => .ok p.2
    | none => .error "json: unsupported value"
  UnmarshalStats text :=
    match stats.find? (fun p => p.2 = text) with
    | some p => .ok p.1
    | none => .error "invalid character"
  MarshalTagIDs v :=
    match ids.find? (fun p => p.1 = v) with
    | some p => .ok p.2
    | none => .error "json: unsupported value"
  UnmarshalTagIDs text :=
    match ids.find? (fun p => p.2 = text) with
    | some p => .ok p.1
    | none => .error "invalid character"

/-- `INSERT INTO tags (...) VALUES (...)`: rejected when the primary key `id`
is already present. -/
def DB.insertTag (row : TagRow) (db : DB) : Except String DB :=
  if db.tags.any (fun r => r.id = row.id) then .error "UNIQUE constraint failed: tags.id"
  else .ok { db with tags := db.tags ++ [row] }

/-- `INSERT INTO tag_groups (...) VALUES (...)`: rejected when the primary key
`id` is already present. -/
def DB.insertTagGroup (row : TagGroupRow) (db : DB) : Except String DB :=
  if db.tag_groups.any (fun r => r.id = row.id) then
    .error "UNIQUE constraint failed: tag_groups.id"
  else .ok { db with tag_groups := db.tag_groups ++ [row] }

/-- `DELETE FROM tag_groups`. -/
def DB.deleteAllTagGroups (db : DB) : Except String DB :=
  .ok { db with tag_groups := [] }

/-- `DELETE FROM tags`. -/
def DB.deleteAllTags (db : DB) : Except String DB :=
  .ok { db with tags := [] }

/-- The order of `ORDER BY tag_order`. -/
def TagRow.le (a b : TagRow) : Prop := a.tag_order ≤ b.tag_order

instance : DecidableRel TagRow.le := fun a b => Int.decLe a.tag_order b.tag_order

/-- The order of `ORDER BY group_order`. -/
def TagGroupRow.le (a b : TagGroupRow) : Prop := a.group_order ≤ b.group_order

instance : DecidableRel TagGroupRow.le := fun a b => Int.decLe a.group_order b.group_order

/-- `SELECT ... FROM tags ORDER BY tag_order`: the rows in non-decreasing
`tag_order`, rows of equal `tag_order` in insertion order. -/
def DB.selectTags (db : DB) : List TagRow :=
  db.tags.insertionSort TagRow.le

/-- `SELECT ... FROM tag_groups ORDER BY group_order`. -/
def DB.selectTagGroups (db : DB) : List TagGroupRow :=
  db.tag_groups.insertionSort TagGroupRow.le

/-- A `*sql.Tx`: the database as committed, the database as the transaction
sees it, and whether the transaction is over. -/
structure Tx where
  committed : DB
  work : DB
  done : Bool
deriving DecidableEq, Repr

/-- `db.Begin()`. -/
def DB.Begin (db : DB) : Tx := { committed := db, work := db, done := false }

/-- `tx.Exec(stmt)`: a rejected statement changes nothing and leaves the
transaction open. -/
def Tx.Exec (tx : Tx) (stmt : DB → Except String DB) : Tx × Error :=
  if tx.done then (tx, some "sql: transaction has already been committed or rolled back")
  else
    match stmt tx.work with
    | .ok work => ({ tx with work := work }, none)
    | .error err => (tx, some err)

/-- `tx.Commit()`. -/
def Tx.Commit (tx : Tx) : Tx × Error :=
  if tx.done then (tx, some "sql: transaction has already been committed or rolled back")
  else ({ committed := tx.work, work := tx.work, done := true }, none)

/-- `tx.Rollback()`: on an open transaction the work is discarded; on a
finished one it does nothing but report `ErrTxDone`. -/
def Tx.Rollback (tx : Tx) : Tx × Error :=
  if tx.done then (tx, some "sql: transaction has already been committed or rolled back")
  else ({ committed := tx.committed, work := tx.committed, done := true }, none)

/-- `storage.TagStore`: a handle on the database. -/
structure TagStore where
  db : DB := {}
deriving DecidableEq, Repr, Inhabited

/-- The values bound by the `INSERT INTO tags` of `CreateTag` and `ImportTags`,
after `json.Marshal(tag.UsageStats)`; `tag.Count` is not among them. -/
def TagStore.tagValues (json : JSON) (tag : Tag) : Except String TagRow :=
  match json.MarshalStats tag.UsageStats with
  | .error err => .error err
  | .ok statsJSON =>
    .ok { id := tag.ID
          name := tag.Name
          color := tag.Color
          description := tag.Description
          parent_id := tag.ParentID
          tag_order := tag.Order
          created_at := tag.CreatedAt
          updated_at := tag.UpdatedAt
          usage_stats := statsJSON }

/-- The values bound by the `INSERT INTO tag_groups` of `CreateTagGroup` and
`ImportTags`, after `json.Marshal(group.TagIDs)`. -/
def TagStore.groupValues (json : JSON) (group : TagGroup) : Except String TagGroupRow :=
  match json.MarshalTagIDs group.TagIDs with
  | .error err => .error err
  | .ok tagIDsJSON =>
    .ok { id := group.ID
          name := group.Name
          tag_ids := tagIDsJSON
          group_order := group.Order
          expanded := group.Expanded }

/-- `rows.Scan(&tag.ID, ..., &tag.CreatedAt, &tag.UpdatedAt, &statsJSON)` into a
zero `models.Tag`, then `json.Unmarshal` of the stats (`GetTag`,
`GetTagsByParent`, `GetAllTags`). `Scan` fails on the first time column that
the driver cannot read back, with the error of that column under the index
and name of the column in the `SELECT`; `Count` keeps its zero value. -/
def TagStore.scanTag (drv : Driver) (json : JSON) (row : TagRow) : Except String Tag :=
  match drv.scanTime row.created_at with
  | .error err => .error ("sql: Scan error on column index 6, name \"created_at\": " ++ err)
  | .ok createdAt =>
    match drv.scanTime row.updated_at with
    | .error err => .error ("sql: Scan error on column index 7, name \"updated_at\": " ++ err)
    | .ok updatedAt =>
      match json.UnmarshalStats row.usage_stats with
      | .error err => .error err
      | .ok stats =>
        .ok { ID := row.id
              Name := row.name
              Color := row.color
              Description := row.description
              ParentID := row.parent_id
              Order := row.tag_order
              CreatedAt := createdAt
              UpdatedAt := updatedAt
              UsageStats := stats }

/-- `rows.Scan(&group.ID, ..., &group.Expanded)` into a zero `models.TagGroup`,
then `json.Unmarshal` of the tag ids (`GetTagGroup`, `GetAllTagGroups`). -/
def TagStore.scanTagGroup (json : JSON) (row : TagGroupRow) : Except String TagGroup :=
  match json.UnmarshalTagIDs row.tag_ids with
  | .error err => .error err
  | .ok tagIDs =>
    .ok { ID := row.id
          Name := row.name
          TagIDs := tagIDs
          Order := row.group_order
          Expanded := row.expanded }

/-- `TagStore.CreateTag` (tag_store.go 63-85). -/
def TagStore.CreateTag (json : JSON) (s : TagStore) (tag : Tag) : TagStore × Error :=
  match TagStore.tagValues json tag with
  | .error err => (s, some err)
  | .ok row =>
    match s.db.insertTag row with
    | .ok db => ({ db := db }, none)
    | .error err => (s, some err)

/-- `TagStore.CreateTagGroup` (tag_store.go 148-166). -/
def TagStore.CreateTagGroup (json : JSON) (s : TagStore) (group : TagGroup) : TagStore × Error :=
  match TagStore.groupValues json group with
  | .error err => (s, some err)
  | .ok row =>
    match s.db.insertTagGroup row with
    | .ok db => ({ db := db }, none)
    | .error err => (s, some err)

/-- The `for rows.Next()` loop of `GetAllTags`: the first row that fails to
scan or decode ends the call with that error. -/
def TagStore.GetAllTags.loop (drv : Driver) (json : JSON) :
    List TagRow → List Tag → Except String (List Tag)
  | [], tags => .ok tags
  | row :: rows, tags =>
    match TagStore.scanTag drv json row with
    | .error err => .error err
    | .ok tag => TagStore.GetAllTags.loop drv json rows (tags ++ [tag])

/-- `TagStore.GetAllTags` (tag_store.go 259-297). -/
def TagStore.GetAllTags (drv : Driver) (json : JSON) (s : TagStore) :
    Except String (List Tag) :=
  TagStore.GetAllTags.loop drv json s.db.selectTags []

/-- The `for rows.Next()` loop of `GetAllTagGroups`. -/
def TagStore.GetAllTagGroups.loop (json : JSON) :
    List TagGroupRow → List TagGroup → Except String (List TagGroup)
  | [], groups => .ok groups
  | row :: rows, groups =>
    match TagStore.scanTagGroup json row with
    | .error err => .error err
    | .ok group => TagStore.GetAllTagGroups.loop json rows (groups ++ [group])

/-- `TagStore.GetAllTagGroups` (tag_store.go 299-329). -/
def TagStore.GetAllTagGroups (json : JSON) (s : TagStore) : Except String (List TagGroup) :=
  TagStore.GetAllTagGroups.loop json s.db.selectTagGroups []

/-- `TagStore.ExportTags` (tag_store.go 332-349); `now` is its `time.Now()`. -/
def TagStore.ExportTags (drv : Driver) (json : JSON) (s : TagStore) (now : Time) :
    Except String TagExport :=
  match s.GetAllTags drv json with
  | .error err => .error err
  | .ok tags =>
    match s.GetAllTagGroups json with
    | .error err => .error err
    | .ok groups =>
      .ok { Tags := tags, TagGroups := groups, ExportedAt := now, Version := "1.0" }

/-- The `for _, tag := range export.Tags` loop of `ImportTags`. -/
def TagStore.ImportTags.insertTags (json : JSON) : Tx → List Tag → Tx × Error
  | tx, [] => (tx, none)
  | tx, tag :: rest =>
    match TagStore.tagValues json tag with
    | .error err => (tx, some err)
    | .ok row =>
      match tx.Exec (DB.insertTag row) with
      | (tx', some err) => (tx', some err)
      | (tx', none) => TagStore.ImportTags.insertTags json tx' rest

/-- The `for _, group := range export.TagGroups` loop of `ImportTags`. -/
def TagStore.ImportTags.insertGroups (json : JSON) : Tx → List TagGroup → Tx × Error
  | tx, [] => (tx, none)
  | tx, group :: rest =>
    match TagStore.groupValues json group with
    | .error err => (tx, some err)
    | .ok row =>
      match tx.Exec (DB.insertTagGroup row) with
      | (tx', some err) => (tx', some err)
      | (tx', none) => TagStore.ImportTags.insertGroups json tx' rest

/-- The statements of `ImportTags` between `defer tx.Rollback()` and the
return: the two deletes, the two insert loops, the commit. -/
def TagStore.ImportTags.body (json : JSON) (tx : Tx) (envelope : TagExport) : Tx × Error :=
  match tx.Exec DB.deleteAllTagGroups with
  | (tx, some err) => (tx, some err)
  | (tx, none) =>
    match tx.Exec DB.deleteAllTags with
    | (tx, some err) => (tx, some err)
    | (tx, none) =>
      match TagStore.ImportTags.insertTags json tx envelope.Tags with
      | (tx, some err) => (tx, some err)
      | (tx, none) =>
        match TagStore.ImportTags.insertGroups json tx envelope.TagGroups with
        | (tx, some err) => (tx, some err)
        | (tx, none) => tx.Commit

/-- `TagStore.ImportTags` (tag_store.go 351-415): begin, run the body, and on
the way out run the deferred `tx.Rollback()`. -/
def TagStore.ImportTags (json : JSON) (s : TagStore) (envelope : TagExport) : TagStore × Error :=
  let tx := s.db.Begin
  let (tx, err) := TagStore.ImportTags.body json tx envelope
  let (tx, _) := tx.Rollback
  ({ db := tx.committed }, err)

/-- `CreateTag` for each tag of a list, stopping at the first error. -/
def TagStore.createTags (json : JSON) : TagStore → List Tag → TagStore × Error
  | s, [] => (s, none)
  | s, tag :: rest =>
    match s.CreateTag json tag with
    | (s', some err) => (s', some err)
    | (s', none) => TagStore.createTags json s' rest

/-- `CreateTagGroup` for each group of a list, stopping at the first error. -/
def TagStore.createTagGroups (json : JSON) : TagStore → List TagGroup → TagStore × Error
  | s, [] => (s, none)
  | s, group :: rest =>
    match s.CreateTagGroup json group with
    | (s', some err) => (s', some err)
    | (s', none) => TagStore.createTagGroups json s' rest

/-- `SELECT ... FROM tags WHERE id = ?` as read by `QueryRow`: the first row
with the id, if any. -/
def DB.selectTag (db : DB) (id : String) : Option TagRow :=
  db.tags.find? (fun r => r.id = id)

/-- `TagStore.GetTag` (tag_store.go 87-115). -/
def TagStore.GetTag (drv : Driver) (json : JSON) (s : TagStore) (id : String) :
    Except String Tag :=
  match s.db.selectTag id with
  | none => .error "sql: no rows in result set"
  | some row => TagStore.scanTag drv json row

/-- `DELETE FROM tag_groups WHERE id = ?`. -/
def DB.deleteTagGroup (id : String) (db : DB) : Except String DB :=
  .ok { db with tag_groups := db.tag_groups.filter (fun r => r.id != id) }

/-- `TagStore.DeleteTagGroup` (tag_store.go 212-215). -/
def TagStore.DeleteTagGroup (s : TagStore) (id : String) : TagStore × Error :=
  match s.db.deleteTagGroup id with
  | .ok db => ({ db := db }, none)
  | .error err => (s, some err)

/-- `SELECT ... FROM tags WHERE parent_id = ? ORDER BY tag_order`. -/
def DB.selectTagsByParent (db : DB) (parentID : String) : List TagRow :=
  (db.tags.filter (fun r => r.parent_id = parentID)).insertionSort TagRow.le

/-- The `for rows.Next()` loop of `GetTagsByParent`. -/
def TagStore.GetTagsByParent.loop (drv : Driver) (json : JSON) :
    List TagRow → List Tag → Except String (List Tag)
  | [], tags => .ok tags
  | row :: rows, tags =>
    match TagStore.scanTag drv json row with
    | .error err => .error err
    | .ok tag => TagStore.GetTagsByParent.loop drv json rows (tags ++ [tag])

/-- `TagStore.GetTagsByParent` (tag_store.go 218-257). -/
def TagStore.GetTagsByParent (drv : Driver) (json : JSON) (s : TagStore) (parentID : String) :
    Except String (List Tag) :=
  TagStore.GetTagsByParent.loop drv json (s.db.selectTagsByParent parentID) []

/-- The first check of `Time.MarshalJSON` of the Go library: the year of the
time, in its own zone, is one of 0..9999. -/
def Time.jsonYearInRange (t : Time) : Bool :=
  decide (-62167219200 ≤ t.localSeconds ∧ t.localSeconds < 253402300800)

/-- The second check of `Time.MarshalJSON`: the hours of the zone offset, as
the layout of RFC 3339 writes them, are below 24. -/
def Time.jsonZoneInRange (t : Time) : Bool :=
  decide (-86400 < t.zoneOffset ∧ t.zoneOffset < 86400)

/-- A codec with the two checks of `Time.MarshalJSON` put before the marshalling
of the stats, as `json.Marshal(tag.UsageStats)` has them for `LastUsed`; the
error is the one `json.Marshal` returns for a failing `MarshalJSON`. -/
def JSON.withTimeCheck (json : JSON) : JSON :=
  { json with
    MarshalStats := fun v =>
      if !v.LastUsed.jsonYearInRange then
        .error "json: error calling MarshalJSON for type time.Time: Time.MarshalJSON: year outside of range [0,9999]"
      else if !v.LastUsed.jsonZoneInRange then
        .error "json: error calling MarshalJSON for type time.Time: Time.MarshalJSON: timezone hour outside of range [0,23]"
      else json.MarshalStats v }

/-- The driver on the times whose zone is UTC or a fixed zone without a name
(what `time.Parse` gives for an offset other than `Z`, and
`time.FixedZone("", offset)`). `Time.String()` writes such a zone as its offset
twice, as in `+0530 +0530`, the second in place of the name, and `time.Parse`
reads a name of that form only when its digits make a number up to 23; it reads
a year of four digits. The offset is written in whole minutes, so what is read
back is the written clock time at the offset cut to minutes. -/
def Driver.unnamedZones : Driver where
  scanTime t :=
    let zone := Int.tdiv t.zoneOffset 60
    if t.jsonYearInRange ∧ -23 ≤ zone ∧ zone ≤ 23 then
      .ok { unixNano := t.unixNano + (t.zoneOffset - zone * 60) * 1000000000
            zoneOffset := zone * 60 }
    else
      .error "unsupported Scan, storing driver.Value type string into type *time.Time"

/-! ## Values for the examples -/

/-- The JSON texts of the values the examples store: the zero `TagStats` and
the id list `["t1","t2"]`. -/
def exampleJSON : JSON :=
  JSON.ofTables
    [({}, "\x7b\"last_used\":\"0001-01-01T00:00:00Z\",\"usage_count\":0,\"bookmark_count\":0,\"historical_count\":0\x7d")]
    [(["t1", "t2"], "[\"t1\",\"t2\"]")]

/-- The row `CreateTag` and `ImportTags` write for a tag with zero times and
zero stats. -/
def exampleRow (id name : String) (order : Int) : TagRow :=
  { id := id, name := name, color := "", description := "", parent_id := "",
    tag_order := order, created_at := Time.zero, updated_at := Time.zero,
    usage_stats := "\x7b\"last_used\":\"0001-01-01T00:00:00Z\",\"usage_count\":0,\"bookmark_count\":0,\"historical_count\":0\x7d" }

/-- A store holding one tag, `old`. -/
def exampleStore : TagStore := { db := { tags := [exampleRow "old" "stale" 3] } }

/-- An envelope with the single tag `t1`, whose `Count` is 5. -/
def exampleEnvelope : TagExport :=
  { Tags := [{ ID := "t1", Name := "go", Count := 5 }], TagGroups := [],
    ExportedAt := Time.zero, Version := "1.0" }

/-- An envelope in which two tags share the id `t1`. -/
def duplicateEnvelope : TagExport :=
  { Tags := [{ ID := "t1", Name := "go" }, { ID := "t1", Name := "rust" }], TagGroups := [],
    ExportedAt := Time.zero, Version := "1.0" }

/-- Two tags with distinct ids, the first with `Count = 5`. -/
def exampleTags : List Tag :=
  [{ ID := "t1", Name := "go", Count := 5 }, { ID := "t2", Name := "rust", Order := -1 }]

/-- One group over the two example tags. -/
def exampleGroups : List TagGroup :=
  [{ ID := "g1", Name := "New Group", TagIDs := ["t1", "t2"], Expanded := true }]

/-- A store with a root tag `p`, its children `c1` (order 2) and `c2` (order 1),
and `gc`, a child of `c1`. -/
def familyStore : TagStore :=
  { db := { tags :=
      [exampleRow "p" "parent" 0,
       { exampleRow "c1" "first" 2 with parent_id := "p" },
       { exampleRow "gc" "grandchild" 0 with parent_id := "c1" },
       { exampleRow "c2" "second" 1 with parent_id := "p" }] } }

/-- A world in which marshalling and writing the file succeed, with the given
clock reading for the file name. -/
def exampleWorld (nowPath : Time) : ExportWorld :=
  { now := nowPath
    nowPath := nowPath
    MarshalIndent := fun _ => .ok "json"
    Format := Time.FormatStamp
    WriteFile := fun _ _ => none }

instance : IsTotal TagRow TagRow.le := ⟨fun a b => Int.le_total a.tag_order b.tag_order⟩

instance : IsTrans TagRow TagRow.le := ⟨fun _ _ _ h₁ h₂ => Int.le_trans h₁ h₂⟩

instance : IsTotal TagGroupRow TagGroupRow.le :=
  ⟨fun a b => Int.le_total a.group_order b.group_order⟩

instance : IsTrans TagGroupRow TagGroupRow.le := ⟨fun _ _ _ h₁ h₂ => Int.le_trans h₁ h₂⟩

/-! ## Further operations of the models and of the state -/

/-- The value an arithmetic result takes in Go's `int`, which is `bits` wide (32
or 64, by platform): it wraps around into the range from -2^(bits-1) to
2^(bits-1) - 1. -/
def wrapInt (bits : Nat) (x : Int) : Int :=
  (x + 2 ^ (bits - 1)) % 2 ^ bits - 2 ^ (bits - 1)

/-- The values of an `int` that is `bits` wide. -/
def inIntRange (bits : Nat) (x : Int) : Prop :=
  -2 ^ (bits - 1) ≤ x ∧ x < 2 ^ (bits - 1)

instance (bits : Nat) (x : Int) : Decidable (inIntRange bits x) :=
  inferInstanceAs (Decidable (_ ∧ _))

/-- `Tag.UpdateStats` (tag.go 82-95) where `int` is `bits` wide; `now` is its
`time.Now()`, the result is the tag after the call. -/
def Tag.UpdateStats (bits : Nat) (t : Tag) (now : Time) (_bookmarkID : String)
    (operation : String) : Tag :=
  let t₁ : Tag := { t with UpdatedAt := now }
  let t₂ : Tag := { t₁ with UsageStats := { t₁.UsageStats with LastUsed := now } }
  if operation = "add" then
    { t₂ with UsageStats :=
        { t₂.UsageStats with
          UsageCount := wrapInt bits (t₂.UsageStats.UsageCount + 1)
          BookmarkCount := wrapInt bits (t₂.UsageStats.BookmarkCount + 1)
          HistoricalCount := wrapInt bits (t₂.UsageStats.HistoricalCount + 1) } }
  else if operation = "remove" then
    { t₂ with UsageStats :=
        { t₂.UsageStats with BookmarkCount := wrapInt bits (t₂.UsageStats.BookmarkCount - 1) } }
  else t₂

/-- A tag whose three counters are the largest 64-bit `int`. -/
def saturatedTag : Tag :=
  { ID := "t1"
    UsageStats :=
      { UsageCount := 9223372036854775807
        BookmarkCount := 9223372036854775807
        HistoricalCount := 9223372036854775807 } }

/-- A tag used as often as a 64-bit `int` can count, on no bookmark now. -/
def wornTag : Tag :=
  { ID := "t1"
    UsageStats :=
      { UsageCount := 9223372036854775807
        BookmarkCount := 0
        HistoricalCount := 9223372036854775807 } }

/-- `AppState.GetTags` (state.go 112-116). -/
def AppState.GetTags (s : AppState) : Outcome (List Tag) :=
  s.withRLock fun s => .returned s s.tags

/-- `AppState.DeleteBookmark` (state.go 94-104). The capacity argument of
`make([]models.Bookmark, 0, len(s.bookmarks)-1)` makes the runtime panic when
it is negative. The method has no result. -/
def AppState.DeleteBookmark (s : AppState) (bookmark : Bookmark) : Outcome Unit :=
  s.withLock fun s =>
    if (s.bookmarks.length : Int) - 1 < 0 then
      .panicked s "runtime error: makeslice: cap out of range"
    else
      let newBookmarks := s.bookmarks.foldl
        (fun acc b => if b.ID != bookmark.ID then acc ++ [b] else acc) []
      .returned { s with bookmarks := newBookmarks } ()

/-- `AppState.Logout` (state.go 235-245). -/
def AppState.Logout (s : AppState) : Outcome Unit :=
  s.withLock fun s =>
    .returned
      { s with
        currentUser := none
        bookmarks := []
        tags := []
        tagGroups := []
        currentPage := ""
        searchQuery := "" } ()

/-- A call of one of the operations that write the tag sequence. -/
inductive TagOp where
  | saveTag (tag : Tag)
  | deleteTag (tag : Tag)
  | deleteTags (tagIDs : List String)
  | logout
deriving DecidableEq, Repr

/-- The state a call leaves behind, however the call ends. -/
def TagOp.apply (s : AppState) : TagOp → AppState
  | .saveTag tag => (s.SaveTag tag).state
  | .deleteTag tag => (s.DeleteTag tag).state
  | .deleteTags tagIDs => (s.DeleteTags tagIDs).state
  | .logout => s.Logout.state

/-- The state after a sequence of calls, one after the other. -/
def TagOp.run (s : AppState) (ops : List TagOp) : AppState :=
  ops.foldl TagOp.apply s

/-! ## Scraping a meta tag (`internal/share/handler.go`) -/

/-- `strings.Index(s, substr)` on the characters of the two strings: the first
position at which `substr` starts, if there is one. -/
def strings.IndexChars : List Char → List Char → Option Nat
  | [], substr => if substr.isPrefixOf [] then some 0 else none
  | c :: cs, substr =>
    if substr.isPrefixOf (c :: cs) then some 0
    else (strings.IndexChars cs substr).map (fun i => i + 1)

/-- `strings.Index(s, substr)`: the position, or -1. -/
def strings.Index (s substr : String) : Int :=
  match strings.IndexChars s.data substr.data with
  | some i => (i : Int)
  | none => -1

/-- The slice expression `s[lo:hi]`; `none` is the runtime panic
"slice bounds out of range". -/
def sliceString (s : String) (lo hi : Int) : Option String :=
  if 0 ≤ lo ∧ lo ≤ hi ∧ hi ≤ (s.data.length : Int) then
    some ⟨(s.data.drop lo.toNat).take (hi.toNat - lo.toNat)⟩
  else none

/-- `extractMetaTag` (handler.go 99-121); `none` is a runtime panic of one of
its slice expressions. -/
def extractMetaTag (html tag : String) : Option String :=
  let tagStart₀ := strings.Index html ("<meta name=\"" ++ tag ++ "\"")
  let tagStart :=
    if tagStart₀ = -1 then strings.Index html ("<meta property=\"" ++ tag ++ "\"")
    else tagStart₀
  if tagStart = -1 then some ""
  else
    match sliceString html tagStart (html.data.length : Int) with
    | none => none
    | some fromTag =>
      let contentStart₀ := strings.Index fromTag "content=\""
      if contentStart₀ = -1 then some ""
      else
        let contentStart := contentStart₀ + tagStart + 9
        match sliceString html contentStart (html.data.length : Int) with
        | none => none
        | some fromContent =>
          let contentEnd₀ := strings.Index fromContent "\""
          if contentEnd₀ = -1 then some ""
          else
            let contentEnd := contentEnd₀ + contentStart
            sliceString html contentStart contentEnd

/-- The occurrence that `extractMetaTag` works from, as the positions of its
first character and of the character after its last: the first
`<meta name="tag"`, or failing that the first `<meta property="tag"`. -/
def metaTagOccurrence (html tag : String) : Option (Nat × Nat) :=
  match strings.IndexChars html.data ("<meta name=\"" ++ tag ++ "\"").data with
  | some i => some (i, i + ("<meta name=\"" ++ tag ++ "\"").data.length)
  | none =>
    match strings.IndexChars html.data ("<meta property=\"" ++ tag ++ "\"").data with
    | some i => some (i, i + ("<meta property=\"" ++ tag ++ "\"").data.length)
    | none => none

/-! ## RFC 3339 times (`Time.Format` and `time.Parse` of the Go library)

`Tag.MarshalJSON` renders `CreatedAt` and `UpdatedAt` with
`Format(time.RFC3339)` and `Tag.UnmarshalJSON` reads them back with
`time.Parse(time.RFC3339, ...)`; the layout is `2006-01-02T15:04:05Z07:00`. -/

/-- The zone field `Z07:00` of `Time.Format`: `Z` for offset 0, else the sign
and the offset in hours and minutes; seconds of the offset are dropped. -/
def formatZone (offset : Int) : String :=
  if offset = 0 then "Z"
  else
    let zone := Int.tdiv offset 60
    if zone < 0 then "-" ++ appendInt ((-zone) / 60) 2 ++ ":" ++ appendInt ((-zone) % 60) 2
    else "+" ++ appendInt (zone / 60) 2 ++ ":" ++ appendInt (zone % 60) 2

/-- `t.Format(time.RFC3339)`. -/
def Time.FormatRFC3339 (t : Time) : String :=
  let secs := t.localSeconds
  let date := civilFromDays (secs / 86400)
  let rem := secs % 86400
  appendInt date.1 4 ++ "-" ++ appendInt date.2.1 2 ++ "-" ++ appendInt date.2.2 2 ++ "T" ++
    appendInt (rem / 3600) 2 ++ ":" ++ appendInt (rem % 3600 / 60) 2 ++ ":" ++
    appendInt (rem % 60) 2 ++ formatZone t.zoneOffset

/-- `isDigit` of package `time`. -/
def isDigit (c : Char) : Bool := decide ('0' ≤ c ∧ c ≤ '9')

/-- The value `c - '0'` of a digit. -/
def digitValue (c : Char) : Int := (c.toNat : Int) - 48

/-- `getnum(s, fixed)` of package `time`: one or two digits, exactly two when
`fixed`. -/
def getnum (s : List Char) (fixed : Bool) : Option (Int × List Char) :=
  match s with
  | [] => none
  | c₀ :: rest =>
    if !isDigit c₀ then none
    else
      match rest with
      | [] => if fixed then none else some (digitValue c₀, rest)
      | c₁ :: rest₁ =>
        if !isDigit c₁ then (if fixed then none else some (digitValue c₀, rest))
        else some (digitValue c₀ * 10 + digitValue c₁, rest₁)

/-- The literal text between two fields of the layout. -/
def skipChar (c : Char) (s : List Char) : Option (List Char) :=
  match s with
  | [] => none
  | c₀ :: rest => if c₀ = c then some rest else none

/-- The four-digit year field (`stdLongYear`). -/
def getYear (s : List Char) : Option (Int × List Char) :=
  match s with
  | c₀ :: c₁ :: c₂ :: c₃ :: rest =>
    if isDigit c₀ && isDigit c₁ && isDigit c₂ && isDigit c₃ then
      some (digitValue c₀ * 1000 + digitValue c₁ * 100 + digitValue c₂ * 10 + digitValue c₃,
        rest)
    else none
  | _ => none

/-- The value of a run of digits read as a fraction of a second, in
nanoseconds (`parseNanoseconds`): digits after the ninth are dropped. -/
def fracNanos (digits : List Char) : Int :=
  let kept := digits.take 9
  kept.foldl (fun acc c => acc * 10 + digitValue c) 0 * 10 ^ (9 - kept.length)

/-- A fractional second in the input where the layout has none: a period or
comma followed by at least one digit is read and consumed. -/
def getFraction (s : List Char) : Int × List Char :=
  match s with
  | c₀ :: c₁ :: rest =>
    if (c₀ = '.' || c₀ = ',') && isDigit c₁ then
      let digits := (c₁ :: rest).takeWhile isDigit
      (fracNanos digits, (c₁ :: rest).drop digits.length)
    else (0, s)
  | _ => (0, s)

/-- The zone field `Z07:00` of `time.Parse`: the offset in seconds and the
rest of the input, or `none` when the field is malformed or out of range. -/
def getZone (s : List Char) : Option (Int × List Char) :=
  match s with
  | [] => none
  | sign :: rest =>
    if sign = 'Z' then some (0, rest)
    else
      match rest with
      | h₀ :: h₁ :: colon :: m₀ :: m₁ :: rest₁ =>
        if colon ≠ ':' then none
        else
          match getnum [h₀, h₁] true, getnum [m₀, m₁] true with
          | some (hr, _), some (mm, _) =>
            if hr > 24 ∨ mm > 60 then none
            else
              let zoneOffset := (hr * 60 + mm) * 60
              if sign = '+' then some (zoneOffset, rest₁)
              else if sign = '-' then some (-zoneOffset, rest₁)
              else none
          | _, _ => none
      | _ => none

/-- `isLeap` of package `time`. -/
def isLeap (year : Int) : Bool :=
  decide (year % 4 = 0 ∧ (year % 100 ≠ 0 ∨ year % 400 = 0))

/-- `daysIn(month, year)` of package `time`. -/
def daysIn (month year : Int) : Int :=
  if month = 2 then (if isLeap year then 29 else 28)
  else if month = 4 ∨ month = 6 ∨ month = 9 ∨ month = 11 then 30
  else 31

/-- The day number, counted from 1970-01-01, of a date of the proleptic
Gregorian calendar (the date arithmetic of `time.Date`). -/
def daysFromCivil (y m d : Int) : Int :=
  let y₁ := if m ≤ 2 then y - 1 else y
  let era := y₁ / 400
  let yoe := y₁ - era * 400
  let mp := if m > 2 then m - 3 else m + 9
  let doy := (153 * mp + 2) / 5 + d - 1
  let doe := yoe * 365 + yoe / 4 - yoe / 100 + doy
  era * 146097 + doe - 719468

/-- The fields `time.Parse` reads along the layout `2006-01-02T15:04:05Z07:00`,
with the range checks it makes on the way, and the text left over. -/
structure ParsedFields where
  year : Int
  month : Int
  day : Int
  hour : Int
  min : Int
  sec : Int
  nsec : Int
  zoneOffset : Int
  rest : List Char

/-- The walk of `time.Parse` along the layout of RFC 3339; `none` when a field
or a separator is missing, or when month, hour, minute, second or zone are out
of range. -/
def ParseRFC3339.fields (value : List Char) : Option ParsedFields :=
  match getYear value with
  | none => none
  | some (year, v) =>
  match skipChar '-' v with
  | none => none
  | some v =>
  match getnum v true with
  | none => none
  | some (month, v) =>
  if month ≤ 0 ∨ 12 < month then none
  else
  match skipChar '-' v with
  | none => none
  | some v =>
  match getnum v true with
  | none => none
  | some (day, v) =>
  match skipChar 'T' v with
  | none => none
  | some v =>
  match getnum v false with
  | none => none
  | some (hour, v) =>
  if hour < 0 ∨ 24 ≤ hour then none
  else
  match skipChar ':' v with
  | none => none
  | some v =>
  match getnum v true with
  | none => none
  | some (min, v) =>
  if min < 0 ∨ 60 ≤ min then none
  else
  match skipChar ':' v with
  | none => none
  | some v =>
  match getnum v true with
  | none => none
  | some (sec, v) =>
  if sec < 0 ∨ 60 ≤ sec then none
  else
  match getZone (getFraction v).2 with
  | none => none
  | some (zoneOffset, rest) =>
    some { year := year, month := month, day := day, hour := hour, min := min, sec := sec,
           nsec := (getFraction v).1, zoneOffset := zoneOffset, rest := rest }

/-- `time.Parse(time.RFC3339, value)`. -/
def ParseRFC3339 (value : String) : Except String Time :=
  match ParseRFC3339.fields value.data with
  | none => .error ("parsing time \"" ++ value ++ "\" as \"2006-01-02T15:04:05Z07:00\"")
  | some f =>
    if f.rest ≠ [] then
      .error ("parsing time \"" ++ value ++ "\": extra text")
    else if f.day < 1 ∨ f.day > daysIn f.month f.year then
      .error ("parsing time \"" ++ value ++ "\": day out of range")
    else
      .ok { unixNano :=
              (daysFromCivil f.year f.month f.day * 86400 + f.hour * 3600 + f.min * 60 + f.sec
                - f.zoneOffset) * 1000000000 + f.nsec
            zoneOffset := f.zoneOffset }

/-! ## The timestamp grammar of RFC 3339

A second, independent description of timestamps, written from the grammar of
section 5.6 of RFC 3339 (`date-time = full-date "T" full-time`) and not from
the code of `time.Parse`. The grammar has six points at which readers differ;
a `TimestampGrammar` fixes them, so that the standard and the strings that
`time.Parse(time.RFC3339, ...)` takes are two instances of one description. -/

/-- The six points at which a reader of timestamps may depart from the
productions of RFC 3339. -/
structure TimestampGrammar where
  /-- Whether `t` and `z` may stand for `T` and `Z`. -/
  lowerCase : Bool
  /-- Whether the second may be 60 (a leap second). -/
  leapSecond : Bool
  /-- Whether the hour may be written with one digit. -/
  shortHour : Bool
  /-- Whether a comma may stand for the period before the fraction of a second. -/
  commaFraction : Bool
  /-- The largest hour of a numeric offset. -/
  offsetHourMax : Nat
  /-- The largest minute of a numeric offset. -/
  offsetMinuteMax : Nat
deriving DecidableEq, Repr

/-- RFC 3339 itself: `T` and `Z` in either case (section 5.6, note), a second
up to 60, two-digit hours, a period before the fraction, offsets up to 23:59. -/
def TimestampGrammar.rfc3339 : TimestampGrammar :=
  { lowerCase := true, leapSecond := true, shortHour := false, commaFraction := false,
    offsetHourMax := 23, offsetMinuteMax := 59 }

/-- The number written by a non-empty run of decimal digits. -/
def TimestampGrammar.decimal (digits : List Char) : Option Nat :=
  if digits ≠ [] ∧ digits.all Char.isDigit then
    some (digits.foldl (fun n c => n * 10 + (c.toNat - 48)) 0)
  else none

/-- A number is written and lies between the two bounds. -/
def TimestampGrammar.inRange (lo hi : Nat) : Option Nat → Bool
  | some n => decide (lo ≤ n ∧ n ≤ hi)
  | none => false

/-- The days of a month (RFC 3339 section 5.7 and appendix C): February has 29
days in a year divisible by 4 and not by 100, or divisible by 400. -/
def TimestampGrammar.daysInMonth (year month : Nat) : Nat :=
  if month = 2 then
    (if year % 4 = 0 ∧ (year % 100 ≠ 0 ∨ year % 400 = 0) then 29 else 28)
  else if month = 4 ∨ month = 6 ∨ month = 9 ∨ month = 11 then 30
  else 31

/-- The production `full-date = date-fullyear "-" date-month "-" date-mday`:
four, two and two digits, the month from 01 to 12, the day from 01 to the last
day of the month. -/
def TimestampGrammar.isFullDate : List Char → Bool
  | [y₀, y₁, y₂, y₃, dash₁, n₀, n₁, dash₂, d₀, d₁] =>
    match TimestampGrammar.decimal [y₀, y₁, y₂, y₃], TimestampGrammar.decimal [n₀, n₁],
      TimestampGrammar.decimal [d₀, d₁] with
    | some year, some month, some day =>
      decide (dash₁ = '-' ∧ dash₂ = '-' ∧ 1 ≤ month ∧ month ≤ 12 ∧ 1 ≤ day ∧
        day ≤ TimestampGrammar.daysInMonth year month)
    | _, _, _ => false
  | _ => false

/-- The `"T"` between date and time. -/
def TimestampGrammar.isSeparator (g : TimestampGrammar) : List Char → Bool
  | [c] => c = 'T' || (g.lowerCase && c = 't')
  | _ => false

/-- The production `time-offset = "Z" / time-numoffset`, with
`time-numoffset = ("+" / "-") time-hour ":" time-minute`. -/
def TimestampGrammar.isTimeOffset (g : TimestampGrammar) : List Char → Bool
  | [z] => z = 'Z' || (g.lowerCase && z = 'z')
  | [sign, h₀, h₁, colon, m₀, m₁] =>
    (sign = '+' || sign = '-') && colon = ':' &&
      TimestampGrammar.inRange 0 g.offsetHourMax (TimestampGrammar.decimal [h₀, h₁]) &&
      TimestampGrammar.inRange 0 g.offsetMinuteMax (TimestampGrammar.decimal [m₀, m₁])
  | _ => false

/-- One or more digits (the `1*DIGIT` of `time-secfrac`), then the offset. -/
def TimestampGrammar.isDigitsThenOffset (g : TimestampGrammar) : List Char → Bool
  | [] => false
  | c :: rest => c.isDigit && (g.isTimeOffset rest || g.isDigitsThenOffset rest)

/-- The end of `full-time`: `[time-secfrac] time-offset`, with
`time-secfrac = "." 1*DIGIT`. -/
def TimestampGrammar.isFractionThenOffset (g : TimestampGrammar) : List Char → Bool
  | [] => false
  | c :: rest =>
    g.isTimeOffset (c :: rest) ||
      ((c = '.' || (g.commaFraction && c = ',')) && g.isDigitsThenOffset rest)

/-- What follows the hour in `full-time`:
`":" time-minute ":" time-second [time-secfrac] time-offset`, the minute from
00 to 59, the second from 00 to 59, or to 60 where leap seconds are written. -/
def TimestampGrammar.isMinuteSecondRest (g : TimestampGrammar) : List Char → Bool
  | colon₁ :: m₀ :: m₁ :: colon₂ :: s₀ :: s₁ :: rest =>
    colon₁ = ':' && colon₂ = ':' &&
      TimestampGrammar.inRange 0 59 (TimestampGrammar.decimal [m₀, m₁]) &&
      TimestampGrammar.inRange 0 (if g.leapSecond then 60 else 59)
        (TimestampGrammar.decimal [s₀, s₁]) &&
      g.isFractionThenOffset rest
  | _ => false

/-- The production `full-time = partial-time time-offset`: an hour from 00 to
23 in two digits, or in one digit where that is taken, then the rest. -/
def TimestampGrammar.isFullTime (g : TimestampGrammar) (l : List Char) : Bool :=
  ((l.take 2).length = 2 && TimestampGrammar.inRange 0 23 (TimestampGrammar.decimal (l.take 2)) &&
      g.isMinuteSecondRest (l.drop 2)) ||
    (g.shortHour && TimestampGrammar.inRange 0 23 (TimestampGrammar.decimal (l.take 1)) &&
      g.isMinuteSecondRest (l.drop 1))

/-- The production `date-time = full-date "T" full-time`: the first ten
characters are the date, the eleventh is the separator, the rest is the time. -/
def TimestampGrammar.accepts (g : TimestampGrammar) (s : String) : Bool :=
  TimestampGrammar.isFullDate (s.data.take 10) && g.isSeparator ((s.data.drop 10).take 1) &&
    g.isFullTime (s.data.drop 11)

/-! ## The JSON form of a tag (`Tag.MarshalJSON`, `Tag.UnmarshalJSON`)

Both methods go through an auxiliary struct that embeds the tag under an alias
type without methods and adds two string fields `created_at` and `updated_at`;
being less deeply nested, the two strings take the place of the tag's own time
fields of the same keys. The JSON object is modelled key by key, each value
already of the JSON type of its field. Malformed input, and values of another
JSON type, make `json.Unmarshal` fail before any line of the repository runs
and are outside the model. -/

/-- The JSON object of a tag; `none` is an absent key. `usage_stats` holds the
JSON text of the nested object. -/
structure TagObject where
  id : Option String := none
  name : Option String := none
  color : Option String := none
  description : Option String := none
  parent_id : Option String := none
  order : Option Int := none
  count : Option Int := none
  usage_stats : Option String := none
  created_at : Option String := none
  updated_at : Option String := none
deriving DecidableEq, Repr

/-- `Tag.MarshalJSON` (tag.go 44-55). `parent_id` is `omitempty`; the only
value that can fail to marshal is `UsageStats.LastUsed`. -/
def Tag.MarshalJSON (json : JSON) (t : Tag) : Except String TagObject :=
  let createdAt := t.CreatedAt.FormatRFC3339
  let updatedAt := t.UpdatedAt.FormatRFC3339
  match json.MarshalStats t.UsageStats with
  | .error err => .error err
  | .ok stats =>
    .ok { id := some t.ID
          name := some t.Name
          color := some t.Color
          description := some t.Description
          parent_id := if t.ParentID = "" then none else some t.ParentID
          order := some t.Order
          count := some t.Count
          usage_stats := some stats
          created_at := some createdAt
          updated_at := some updatedAt }

/-- `Tag.UnmarshalJSON` (tag.go 57-79) on the receiver `t`: `json.Unmarshal`
writes the keys that are present through the alias into the receiver and the
two strings into the auxiliary struct, where an absent key leaves the empty
string; then both strings go through `time.Parse`. The result is the receiver
after a `nil` return; what an error return leaves in the receiver is not
modelled. A present `usage_stats` is decoded on its own, as into zero stats. -/
def Tag.UnmarshalJSON (json : JSON) (t : Tag) (data : TagObject) : Except String Tag :=
  let stats : Except String TagStats :=
    match data.usage_stats with
    | none => .ok t.UsageStats
    | some text => json.UnmarshalStats text
  match stats with
  | .error err => .error err
  | .ok stats =>
    let t₁ : Tag :=
      { t with
        ID := data.id.getD t.ID
        Name := data.name.getD t.Name
        Color := data.color.getD t.Color
        Description := data.description.getD t.Description
        ParentID := data.parent_id.getD t.ParentID
        Order := data.order.getD t.Order
        Count := data.count.getD t.Count
        UsageStats := stats }
    let auxCreatedAt := data.created_at.getD ""
    let auxUpdatedAt := data.updated_at.getD ""
    match ParseRFC3339 auxCreatedAt with
    | .error err => .error err
    | .ok createdAt =>
      match ParseRFC3339 auxUpdatedAt with
      | .error err => .error err
      | .ok updatedAt => .ok { t₁ with CreatedAt := createdAt, UpdatedAt := updatedAt }

/-- The times that `Format(time.RFC3339)` writes in full and `time.Parse`
reads back: no fraction of a second, a year from 0 to 9999 in the time's own
zone, and a zone offset of whole minutes, less than a day either way. -/
def Time.exactInRFC3339 (t : Time) : Bool :=
  decide (t.unixNano % 1000000000 = 0 ∧ t.jsonYearInRange = true ∧ t.zoneOffset % 60 = 0 ∧
    -86400 < t.zoneOffset ∧ t.zoneOffset < 86400)

/-- A tag created at 2023-11-14T22:13:20Z and updated an hour later, in a
zone five and a half hours east. -/
def stampedTag : Tag :=
  { ID := "t1", Name := "go", Color := "#00add8", Order := 2, Count := 5,
    CreatedAt := { unixNano := 1700000000000000000 },
    UpdatedAt := { unixNano := 1700003600000000000, zoneOffset := 19800 } }

/-- A tag created at the first instant of the year 10000. -/
def lateTag : Tag :=
  { ID := "t1", Name := "go", CreatedAt := { unixNano := 253402300800000000000 } }

/-! ## The batch operations of the tags page (`internal/ui/tags.go`) -/

/-- `components.Snackbar`: the fields that `Show` writes. -/
structure Snackbar where
  message : String := ""
  visible : Bool := false
  showTime : Time := Time.zero
deriving DecidableEq, Repr

/-- `Snackbar.Show`; `now` is its `time.Now()`. `ShowMessage` and `ShowError`
pass their message on to it. -/
def Snackbar.Show (s : Snackbar) (now : Time) (message : String) : Snackbar :=
  { s with message := message, visible := true, showTime := now }

/-- The field `batchOps` of the page: the flag that shows the batch toolbar. -/
structure BatchOps where
  visible : Bool := false
deriving DecidableEq, Repr

/-- The fields of `ui.TagsPage` that the batch handlers read or write. The map
`selectedTags` is the list of its entries, in the order in which `range`
visits them; `make(map[string]bool)` is the empty list. -/
structure TagsPage where
  state : AppState := NewAppState
  toast : Snackbar := {}
  selectedTags : List (String × Bool) := []
  batchOps : BatchOps := {}
  filteredTags : List Tag := []
deriving DecidableEq, Repr

/-- How a handler of the page ends: it runs to its end or to a `return`, a
runtime panic unwinds out of it, or it blocks for ever inside a call on the
state. -/
inductive HandlerOutcome where
  | completed (tp : TagsPage)
  | panicked (tp : TagsPage) (msg : String)
  | blocked (tp : TagsPage)
deriving DecidableEq, Repr

/-- The loop `for tagID := range tp.selectedTags` that collects the ids. -/
def TagsPage.selectedIDs (tp : TagsPage) : List String :=
  tp.selectedTags.foldl (fun tagIDs entry => tagIDs ++ [entry.1]) []

/-- `TagsPage.handleBatchDelete` (tags.go 283-302). -/
def TagsPage.handleBatchDelete (tp : TagsPage) (now : Time) : HandlerOutcome :=
  let tagIDs := tp.selectedIDs
  match tp.state.DeleteTags tagIDs with
  | .blocked s => .blocked { tp with state := s }
  | .panicked s msg => .panicked { tp with state := s } msg
  | .returned s (some err) =>
    .completed { tp with state := s, toast := tp.toast.Show now ("Error deleting tags: " ++ err) }
  | .returned s none =>
    match s.GetTags with
    | .blocked s₁ => .blocked { tp with state := s₁ }
    | .panicked s₁ msg => .panicked { tp with state := s₁ } msg
    | .returned s₁ tags =>
      .completed
        { tp with
          state := s₁
          filteredTags := tags
          selectedTags := []
          batchOps := { tp.batchOps with visible := false }
          toast := tp.toast.Show now (toString tagIDs.length ++ " tags deleted") }

/-- `TagsPage.handleBatchGroup` (tags.go 304-323); `idTime` is the clock
reading from which `GroupTags` makes the id of the group. -/
def TagsPage.handleBatchGroup (tp : TagsPage) (idTime now : Time) : HandlerOutcome :=
  let tagIDs := tp.selectedIDs
  match tp.state.GroupTags tagIDs idTime with
  | .blocked s => .blocked { tp with state := s }
  | .panicked s msg => .panicked { tp with state := s } msg
  | .returned s (some err) =>
    .completed { tp with state := s, toast := tp.toast.Show now ("Error grouping tags: " ++ err) }
  | .returned s none =>
    match s.GetTags with
    | .blocked s₁ => .blocked { tp with state := s₁ }
    | .panicked s₁ msg => .panicked { tp with state := s₁ } msg
    | .returned s₁ tags =>
      .completed
        { tp with
          state := s₁
          filteredTags := tags
          selectedTags := []
          batchOps := { tp.batchOps with visible := false }
          toast := tp.toast.Show now (toString tagIDs.length ++ " tags grouped") }

/-- `TagsPage.handleBatchExport` (tags.go 325-339). -/
def TagsPage.handleBatchExport (tp : TagsPage) (w : ExportWorld) (now : Time) :
    HandlerOutcome :=
  let tagIDs := tp.selectedIDs
  match tp.state.ExportTags w tagIDs with
  | .blocked s => .blocked { tp with state := s }
  | .panicked s msg => .panicked { tp with state := s } msg
  | .returned s (_, some err) =>
    .completed { tp with state := s, toast := tp.toast.Show now ("Failed to export tags: " ++ err) }
  | .returned s (exportPath, none) =>
    .completed
      { tp with
        state := s
        toast := tp.toast.Show now ("Tags exported successfully to " ++ exportPath) }

/-- A page over a state with the tags `t1` and `t2`, with `t1` selected and
the batch toolbar showing. -/
def examplePage : TagsPage :=
  { state := { tags := [{ ID := "t1", Name := "go" }, { ID := "t2", Name := "rust" }] }
    selectedTags := [("t1", true)]
    batchOps := { visible := true } }

/-- A world in which writing the export file fails. -/
def failingWorld : ExportWorld :=
  { now := Time.zero
    nowPath := Time.zero
    MarshalIndent := fun _ => .ok "json"
    Format := Time.FormatStamp
    WriteFile := fun _ _ => some "permission denied" }

/-! ## Values for the examples of the read path -/

/-- A store as `CreateTag` leaves it after the tag `p` and its child `c1`, whose
`UpdatedAt` is in a zone five and a half hours east that has no name. -/
def zonedChildStore : TagStore :=
  { db := { tags :=
      [exampleRow "p" "parent" 0,
       { exampleRow "c1" "first" 1 with
         parent_id := "p"
         updated_at := { unixNano := 1700003600000000000, zoneOffset := 19800 } }] } }

/-- A store whose tag `c1`, a child of `p`, has a `usage_stats` column that is
not JSON. -/
def brokenChildStore : TagStore :=
  { db := { tags :=
      [exampleRow "p" "parent" 0,
       { exampleRow "c1" "first" 1 with parent_id := "p", usage_stats := "" }] } }

/-! # Theorems -/

/-! ## Loop lemmas -/

/-- An accumulate-if loop is a filter. -/
theorem foldl_append_if {α : Type} (p : α → Bool) (l : List α) (init : List α) :
    l.foldl (fun acc x => if p x then acc ++ [x] else acc) init = init ++ l.filter p := by
  induction l generalizing init with
  | nil => simp
  | cons x xs ih =>
    simp only [List.foldl_cons, ih]
    cases hp : p x <;> simp [List.filter_cons, hp]

/-- Reading the map built from a key list is list membership. -/
theorem BoolMap.ofKeys_apply (ids : List String) (k : String) :
    BoolMap.ofKeys ids k = decide (k ∈ ids) := by
  have gen : ∀ (m : BoolMap), (ids.foldl (fun m id => m.set id true) m) k
      = (m k || decide (k ∈ ids)) := by
    induction ids with
    | nil => intro m; simp
    | cons id rest ih =>
      intro m
      simp only [List.foldl_cons, ih, BoolMap.set, List.mem_cons]
      by_cases hk : k = id <;> simp [hk]
  simpa [BoolMap.ofKeys, BoolMap.empty] using gen BoolMap.empty

theorem set_length_append {α : Type} (pre : List α) (x t : α) (post : List α) :
    (pre ++ x :: post).set pre.length t = pre ++ t :: post := by
  induction pre with
  | nil => rfl
  | cons y ys ih => simp [List.set, ih]

/-- The upsert loop of `SaveTag`, started after the prefix `pre` in which no
id matches. -/
theorem SaveTag.scan_spec (tag : Tag) (pre rest : List Tag)
    (hpre : ∀ y ∈ pre, y.ID ≠ tag.ID) :
    (∃ mid x post, rest = mid ++ x :: post ∧ (∀ y ∈ pre ++ mid, y.ID ≠ tag.ID) ∧ x.ID = tag.ID ∧
        AppState.SaveTag.scan tag (pre ++ rest) rest pre.length = some (pre ++ mid ++ tag :: post)) ∨
    ((∀ y ∈ pre ++ rest, y.ID ≠ tag.ID) ∧
        AppState.SaveTag.scan tag (pre ++ rest) rest pre.length = none) := by
  induction rest generalizing pre with
  | nil =>
    right
    simpa [AppState.SaveTag.scan] using hpre
  | cons t rest ih =>
    by_cases ht : t.ID = tag.ID
    · left
      refine ⟨[], t, rest, rfl, by simpa using hpre, ht, ?_⟩
      simp [AppState.SaveTag.scan, ht, set_length_append]
    · have hpre' : ∀ y ∈ pre ++ [t], y.ID ≠ tag.ID := by
        intro y hy
        rcases List.mem_append.1 hy with h | h
        · exact hpre y h
        · simp at h; subst h; exact ht
      have e : pre ++ t :: rest = (pre ++ [t]) ++ rest := by simp
      have el : pre.length + 1 = (pre ++ [t]).length := by simp
      rcases ih (pre ++ [t]) hpre' with ⟨mid, x, post, hr, hno, hx, hs⟩ | ⟨hno, hs⟩
      · left
        refine ⟨t :: mid, x, post, by simp [hr], ?_, hx, ?_⟩
        · intro y hy; apply hno; simpa using hy
        · simp only [AppState.SaveTag.scan, ht, if_false]
          rw [e, el, hs]; simp
      · right
        refine ⟨?_, ?_⟩
        · intro y hy; apply hno; simpa using hy
        · simp only [AppState.SaveTag.scan, ht, if_false]
          rw [e, el, hs]

/-- `strings.Contains` decides the substring relation. -/
theorem strings.ContainsChars_iff (s substr : List Char) :
    strings.ContainsChars s substr = true ↔ ∃ pre post, s = pre ++ substr ++ post := by
  induction s with
  | nil =>
    simp only [strings.ContainsChars]
    constructor
    · intro h
      have : substr = [] := by
        cases substr with
        | nil => rfl
        | cons c cs => simp [List.isPrefixOf] at h
      exact ⟨[], [], by simp [this]⟩
    · rintro ⟨pre, post, h⟩
      have : substr = [] := by
        have h' := congrArg List.length h
        simp at h'
        exact List.length_eq_zero.1 (by omega)
      simp [this, List.isPrefixOf]
  | cons c cs ih =>
    simp only [strings.ContainsChars, Bool.or_eq_true, ih]
    constructor
    · rintro (h | ⟨pre, post, h⟩)
      · obtain ⟨t, ht⟩ := ( List.isPrefixOf_iff_prefix).1 h
        exact ⟨[], t, by simp [ht]⟩
      · exact ⟨c :: pre, post, by simp [h]⟩
    · rintro ⟨pre, post, h⟩
      cases pre with
      | nil =>
        left
        exact ( List.isPrefixOf_iff_prefix).2 ⟨post, by simpa using h.symm⟩
      | cons d pre =>
        right
        simp only [List.cons_append, List.cons.injEq] at h
        exact ⟨pre, post, h.2⟩

theorem strings.Contains_iff (s substr : String) :
    strings.Contains s substr = true ↔ IsSubstring substr s :=
  strings.ContainsChars_iff s.data substr.data

/-- C1 (failing input). On the fresh state, `DeleteTags(["t1"])` computes the
capacity `len(s.tags)-len(tagIDs) = -1` and panics instead of returning nil;
the deferred unlock runs and the state is as before. -/
theorem DeleteTags_panics_on_longer_id_list :
    NewAppState.DeleteTags ["t1"] =
      Outcome.panicked NewAppState "runtime error: makeslice: cap out of range" := by
  decide

/-- `DeleteTags` on an idle state whose tag sequence is at least as long as
the id list: it returns nil, keeps exactly the tags whose id is not listed, and
strips the listed ids from every group, order preserved. -/
theorem DeleteTags_of_length_le (s : AppState) (tagIDs : List String)
    (hmu : s.mu = RWMutex.unlocked) (hlen : tagIDs.length ≤ s.tags.length) :
    s.DeleteTags tagIDs = Outcome.returned
      { s with
        tags := s.tags.filter (fun t => decide (t.ID ∉ tagIDs))
        tagGroups := s.tagGroups.map (fun g =>
          { g with TagIDs := g.TagIDs.filter (fun id => decide (id ∉ tagIDs)) }) } none := by
  have hcap : ¬ ((s.tags.length : Int) - (tagIDs.length : Int) < 0) := by omega
  have hf : ∀ k : String, (!BoolMap.ofKeys tagIDs k) = decide (k ∉ tagIDs) := by
    intro k; rw [BoolMap.ofKeys_apply]; simp
  simp only [AppState.DeleteTags, AppState.withLock, hmu, RWMutex.Lock, hcap, if_false,
    deferUnlock, RWMutex.Unlock, hf, foldl_append_if, List.nil_append]

/-- `DeleteTags` panics, leaving the state as it was, exactly when the id list
is longer than the tag sequence. -/
theorem DeleteTags_of_length_gt (s : AppState) (tagIDs : List String)
    (hmu : s.mu = RWMutex.unlocked) (hlen : s.tags.length < tagIDs.length) :
    s.DeleteTags tagIDs = Outcome.panicked s "runtime error: makeslice: cap out of range" := by
  have hcap : (s.tags.length : Int) - (tagIDs.length : Int) < 0 := by omega
  simp only [AppState.DeleteTags, AppState.withLock, hmu, RWMutex.Lock, hcap, if_true,
    deferUnlock, RWMutex.Unlock]
  cases s; simp_all

/-- C2. On a state no writer holds, `SearchTags("")` returns the whole tag
sequence, and `SearchTags(q)` for a non-empty `q` returns, in their stored
order, exactly the tags for which the lowercased query is a substring of the
lowercased name or of the lowercased description; the state is unchanged. -/
theorem SearchTags_spec (ToLower : String → String) (s : AppState)
    (hmu : s.mu ≠ RWMutex.writeLocked) :
    s.SearchTags ToLower "" = Outcome.returned s s.tags ∧
    ∀ q : String, q ≠ "" →
      ∃ r : List Tag, s.SearchTags ToLower q = Outcome.returned s r ∧
        r = s.tags.filter (fun t =>
          strings.Contains (ToLower t.Name) (ToLower q) ||
            strings.Contains (ToLower t.Description) (ToLower q)) ∧
        ∀ t : Tag, t ∈ r ↔
          t ∈ s.tags ∧ (IsSubstring (ToLower q) (ToLower t.Name) ∨
            IsSubstring (ToLower q) (ToLower t.Description)) := by
  refine ⟨?_, ?_⟩
  · cases s with
    | mk mu b u sq cp tg gr =>
      cases mu with
      | unlocked => rfl
      | writeLocked => exact absurd rfl hmu
      | readLocked n => rfl
  · intro q hq
    refine ⟨_, ?_, rfl, ?_⟩
    · cases s with
      | mk mu b u sq cp tg gr =>
        cases mu with
        | unlocked =>
          simp only [AppState.SearchTags, AppState.withRLock, RWMutex.RLock, hq, if_false,
            deferRUnlock, RWMutex.RUnlock, foldl_append_if, List.nil_append]
        | writeLocked => exact absurd rfl hmu
        | readLocked n =>
          simp only [AppState.SearchTags, AppState.withRLock, RWMutex.RLock, hq, if_false,
            deferRUnlock, RWMutex.RUnlock, foldl_append_if, List.nil_append]
    · intro t
      simp only [List.mem_filter, Bool.or_eq_true, strings.Contains_iff]

/-- C2 on a two-tag state with ASCII lowercasing: the query GO finds the tag named Go. -/
theorem SearchTags_spec_witness :
    ({ tags := [{ ID := "t1", Name := "Go" }, { ID := "t2", Name := "rust" }] } : AppState).mu
        ≠ RWMutex.writeLocked ∧
      ∃ r : List Tag,
        ({ tags := [{ ID := "t1", Name := "Go" }, { ID := "t2", Name := "rust" }] } :
            AppState).SearchTags asciiToLower "GO" =
          Outcome.returned { tags := [{ ID := "t1", Name := "Go" }, { ID := "t2", Name := "rust" }] } r ∧
        r = [{ ID := "t1", Name := "Go" }] :=
  ⟨by decide, by
    obtain ⟨r, h1, h2, _⟩ := (SearchTags_spec asciiToLower
      { tags := [{ ID := "t1", Name := "Go" }, { ID := "t2", Name := "rust" }] }
      (by decide)).2 "GO" (by decide)
    exact ⟨r, h1, h2.trans (by decide)⟩⟩

/-- C3 (the code at every input). `GroupTags` never returns, whatever the
state, the id list and the clock: the call ends blocked, and the state it
leaves behind has the group sequence it started with, so no group is created. -/
theorem GroupTags_never_creates_group (s : AppState) (tagIDs : List String) (now : Time) :
    (∀ (s' : AppState) (r : Error), s.GroupTags tagIDs now ≠ Outcome.returned s' r) ∧
      s.GroupTags tagIDs now = Outcome.blocked (s.GroupTags tagIDs now).state ∧
      (s.GroupTags tagIDs now).state.tagGroups = s.tagGroups ∧
      (s.GroupTags tagIDs now).state.tags = s.tags := by
  cases s with
  | mk mu b u sq cp tg gr =>
    cases mu <;>
      simp [AppState.GroupTags, AppState.withLock, AppState.SaveTagGroup, RWMutex.Lock,
        deferUnlock, Outcome.state]

/-- C4 (the code at every idle state). Called on a state whose lock is free,
`GroupTags` takes the lock and then, through `SaveTagGroup`, asks for it a
second time while holding it: the call blocks with the lock still held and
nothing else changed. -/
theorem GroupTags_self_deadlock (s : AppState) (tagIDs : List String) (now : Time)
    (hmu : s.mu = RWMutex.unlocked) :
    s.GroupTags tagIDs now = Outcome.blocked { s with mu := RWMutex.writeLocked } := by
  cases s with
  | mk mu b u sq cp tg gr =>
    cases hmu
    simp [AppState.GroupTags, AppState.withLock, AppState.SaveTagGroup, RWMutex.Lock,
      deferUnlock]

/-- C4 on the fresh state: `GroupTags(["t1","t2"])` blocks with the lock held. -/
theorem GroupTags_self_deadlock_witness :
    NewAppState.mu = RWMutex.unlocked ∧
      NewAppState.GroupTags ["t1", "t2"] { unixNano := 1700000000000000000 } =
        Outcome.blocked { NewAppState with mu := RWMutex.writeLocked } :=
  ⟨rfl, GroupTags_self_deadlock NewAppState ["t1", "t2"] { unixNano := 1700000000000000000 } rfl⟩

/-- The inner loop of `ExportTags` asks whether some id of the group is requested. -/
theorem ExportTags.hasExportedTag_eq_any (m : BoolMap) (ids : List String) :
    AppState.ExportTags.hasExportedTag m ids = ids.any m := by
  induction ids with
  | nil => rfl
  | cons id rest ih =>
    cases h : m id <;> simp [AppState.ExportTags.hasExportedTag, h, ih]

/-- C5. The envelope built by `ExportTags(ids)` holds, in stored order, exactly
the state's tags whose id is requested and exactly the state's groups having at
least one requested id; such a group is the stored record itself, with all its
`TagIDs`; a group without a requested id is left out; `Version` is "1.0". -/
theorem ExportTags_envelope_spec (s : AppState) (tagIDs : List String) (now : Time) :
    (AppState.ExportTags.envelope s tagIDs now).Tags =
        s.tags.filter (fun t => decide (t.ID ∈ tagIDs)) ∧
      (AppState.ExportTags.envelope s tagIDs now).TagGroups =
        s.tagGroups.filter (fun g => g.TagIDs.any (fun id => decide (id ∈ tagIDs))) ∧
      (∀ t : Tag, t ∈ (AppState.ExportTags.envelope s tagIDs now).Tags ↔
        t ∈ s.tags ∧ t.ID ∈ tagIDs) ∧
      (∀ g : TagGroup, g ∈ (AppState.ExportTags.envelope s tagIDs now).TagGroups ↔
        g ∈ s.tagGroups ∧ ∃ id ∈ g.TagIDs, id ∈ tagIDs) ∧
      (AppState.ExportTags.envelope s tagIDs now).Version = "1.0" := by
  have hm : BoolMap.ofKeys tagIDs = fun k => decide (k ∈ tagIDs) :=
    funext (BoolMap.ofKeys_apply tagIDs)
  have hT : (AppState.ExportTags.envelope s tagIDs now).Tags =
      s.tags.filter (fun t => decide (t.ID ∈ tagIDs)) := by
    simp only [AppState.ExportTags.envelope, hm, foldl_append_if, List.nil_append]
  have hG : (AppState.ExportTags.envelope s tagIDs now).TagGroups =
      s.tagGroups.filter (fun g => g.TagIDs.any (fun id => decide (id ∈ tagIDs))) := by
    simp only [AppState.ExportTags.envelope, hm, ExportTags.hasExportedTag_eq_any,
      foldl_append_if, List.nil_append]
  refine ⟨hT, hG, ?_, ?_, rfl⟩
  · intro t; rw [hT]; simp
  · intro g; rw [hG]; simp

/-- C6. On an idle state `SaveTag(t)` returns nil and changes only the tag
sequence: the first entry with the id of `t`, if there is one, is overwritten
by `t` with everything before and after it kept; if there is none, `t` is
appended. -/
theorem SaveTag_upsert (s : AppState) (t : Tag) (hmu : s.mu = RWMutex.unlocked) :
    ∃ tags' : List Tag,
      s.SaveTag t = Outcome.returned { s with tags := tags' } none ∧
      ((∃ pre x post, s.tags = pre ++ x :: post ∧ (∀ y ∈ pre, y.ID ≠ t.ID) ∧ x.ID = t.ID ∧
          tags' = pre ++ t :: post) ∨
        ((∀ y ∈ s.tags, y.ID ≠ t.ID) ∧ tags' = s.tags ++ [t])) := by
  cases s with
  | mk mu b u sq cp tg gr =>
    cases hmu
    rcases SaveTag.scan_spec t [] tg (by simp) with ⟨mid, x, post, hr, hno, hx, hs⟩ | ⟨hno, hs⟩
    · refine ⟨mid ++ t :: post, ?_, Or.inl ⟨mid, x, post, hr, by simpa using hno, hx, rfl⟩⟩
      simp only [List.nil_append, List.length_nil] at hs
      simp [AppState.SaveTag, AppState.withLock, RWMutex.Lock, hs, deferUnlock, RWMutex.Unlock]
    · refine ⟨tg ++ [t], ?_, Or.inr ⟨by simpa using hno, rfl⟩⟩
      simp only [List.nil_append, List.length_nil] at hs
      simp [AppState.SaveTag, AppState.withLock, RWMutex.Lock, hs, deferUnlock, RWMutex.Unlock]

/-- C6 on the fresh state: saving the tag t1. -/
theorem SaveTag_upsert_witness :
    NewAppState.mu = RWMutex.unlocked ∧
      ∃ tags' : List Tag,
        NewAppState.SaveTag { ID := "t1", Name := "go" } =
          Outcome.returned { NewAppState with tags := tags' } none ∧
        ((∃ pre x post, NewAppState.tags = pre ++ x :: post ∧
            (∀ y ∈ pre, y.ID ≠ ({ ID := "t1", Name := "go" } : Tag).ID) ∧
            x.ID = ({ ID := "t1", Name := "go" } : Tag).ID ∧
            tags' = pre ++ ({ ID := "t1", Name := "go" } : Tag) :: post) ∨
          ((∀ y ∈ NewAppState.tags, y.ID ≠ ({ ID := "t1", Name := "go" } : Tag).ID) ∧
            tags' = NewAppState.tags ++ [{ ID := "t1", Name := "go" }])) :=
  ⟨rfl, SaveTag_upsert NewAppState { ID := "t1", Name := "go" } rfl⟩

/-- The scenario with the group stored by `SaveTagGroup` itself, which takes
the lock once: `DeleteTags(["t1"])` then leaves the tag t2 and the group's
ids `["t2"]`. -/
theorem scenario_with_SaveTagGroup :
    ({ tags := [{ ID := "t1", Name := "go" }, { ID := "t2", Name := "rust" }] } :
          AppState).SaveTagGroup
        { ID := "g1", Name := "New Group", TagIDs := ["t1", "t2"], Order := 0, Expanded := true } =
        Outcome.returned
          { tags := [{ ID := "t1", Name := "go" }, { ID := "t2", Name := "rust" }]
            tagGroups := [{ ID := "g1", Name := "New Group", TagIDs := ["t1", "t2"], Order := 0,
                            Expanded := true }] } none ∧
      ({ tags := [{ ID := "t1", Name := "go" }, { ID := "t2", Name := "rust" }]
         tagGroups := [{ ID := "g1", Name := "New Group", TagIDs := ["t1", "t2"], Order := 0,
                         Expanded := true }] } : AppState).DeleteTags ["t1"] =
        Outcome.returned
          { tags := [{ ID := "t2", Name := "rust" }]
            tagGroups := [{ ID := "g1", Name := "New Group", TagIDs := ["t2"], Order := 0,
                            Expanded := true }] } none := by
  constructor <;> decide

/-- C7 (the scenario on the code). From `NewAppState()` the two `SaveTag`
calls return nil and leave the tags t1, t2; the following
`GroupTags(["t1","t2"])` blocks for ever with the lock held, whatever the
clock reads, so the state has no group and `DeleteTags(["t1"])` is never
reached. -/
theorem scenario_blocks_at_GroupTags :
    NewAppState.SaveTag { ID := "t1", Name := "go" } =
        Outcome.returned { tags := [{ ID := "t1", Name := "go" }] } none ∧
      ({ tags := [{ ID := "t1", Name := "go" }] } : AppState).SaveTag { ID := "t2", Name := "rust" } =
        Outcome.returned { tags := [{ ID := "t1", Name := "go" }, { ID := "t2", Name := "rust" }] } none ∧
      ∀ now : Time,
        ({ tags := [{ ID := "t1", Name := "go" }, { ID := "t2", Name := "rust" }] } :
            AppState).GroupTags ["t1", "t2"] now =
          Outcome.blocked
            { mu := RWMutex.writeLocked
              tags := [{ ID := "t1", Name := "go" }, { ID := "t2", Name := "rust" }]
              tagGroups := [] } := by
  refine ⟨by decide, by decide, ?_⟩
  intro now
  simp [AppState.GroupTags, AppState.withLock, AppState.SaveTagGroup, RWMutex.Lock, deferUnlock]

/-! ## The tag store -/

/-! ## Transactions -/

theorem Tx.Exec_committed (tx : Tx) (stmt : DB → Except String DB) :
    (tx.Exec stmt).1.committed = tx.committed ∧ (tx.Exec stmt).1.done = tx.done := by
  unfold Tx.Exec
  split
  · exact ⟨rfl, rfl⟩
  · split <;> exact ⟨rfl, rfl⟩

theorem Tx.Exec_ok (tx : Tx) (stmt : DB → Except String DB) (work : DB)
    (hdone : tx.done = false) (h : stmt tx.work = .ok work) :
    tx.Exec stmt = ({ tx with work := work }, none) := by
  simp [Tx.Exec, hdone, h]

theorem Tx.Exec_eq_none (tx tx' : Tx) (stmt : DB → Except String DB)
    (h : tx.Exec stmt = (tx', none)) :
    tx.done = false ∧ ∃ work, stmt tx.work = .ok work ∧ tx' = { tx with work := work } := by
  unfold Tx.Exec at h
  split at h
  · simp at h
  · rename_i hd
    split at h
    · rename_i work hw
      simp only [Prod.mk.injEq, and_true] at h
      exact ⟨by simpa using hd, work, hw, h.symm⟩
    · simp at h

theorem DB.insertTag_ok (row : TagRow) (db : DB) (h : ∀ r ∈ db.tags, r.id ≠ row.id) :
    db.insertTag row = .ok { db with tags := db.tags ++ [row] } := by
  have : db.tags.any (fun r => decide (r.id = row.id)) = false := by
    simpa [List.any_eq_false] using h
  simp [DB.insertTag, this]

theorem DB.insertTag_eq_ok (row : TagRow) (db db' : DB) (h : db.insertTag row = .ok db') :
    (∀ r ∈ db.tags, r.id ≠ row.id) ∧ db' = { db with tags := db.tags ++ [row] } := by
  unfold DB.insertTag at h
  split at h
  · simp at h
  · rename_i hany
    simp only [Except.ok.injEq] at h
    refine ⟨?_, h.symm⟩
    simpa [List.any_eq_false] using hany

theorem DB.insertTagGroup_ok (row : TagGroupRow) (db : DB)
    (h : ∀ r ∈ db.tag_groups, r.id ≠ row.id) :
    db.insertTagGroup row = .ok { db with tag_groups := db.tag_groups ++ [row] } := by
  have : db.tag_groups.any (fun r => decide (r.id = row.id)) = false := by
    simpa [List.any_eq_false] using h
  simp [DB.insertTagGroup, this]

theorem DB.insertTagGroup_eq_ok (row : TagGroupRow) (db db' : DB)
    (h : db.insertTagGroup row = .ok db') :
    (∀ r ∈ db.tag_groups, r.id ≠ row.id) ∧
      db' = { db with tag_groups := db.tag_groups ++ [row] } := by
  unfold DB.insertTagGroup at h
  split at h
  · simp at h
  · rename_i hany
    simp only [Except.ok.injEq] at h
    refine ⟨?_, h.symm⟩
    simpa [List.any_eq_false] using hany

/-- The tag loop of `ImportTags` never touches the committed database nor
ends the transaction. -/
theorem ImportTags.insertTags_committed (json : JSON) (ts : List Tag) (tx : Tx) :
    (TagStore.ImportTags.insertTags json tx ts).1.committed = tx.committed ∧
      (TagStore.ImportTags.insertTags json tx ts).1.done = tx.done := by
  induction ts generalizing tx with
  | nil => exact ⟨rfl, rfl⟩
  | cons t rest ih =>
    unfold TagStore.ImportTags.insertTags
    split
    · exact ⟨rfl, rfl⟩
    · rename_i row hrow
      have hex := Tx.Exec_committed tx (DB.insertTag row)
      split
      · rename_i tx' err heq
        rw [heq] at hex; exact hex
      · rename_i tx' heq
        rw [heq] at hex
        have := ih tx'
        exact ⟨this.1.trans hex.1, this.2.trans hex.2⟩

theorem ImportTags.insertGroups_committed (json : JSON) (gs : List TagGroup) (tx : Tx) :
    (TagStore.ImportTags.insertGroups json tx gs).1.committed = tx.committed ∧
      (TagStore.ImportTags.insertGroups json tx gs).1.done = tx.done := by
  induction gs generalizing tx with
  | nil => exact ⟨rfl, rfl⟩
  | cons g rest ih =>
    unfold TagStore.ImportTags.insertGroups
    split
    · exact ⟨rfl, rfl⟩
    · rename_i row hrow
      have hex := Tx.Exec_committed tx (DB.insertTagGroup row)
      split
      · rename_i tx' err heq
        rw [heq] at hex; exact hex
      · rename_i tx' heq
        rw [heq] at hex
        have := ih tx'
        exact ⟨this.1.trans hex.1, this.2.trans hex.2⟩

/-- A successful tag loop appended, in order, the value tuple of every tag. -/
theorem ImportTags.insertTags_eq_none (json : JSON) (ts : List Tag) (tx tx' : Tx)
    (h : TagStore.ImportTags.insertTags json tx ts = (tx', none)) :
    ∃ rows : List TagRow,
      List.Forall₂ (fun row tag => TagStore.tagValues json tag = .ok row) rows ts ∧
      tx' = { tx with work := { tx.work with tags := tx.work.tags ++ rows } } ∧
      (∀ row ∈ rows, ∀ r ∈ tx.work.tags, r.id ≠ row.id) ∧
      (rows.map (fun r => r.id)).Nodup := by
  induction ts generalizing tx with
  | nil =>
    simp only [TagStore.ImportTags.insertTags, Prod.mk.injEq, and_true] at h
    exact ⟨[], List.Forall₂.nil, by simp [h], by simp, by simp⟩
  | cons t rest ih =>
    unfold TagStore.ImportTags.insertTags at h
    split at h
    · simp at h
    · rename_i row hrow
      split at h
      · simp at h
      · rename_i tx₁ heq
        obtain ⟨_, work, hw, htx₁⟩ := Tx.Exec_eq_none tx tx₁ _ heq
        obtain ⟨hfresh, hwork⟩ := DB.insertTag_eq_ok row tx.work work hw
        obtain ⟨rows, hrows, htx', hdisj, hnd⟩ := ih tx₁ h
        subst htx₁ hwork
        refine ⟨row :: rows, List.Forall₂.cons hrow hrows, ?_, ?_, ?_⟩
        · simp [htx']
        · intro r' hr' r hr
          rcases List.mem_cons.1 hr' with e | e
          · subst e; exact hfresh r hr
          · exact hdisj r' e r (by simp [hr])
        · simp only [List.map_cons, List.nodup_cons, List.mem_map, not_exists, not_and]
          refine ⟨?_, hnd⟩
          intro r' hr' e
          exact hdisj r' hr' row (by simp) e.symm

theorem ImportTags.insertGroups_eq_none (json : JSON) (gs : List TagGroup) (tx tx' : Tx)
    (h : TagStore.ImportTags.insertGroups json tx gs = (tx', none)) :
    ∃ rows : List TagGroupRow,
      List.Forall₂ (fun row group => TagStore.groupValues json group = .ok row) rows gs ∧
      tx' = { tx with work := { tx.work with tag_groups := tx.work.tag_groups ++ rows } } ∧
      (∀ row ∈ rows, ∀ r ∈ tx.work.tag_groups, r.id ≠ row.id) ∧
      (rows.map (fun r => r.id)).Nodup := by
  induction gs generalizing tx with
  | nil =>
    simp only [TagStore.ImportTags.insertGroups, Prod.mk.injEq, and_true] at h
    exact ⟨[], List.Forall₂.nil, by simp [h], by simp, by simp⟩
  | cons g rest ih =>
    unfold TagStore.ImportTags.insertGroups at h
    split at h
    · simp at h
    · rename_i row hrow
      split at h
      · simp at h
      · rename_i tx₁ heq
        obtain ⟨_, work, hw, htx₁⟩ := Tx.Exec_eq_none tx tx₁ _ heq
        obtain ⟨hfresh, hwork⟩ := DB.insertTagGroup_eq_ok row tx.work work hw
        obtain ⟨rows, hrows, htx', hdisj, hnd⟩ := ih tx₁ h
        subst htx₁ hwork
        refine ⟨row :: rows, List.Forall₂.cons hrow hrows, ?_, ?_, ?_⟩
        · simp [htx']
        · intro r' hr' r hr
          rcases List.mem_cons.1 hr' with e | e
          · subst e; exact hfresh r hr
          · exact hdisj r' e r (by simp [hr])
        · simp only [List.map_cons, List.nodup_cons, List.mem_map, not_exists, not_and]
          refine ⟨?_, hnd⟩
          intro r' hr' e
          exact hdisj r' hr' row (by simp) e.symm

/-- The tag loop succeeds when every tag has a value tuple and the ids are
new and pairwise distinct. -/
theorem ImportTags.insertTags_of_values (json : JSON) (f : Tag → TagRow) (ts : List Tag)
    (tx : Tx) (hdone : tx.done = false)
    (hval : ∀ t ∈ ts, TagStore.tagValues json t = .ok (f t))
    (hnd : (tx.work.tags.map (fun r => r.id) ++ ts.map (fun t => (f t).id)).Nodup) :
    TagStore.ImportTags.insertTags json tx ts =
      ({ tx with work := { tx.work with tags := tx.work.tags ++ ts.map f } }, none) := by
  induction ts generalizing tx with
  | nil => simp [TagStore.ImportTags.insertTags]
  | cons t rest ih =>
    have hfresh : ∀ r ∈ tx.work.tags, r.id ≠ (f t).id := by
      intro r hr e
      have := (List.nodup_append.1 hnd).2.2
      exact this (List.mem_map.2 ⟨r, hr, rfl⟩) (by simp [e])
    have hex := Tx.Exec_ok tx (DB.insertTag (f t)) _ hdone (DB.insertTag_ok (f t) tx.work hfresh)
    have hnd' : ((tx.work.tags ++ [f t]).map (fun r => r.id) ++
        rest.map (fun t => (f t).id)).Nodup := by
      simpa using hnd
    have := ih { tx with work := { tx.work with tags := tx.work.tags ++ [f t] } } hdone
      (fun t' ht' => hval t' (List.mem_cons_of_mem _ ht')) hnd'
    unfold TagStore.ImportTags.insertTags
    rw [hval t (List.mem_cons_self _ _)]
    simp only [hex, this]
    simp

theorem ImportTags.insertGroups_of_values (json : JSON) (f : TagGroup → TagGroupRow)
    (gs : List TagGroup) (tx : Tx) (hdone : tx.done = false)
    (hval : ∀ g ∈ gs, TagStore.groupValues json g = .ok (f g))
    (hnd : (tx.work.tag_groups.map (fun r => r.id) ++ gs.map (fun g => (f g).id)).Nodup) :
    TagStore.ImportTags.insertGroups json tx gs =
      ({ tx with work := { tx.work with tag_groups := tx.work.tag_groups ++ gs.map f } },
        none) := by
  induction gs generalizing tx with
  | nil => simp [TagStore.ImportTags.insertGroups]
  | cons g rest ih =>
    have hfresh : ∀ r ∈ tx.work.tag_groups, r.id ≠ (f g).id := by
      intro r hr e
      have := (List.nodup_append.1 hnd).2.2
      exact this (List.mem_map.2 ⟨r, hr, rfl⟩) (by simp [e])
    have hex := Tx.Exec_ok tx (DB.insertTagGroup (f g)) _ hdone
      (DB.insertTagGroup_ok (f g) tx.work hfresh)
    have hnd' : ((tx.work.tag_groups ++ [f g]).map (fun r => r.id) ++
        rest.map (fun g => (f g).id)).Nodup := by
      simpa using hnd
    have := ih { tx with work := { tx.work with tag_groups := tx.work.tag_groups ++ [f g] } }
      hdone (fun g' hg' => hval g' (List.mem_cons_of_mem _ hg')) hnd'
    unfold TagStore.ImportTags.insertGroups
    rw [hval g (List.mem_cons_self _ _)]
    simp only [hex, this]
    simp

theorem Tx.Rollback_committed (tx : Tx) : (tx.Rollback).1.committed = tx.committed := by
  unfold Tx.Rollback; split <;> rfl

/-- A body of `ImportTags` that ends in an error has not committed. -/
theorem ImportTags.body_error (json : JSON) (tx tx' : Tx) (envelope : TagExport) (err : String)
    (hdone : tx.done = false)
    (h : TagStore.ImportTags.body json tx envelope = (tx', some err)) :
    tx'.committed = tx.committed := by
  unfold TagStore.ImportTags.body at h
  split at h
  · rename_i tx₁ e₁ h₁
    have := Tx.Exec_committed tx DB.deleteAllTagGroups
    rw [h₁] at this
    simp only [Prod.mk.injEq] at h
    rw [← h.1]; exact this.1
  · rename_i tx₁ h₁
    have c₁ := Tx.Exec_committed tx DB.deleteAllTagGroups
    rw [h₁] at c₁
    split at h
    · rename_i tx₂ e₂ h₂
      have := Tx.Exec_committed tx₁ DB.deleteAllTags
      rw [h₂] at this
      simp only [Prod.mk.injEq] at h
      rw [← h.1]; exact this.1.trans c₁.1
    · rename_i tx₂ h₂
      have c₂ := Tx.Exec_committed tx₁ DB.deleteAllTags
      rw [h₂] at c₂
      split at h
      · rename_i tx₃ e₃ h₃
        have := ImportTags.insertTags_committed json envelope.Tags tx₂
        rw [h₃] at this
        simp only [Prod.mk.injEq] at h
        rw [← h.1]; exact this.1.trans (c₂.1.trans c₁.1)
      · rename_i tx₃ h₃
        have c₃ := ImportTags.insertTags_committed json envelope.Tags tx₂
        rw [h₃] at c₃
        split at h
        · rename_i tx₄ e₄ h₄
          have := ImportTags.insertGroups_committed json envelope.TagGroups tx₃
          rw [h₄] at this
          simp only [Prod.mk.injEq] at h
          rw [← h.1]; exact this.1.trans (c₃.1.trans (c₂.1.trans c₁.1))
        · rename_i tx₄ h₄
          have c₄ := ImportTags.insertGroups_committed json envelope.TagGroups tx₃
          rw [h₄] at c₄
          have hd : tx₄.done = false :=
            c₄.2.trans (c₃.2.trans (c₂.2.trans (c₁.2.trans hdone)))
          simp [Tx.Commit, hd] at h

/-- A body of `ImportTags` that ends without error has committed exactly the
value tuples of the envelope's tags and groups. -/
theorem ImportTags.body_ok (json : JSON) (tx tx' : Tx) (envelope : TagExport)
    (h : TagStore.ImportTags.body json tx envelope = (tx', none)) :
    ∃ (rowsT : List TagRow) (rowsG : List TagGroupRow),
      List.Forall₂ (fun row tag => TagStore.tagValues json tag = .ok row) rowsT envelope.Tags ∧
      List.Forall₂ (fun row group => TagStore.groupValues json group = .ok row)
        rowsG envelope.TagGroups ∧
      (rowsT.map (fun r => r.id)).Nodup ∧ (rowsG.map (fun r => r.id)).Nodup ∧
      tx'.done = true ∧
      tx'.committed = { tags := rowsT, tag_groups := rowsG } := by
  unfold TagStore.ImportTags.body at h
  split at h
  · simp at h
  · rename_i tx₁ h₁
    obtain ⟨hd, w₁, hw₁, e₁⟩ := Tx.Exec_eq_none tx tx₁ _ h₁
    split at h
    · simp at h
    · rename_i tx₂ h₂
      obtain ⟨_, w₂, hw₂, e₂⟩ := Tx.Exec_eq_none tx₁ tx₂ _ h₂
      split at h
      · simp at h
      · rename_i tx₃ h₃
        obtain ⟨rowsT, hT, e₃, _, ndT⟩ := ImportTags.insertTags_eq_none json _ tx₂ tx₃ h₃
        split at h
        · simp at h
        · rename_i tx₄ h₄
          obtain ⟨rowsG, hG, e₄, _, ndG⟩ := ImportTags.insertGroups_eq_none json _ tx₃ tx₄ h₄
          refine ⟨rowsT, rowsG, hT, hG, ndT, ndG, ?_⟩
          simp only [DB.deleteAllTagGroups, Except.ok.injEq] at hw₁
          simp only [DB.deleteAllTags, Except.ok.injEq] at hw₂
          subst e₁ e₂ e₃ e₄ hw₁ hw₂
          simp [Tx.Commit, hd] at h
          subst h
          simp

theorem forall₂_exists_of_mem {α β : Type} {R : α → β → Prop} {l₁ : List α} {l₂ : List β}
    (h : List.Forall₂ R l₁ l₂) {a : α} (ha : a ∈ l₁) : ∃ b ∈ l₂, R a b := by
  induction h with
  | nil => simp at ha
  | cons hab _ ih =>
    rcases List.mem_cons.1 ha with e | e
    · subst e; exact ⟨_, List.mem_cons_self _ _, hab⟩
    · obtain ⟨b, hb, hr⟩ := ih e
      exact ⟨b, List.mem_cons_of_mem _ hb, hr⟩

theorem TagStore.ImportTags_eq (json : JSON) (s : TagStore) (envelope : TagExport) :
    s.ImportTags json envelope =
      ({ db := ((TagStore.ImportTags.body json s.db.Begin envelope).1.Rollback).1.committed },
        (TagStore.ImportTags.body json s.db.Begin envelope).2) := rfl

/-- Rows written for a list of tags carry the ids of the tags. -/
theorem tagValues_ids (json : JSON) {rows : List TagRow} {ts : List Tag}
    (h : List.Forall₂ (fun row tag => TagStore.tagValues json tag = .ok row) rows ts) :
    rows.map (fun r => r.id) = ts.map (fun t => t.ID) := by
  induction h with
  | nil => rfl
  | @cons row tag _ _ hab _ ih =>
    have hid : row.id = tag.ID := by
      unfold TagStore.tagValues at hab
      split at hab
      · simp at hab
      · simp only [Except.ok.injEq] at hab
        rw [← hab]
    simp [hid, ih]

/-- `ImportTags` returns an error whenever two exported tags share an id: the
second of them violates the primary key. -/
theorem ImportTags_rejects_duplicate_ids (json : JSON) (s : TagStore) (envelope : TagExport)
    (hdup : ¬ (envelope.Tags.map (fun t => t.ID)).Nodup) :
    (s.ImportTags json envelope).2 ≠ none := by
  intro hnone
  rw [TagStore.ImportTags_eq] at hnone
  cases hb : TagStore.ImportTags.body json s.db.Begin envelope with
  | mk tx' err =>
    rw [hb] at hnone
    simp only at hnone
    subst hnone
    obtain ⟨rowsT, _, hT, _, ndT, _, _, _⟩ := ImportTags.body_ok json _ tx' envelope hb
    apply hdup
    have hids := tagValues_ids json hT
    rw [← hids]
    exact ndT

/-- The values bound for a tag, column by column. -/
theorem tagValues_fields (json : JSON) (tag : Tag) (row : TagRow)
    (h : TagStore.tagValues json tag = .ok row) :
    row.id = tag.ID ∧ row.name = tag.Name ∧ row.color = tag.Color ∧
      row.description = tag.Description ∧ row.parent_id = tag.ParentID ∧
      row.tag_order = tag.Order ∧ row.created_at = tag.CreatedAt ∧
      row.updated_at = tag.UpdatedAt ∧ json.MarshalStats tag.UsageStats = .ok row.usage_stats := by
  unfold TagStore.tagValues at h
  cases hm : json.MarshalStats tag.UsageStats with
  | error e => rw [hm] at h; cases h
  | ok text =>
    rw [hm] at h
    cases h
    exact ⟨rfl, rfl, rfl, rfl, rfl, rfl, rfl, rfl, rfl⟩

/-- The values bound for a group, column by column. -/
theorem groupValues_fields (json : JSON) (group : TagGroup) (row : TagGroupRow)
    (h : TagStore.groupValues json group = .ok row) :
    row.id = group.ID ∧ row.name = group.Name ∧
      json.MarshalTagIDs group.TagIDs = .ok row.tag_ids ∧ row.group_order = group.Order ∧
      row.expanded = group.Expanded := by
  unfold TagStore.groupValues at h
  cases hm : json.MarshalTagIDs group.TagIDs with
  | error e => rw [hm] at h; cases h
  | ok text =>
    rw [hm] at h
    cases h
    exact ⟨rfl, rfl, rfl, rfl, rfl⟩

/-- C9 (as amended). When `ImportTags(export)` returns nil, whatever the store
held before, table `tags` holds one row per exported tag and nothing else, in
the order of the export: the row carries the tag's id, name, color,
description, parent id, order, creation and update time, and the JSON text of
its usage stats, and not its `Count`, for which the table has no column. Table
`tag_groups` holds one row per exported group and nothing else: id, name, the
JSON text of the tag ids, order and expanded flag. -/
theorem ImportTags_replaces_contents (json : JSON) (s s' : TagStore) (envelope : TagExport)
    (h : s.ImportTags json envelope = (s', none)) :
    List.Forall₂
        (fun row tag => row.id = tag.ID ∧ row.name = tag.Name ∧ row.color = tag.Color ∧
          row.description = tag.Description ∧ row.parent_id = tag.ParentID ∧
          row.tag_order = tag.Order ∧ row.created_at = tag.CreatedAt ∧
          row.updated_at = tag.UpdatedAt ∧
          json.MarshalStats tag.UsageStats = .ok row.usage_stats)
        s'.db.tags envelope.Tags ∧
      List.Forall₂
        (fun row group => row.id = group.ID ∧ row.name = group.Name ∧
          json.MarshalTagIDs group.TagIDs = .ok row.tag_ids ∧
          row.group_order = group.Order ∧ row.expanded = group.Expanded)
        s'.db.tag_groups envelope.TagGroups ∧
      (∀ row ∈ s'.db.tags, ∃ tag ∈ envelope.Tags, row.id = tag.ID) ∧
      (∀ row ∈ s'.db.tag_groups, ∃ group ∈ envelope.TagGroups, row.id = group.ID) := by
  rw [TagStore.ImportTags_eq] at h
  cases hb : TagStore.ImportTags.body json s.db.Begin envelope with
  | mk tx' err =>
    rw [hb] at h
    simp only [Prod.mk.injEq] at h
    obtain ⟨hs, herr⟩ := h
    subst herr
    obtain ⟨rowsT, rowsG, hT, hG, _, _, _, hc⟩ := ImportTags.body_ok json _ tx' envelope hb
    have hdb : s'.db = { tags := rowsT, tag_groups := rowsG } := by
      rw [← hs]; simp only; rw [Tx.Rollback_committed, hc]
    rw [hdb]
    refine ⟨List.Forall₂.imp (fun _ _ hv => tagValues_fields json _ _ hv) hT,
      List.Forall₂.imp (fun _ _ hv => groupValues_fields json _ _ hv) hG, ?_, ?_⟩
    · intro row hrow
      obtain ⟨tag, htag, hv⟩ := forall₂_exists_of_mem hT hrow
      exact ⟨tag, htag, (tagValues_fields json _ _ hv).1⟩
    · intro row hrow
      obtain ⟨g, hg, hv⟩ := forall₂_exists_of_mem hG hrow
      exact ⟨g, hg, (groupValues_fields json _ _ hv).1⟩

/-- C10. When `ImportTags(export)` returns an error, the deferred rollback
leaves the store exactly as it was before the call: the rows deleted and
inserted inside the transaction are discarded. -/
theorem ImportTags_atomic (json : JSON) (s s' : TagStore) (envelope : TagExport) (err : String)
    (h : s.ImportTags json envelope = (s', some err)) : s' = s := by
  rw [TagStore.ImportTags_eq] at h
  cases hb : TagStore.ImportTags.body json s.db.Begin envelope with
  | mk tx' e =>
    rw [hb] at h
    simp only [Prod.mk.injEq] at h
    obtain ⟨hs, herr⟩ := h
    subst herr
    have hc := ImportTags.body_error json _ tx' envelope err rfl hb
    rw [← hs]
    cases s with
    | mk db =>
      simp only [Tx.Rollback_committed, hc]
      rfl

theorem GetAllTags_loop_of_scan (drv : Driver) (json : JSON) (dec : TagRow → Tag)
    (rows : List TagRow) (acc : List Tag)
    (h : ∀ r ∈ rows, TagStore.scanTag drv json r = .ok (dec r)) :
    TagStore.GetAllTags.loop drv json rows acc = .ok (acc ++ rows.map dec) := by
  induction rows generalizing acc with
  | nil => simp [TagStore.GetAllTags.loop]
  | cons r rest ih =>
    unfold TagStore.GetAllTags.loop
    rw [h r (List.mem_cons_self _ _)]
    simp only
    rw [ih _ (fun r' hr' => h r' (List.mem_cons_of_mem _ hr'))]
    simp

theorem GetAllTagGroups_loop_of_scan (json : JSON) (dec : TagGroupRow → TagGroup)
    (rows : List TagGroupRow) (acc : List TagGroup)
    (h : ∀ r ∈ rows, TagStore.scanTagGroup json r = .ok (dec r)) :
    TagStore.GetAllTagGroups.loop json rows acc = .ok (acc ++ rows.map dec) := by
  induction rows generalizing acc with
  | nil => simp [TagStore.GetAllTagGroups.loop]
  | cons r rest ih =>
    unfold TagStore.GetAllTagGroups.loop
    rw [h r (List.mem_cons_self _ _)]
    simp only
    rw [ih _ (fun r' hr' => h r' (List.mem_cons_of_mem _ hr'))]
    simp

theorem TagStore.createTags_of_values (json : JSON) (f : Tag → TagRow) (ts : List Tag)
    (s : TagStore) (hval : ∀ t ∈ ts, TagStore.tagValues json t = .ok (f t))
    (hnd : (s.db.tags.map (fun r => r.id) ++ ts.map (fun t => (f t).id)).Nodup) :
    TagStore.createTags json s ts =
      ({ db := { s.db with tags := s.db.tags ++ ts.map f } }, none) := by
  induction ts generalizing s with
  | nil => simp [TagStore.createTags]
  | cons t rest ih =>
    have hfresh : ∀ r ∈ s.db.tags, r.id ≠ (f t).id := by
      intro r hr e
      have := (List.nodup_append.1 hnd).2.2
      exact this (List.mem_map.2 ⟨r, hr, rfl⟩) (by simp [e])
    have hnd' : ((s.db.tags ++ [f t]).map (fun r => r.id) ++
        rest.map (fun t => (f t).id)).Nodup := by
      simpa using hnd
    have := ih { db := { s.db with tags := s.db.tags ++ [f t] } }
      (fun t' ht' => hval t' (List.mem_cons_of_mem _ ht')) hnd'
    unfold TagStore.createTags
    simp only [TagStore.CreateTag, hval t (List.mem_cons_self _ _),
      DB.insertTag_ok (f t) s.db hfresh, this]
    simp

theorem TagStore.createTagGroups_of_values (json : JSON) (f : TagGroup → TagGroupRow)
    (gs : List TagGroup) (s : TagStore)
    (hval : ∀ g ∈ gs, TagStore.groupValues json g = .ok (f g))
    (hnd : (s.db.tag_groups.map (fun r => r.id) ++ gs.map (fun g => (f g).id)).Nodup) :
    TagStore.createTagGroups json s gs =
      ({ db := { s.db with tag_groups := s.db.tag_groups ++ gs.map f } }, none) := by
  induction gs generalizing s with
  | nil => simp [TagStore.createTagGroups]
  | cons g rest ih =>
    have hfresh : ∀ r ∈ s.db.tag_groups, r.id ≠ (f g).id := by
      intro r hr e
      have := (List.nodup_append.1 hnd).2.2
      exact this (List.mem_map.2 ⟨r, hr, rfl⟩) (by simp [e])
    have hnd' : ((s.db.tag_groups ++ [f g]).map (fun r => r.id) ++
        rest.map (fun g => (f g).id)).Nodup := by
      simpa using hnd
    have := ih { db := { s.db with tag_groups := s.db.tag_groups ++ [f g] } }
      (fun g' hg' => hval g' (List.mem_cons_of_mem _ hg')) hnd'
    unfold TagStore.createTagGroups
    simp only [TagStore.CreateTagGroup, hval g (List.mem_cons_self _ _),
      DB.insertTagGroup_ok (f g) s.db hfresh, this]
    simp

/-- `ImportTags` succeeds, and installs the value tuples, when every exported
record has one and the exported ids are pairwise distinct. -/
theorem TagStore.ImportTags_of_values (json : JSON) (fT : Tag → TagRow)
    (fG : TagGroup → TagGroupRow) (s : TagStore) (envelope : TagExport)
    (hvalT : ∀ t ∈ envelope.Tags, TagStore.tagValues json t = .ok (fT t))
    (hvalG : ∀ g ∈ envelope.TagGroups, TagStore.groupValues json g = .ok (fG g))
    (hndT : (envelope.Tags.map (fun t => (fT t).id)).Nodup)
    (hndG : (envelope.TagGroups.map (fun g => (fG g).id)).Nodup) :
    s.ImportTags json envelope =
      ({ db := { tags := envelope.Tags.map fT, tag_groups := envelope.TagGroups.map fG } },
        none) := by
  have h₁ : s.db.Begin.Exec DB.deleteAllTagGroups =
      ({ committed := s.db, work := { s.db with tag_groups := [] }, done := false }, none) := by
    simp [Tx.Exec, DB.Begin, DB.deleteAllTagGroups]
  have h₂ : ({ committed := s.db, work := { s.db with tag_groups := [] }, done := false } :
      Tx).Exec DB.deleteAllTags =
      ({ committed := s.db, work := { tags := [], tag_groups := [] }, done := false }, none) := by
    simp [Tx.Exec, DB.deleteAllTags]
  have h₃ := ImportTags.insertTags_of_values json fT envelope.Tags
    { committed := s.db, work := { tags := [], tag_groups := [] }, done := false } rfl hvalT
    (by simpa using hndT)
  have h₄ := ImportTags.insertGroups_of_values json fG envelope.TagGroups
    { committed := s.db, work := { tags := [] ++ envelope.Tags.map fT, tag_groups := [] },
      done := false } rfl hvalG (by simpa using hndG)
  have hb : TagStore.ImportTags.body json s.db.Begin envelope =
      ({ committed := { tags := envelope.Tags.map fT, tag_groups := envelope.TagGroups.map fG },
         work := { tags := envelope.Tags.map fT, tag_groups := envelope.TagGroups.map fG },
         done := true }, none) := by
    unfold TagStore.ImportTags.body
    simp only [h₁, h₂, h₃]
    simp only [h₄]
    simp [Tx.Commit]
  rw [TagStore.ImportTags_eq, hb]
  simp [Tx.Rollback]

/-- Reading all tags of a store whose rows all decode: the decoded rows in
`tag_order`. -/
theorem TagStore.GetAllTags_of_scan (drv : Driver) (json : JSON) (dec : TagRow → Tag)
    (s : TagStore) (h : ∀ r ∈ s.db.tags, TagStore.scanTag drv json r = .ok (dec r)) :
    s.GetAllTags drv json = .ok ((s.db.tags.insertionSort TagRow.le).map dec) := by
  unfold TagStore.GetAllTags DB.selectTags
  rw [GetAllTags_loop_of_scan drv json dec]
  · simp
  · intro r hr
    exact h r ((List.mem_insertionSort TagRow.le).1 hr)

theorem TagStore.GetAllTagGroups_of_scan (json : JSON) (dec : TagGroupRow → TagGroup)
    (s : TagStore) (h : ∀ r ∈ s.db.tag_groups, TagStore.scanTagGroup json r = .ok (dec r)) :
    s.GetAllTagGroups json = .ok ((s.db.tag_groups.insertionSort TagGroupRow.le).map dec) := by
  unfold TagStore.GetAllTagGroups DB.selectTagGroups
  rw [GetAllTagGroups_loop_of_scan json dec]
  · simp
  · intro r hr
    exact h r ((List.mem_insertionSort TagGroupRow.le).1 hr)

/-- C8 (amended). Tags `T` and groups `G` with pairwise distinct ids, whose
stats and id lists survive `encoding/json` and whose two timestamps the driver
reads back from a TIMESTAMP column as they were bound, are created in an empty
store; `ExportTags` then succeeds, `ImportTags` of its envelope into an empty
store succeeds, and what `GetAllTags` / `GetAllTagGroups` read back from that
store is the envelope's content: the groups of `G` unchanged and the tags of
`T` unchanged in every field except `Count`, which reads back as 0. -/
theorem export_import_roundtrip (drv : Driver) (json : JSON) (T : List Tag) (G : List TagGroup)
    (now : Time)
    (hT : (T.map (fun t => t.ID)).Nodup) (hG : (G.map (fun g => g.ID)).Nodup)
    (htimes : ∀ t ∈ T, drv.scanTime t.CreatedAt = .ok t.CreatedAt ∧
      drv.scanTime t.UpdatedAt = .ok t.UpdatedAt)
    (hstats : ∀ t ∈ T, ∃ text, json.MarshalStats t.UsageStats = .ok text ∧
      json.UnmarshalStats text = .ok t.UsageStats)
    (hids : ∀ g ∈ G, ∃ text, json.MarshalTagIDs g.TagIDs = .ok text ∧
      json.UnmarshalTagIDs text = .ok g.TagIDs) :
    ∃ (s₁ s₂ dst : TagStore) (envelope : TagExport),
      TagStore.createTags json {} T = (s₁, none) ∧
      TagStore.createTagGroups json s₁ G = (s₂, none) ∧
      s₂.ExportTags drv json now = .ok envelope ∧
      ({} : TagStore).ImportTags json envelope = (dst, none) ∧
      dst.GetAllTags drv json = .ok envelope.Tags ∧
      dst.GetAllTagGroups json = .ok envelope.TagGroups ∧
      envelope.Tags.Perm (T.map (fun t => { t with Count := 0 })) ∧
      envelope.TagGroups.Perm G := by
  -- the row of a tag, and the tag of a row
  let fT : Tag → TagRow := fun t =>
    { id := t.ID, name := t.Name, color := t.Color, description := t.Description,
      parent_id := t.ParentID, tag_order := t.Order, created_at := t.CreatedAt,
      updated_at := t.UpdatedAt,
      usage_stats := match json.MarshalStats t.UsageStats with
        | .ok text => text
        | .error _ => "" }
  let dT : TagRow → Tag := fun r =>
    { ID := r.id, Name := r.name, Color := r.color, Description := r.description,
      ParentID := r.parent_id, Order := r.tag_order,
      CreatedAt := match drv.scanTime r.created_at with
        | .ok time => time
        | .error _ => default,
      UpdatedAt := match drv.scanTime r.updated_at with
        | .ok time => time
        | .error _ => default,
      UsageStats := match json.UnmarshalStats r.usage_stats with
        | .ok stats => stats
        | .error _ => default }
  let fG : TagGroup → TagGroupRow := fun g =>
    { id := g.ID, name := g.Name,
      tag_ids := match json.MarshalTagIDs g.TagIDs with
        | .ok text => text
        | .error _ => "",
      group_order := g.Order, expanded := g.Expanded }
  let dG : TagGroupRow → TagGroup := fun r =>
    { ID := r.id, Name := r.name,
      TagIDs := match json.UnmarshalTagIDs r.tag_ids with
        | .ok ids => ids
        | .error _ => [],
      Order := r.group_order, Expanded := r.expanded }
  have hfT : ∀ t ∈ T, TagStore.tagValues json t = .ok (fT t) := by
    intro t ht
    obtain ⟨text, hm, _⟩ := hstats t ht
    simp [TagStore.tagValues, fT, hm]
  have hsT : ∀ t ∈ T, TagStore.scanTag drv json (fT t) = .ok { t with Count := 0 } := by
    intro t ht
    obtain ⟨text, hm, hu⟩ := hstats t ht
    obtain ⟨hc, hup⟩ := htimes t ht
    simp [TagStore.scanTag, fT, hm, hu, hc, hup]
  have hdT : ∀ r ∈ T.map fT, TagStore.scanTag drv json r = .ok (dT r) := by
    intro r hr
    obtain ⟨t, ht, rfl⟩ := List.mem_map.1 hr
    obtain ⟨text, hm, hu⟩ := hstats t ht
    obtain ⟨hc, hup⟩ := htimes t ht
    simp [TagStore.scanTag, fT, dT, hm, hu, hc, hup]
  have hdfT : ∀ t ∈ T, dT (fT t) = { t with Count := 0 } := by
    intro t ht
    have h₁ := hdT (fT t) (List.mem_map.2 ⟨t, ht, rfl⟩)
    rw [hsT t ht] at h₁
    exact (Except.ok.inj h₁).symm
  have hfdT : ∀ r ∈ T.map fT, fT (dT r) = r ∧ TagStore.tagValues json (dT r) = .ok r := by
    intro r hr
    obtain ⟨t, ht, rfl⟩ := List.mem_map.1 hr
    rw [hdfT t ht]
    have := hfT t ht
    exact ⟨rfl, this⟩
  have hfG : ∀ g ∈ G, TagStore.groupValues json g = .ok (fG g) := by
    intro g hg
    obtain ⟨text, hm, _⟩ := hids g hg
    simp [TagStore.groupValues, fG, hm]
  have hdG : ∀ r ∈ G.map fG, TagStore.scanTagGroup json r = .ok (dG r) := by
    intro r hr
    obtain ⟨g, hg, rfl⟩ := List.mem_map.1 hr
    obtain ⟨text, hm, hu⟩ := hids g hg
    simp [TagStore.scanTagGroup, fG, dG, hm, hu]
  have hdfG : ∀ g ∈ G, dG (fG g) = g := by
    intro g hg
    obtain ⟨text, hm, hu⟩ := hids g hg
    simp [fG, dG, hm, hu]
  have hfdG : ∀ r ∈ G.map fG, fG (dG r) = r ∧ TagStore.groupValues json (dG r) = .ok r := by
    intro r hr
    obtain ⟨g, hg, rfl⟩ := List.mem_map.1 hr
    rw [hdfG g hg]
    exact ⟨rfl, hfG g hg⟩
  -- the source store
  have hc₁ := TagStore.createTags_of_values json fT T {} hfT (by simpa [fT] using hT)
  have hc₂ := TagStore.createTagGroups_of_values json fG G
    { db := { tags := T.map fT, tag_groups := [] } } hfG (by simpa [fG] using hG)
  -- the export
  have hg₁ := TagStore.GetAllTags_of_scan drv json dT
    { db := { tags := T.map fT, tag_groups := G.map fG } } hdT
  have hg₂ := TagStore.GetAllTagGroups_of_scan json dG
    { db := { tags := T.map fT, tag_groups := G.map fG } } hdG
  simp only at hg₁ hg₂
  -- the rows written by the import are the sorted rows of the source
  have hmT : ((T.map fT).insertionSort TagRow.le |>.map dT).map fT =
      (T.map fT).insertionSort TagRow.le := by
    rw [List.map_map]
    conv_rhs => rw [← List.map_id ((T.map fT).insertionSort TagRow.le)]
    apply List.map_congr_left
    intro r hr
    exact (hfdT r ((List.mem_insertionSort TagRow.le).1 hr)).1
  have hmG : ((G.map fG).insertionSort TagGroupRow.le |>.map dG).map fG =
      (G.map fG).insertionSort TagGroupRow.le := by
    rw [List.map_map]
    conv_rhs => rw [← List.map_id ((G.map fG).insertionSort TagGroupRow.le)]
    apply List.map_congr_left
    intro r hr
    exact (hfdG r ((List.mem_insertionSort TagGroupRow.le).1 hr)).1
  have hi := TagStore.ImportTags_of_values json fT fG {}
    { Tags := ((T.map fT).insertionSort TagRow.le).map dT
      TagGroups := ((G.map fG).insertionSort TagGroupRow.le).map dG
      ExportedAt := now, Version := "1.0" }
    (by
      intro t ht
      obtain ⟨r, hr, rfl⟩ := List.mem_map.1 ht
      have := hfdT r ((List.mem_insertionSort TagRow.le).1 hr)
      rw [this.2, this.1])
    (by
      intro g hg
      obtain ⟨r, hr, rfl⟩ := List.mem_map.1 hg
      have := hfdG r ((List.mem_insertionSort TagGroupRow.le).1 hr)
      rw [this.2, this.1])
    (by
      have : (((T.map fT).insertionSort TagRow.le).map dT).map (fun t => (fT t).id) =
          (((T.map fT).insertionSort TagRow.le).map dT |>.map fT).map (fun r => r.id) := by
        simp [List.map_map]
      simp only at this ⊢
      rw [this, hmT]
      refine ((List.perm_insertionSort TagRow.le (T.map fT)).map _).nodup_iff.2 ?_
      simpa [fT, List.map_map] using hT)
    (by
      have : (((G.map fG).insertionSort TagGroupRow.le).map dG).map (fun g => (fG g).id) =
          (((G.map fG).insertionSort TagGroupRow.le).map dG |>.map fG).map (fun r => r.id) := by
        simp [List.map_map]
      simp only at this ⊢
      rw [this, hmG]
      refine ((List.perm_insertionSort TagGroupRow.le (G.map fG)).map _).nodup_iff.2 ?_
      simpa [fG, List.map_map] using hG)
  simp only at hi
  rw [hmT, hmG] at hi
  -- reading the destination back
  have hr₁ := TagStore.GetAllTags_of_scan drv json dT
    { db := { tags := (T.map fT).insertionSort TagRow.le,
              tag_groups := (G.map fG).insertionSort TagGroupRow.le } }
    (fun r hr => hdT r ((List.mem_insertionSort TagRow.le).1 hr))
  have hr₂ := TagStore.GetAllTagGroups_of_scan json dG
    { db := { tags := (T.map fT).insertionSort TagRow.le,
              tag_groups := (G.map fG).insertionSort TagGroupRow.le } }
    (fun r hr => hdG r ((List.mem_insertionSort TagGroupRow.le).1 hr))
  simp only at hr₁ hr₂
  rw [(List.sorted_insertionSort TagRow.le (T.map fT)).insertionSort_eq] at hr₁
  rw [(List.sorted_insertionSort TagGroupRow.le (G.map fG)).insertionSort_eq] at hr₂
  have hc₁' : TagStore.createTags json {} T =
      ({ db := { tags := T.map fT, tag_groups := [] } }, none) := by
    simpa using hc₁
  have hc₂' : TagStore.createTagGroups json { db := { tags := T.map fT, tag_groups := [] } } G =
      ({ db := { tags := T.map fT, tag_groups := G.map fG } }, none) := by
    simpa using hc₂
  refine ⟨{ db := { tags := T.map fT, tag_groups := [] } },
    { db := { tags := T.map fT, tag_groups := G.map fG } },
    { db := { tags := (T.map fT).insertionSort TagRow.le,
              tag_groups := (G.map fG).insertionSort TagGroupRow.le } },
    { Tags := ((T.map fT).insertionSort TagRow.le).map dT
      TagGroups := ((G.map fG).insertionSort TagGroupRow.le).map dG
      ExportedAt := now, Version := "1.0" },
    hc₁', hc₂', ?_, hi, hr₁, hr₂, ?_, ?_⟩
  · simp only [TagStore.ExportTags, hg₁, hg₂]
  · have h₁ := (List.perm_insertionSort TagRow.le (T.map fT)).map dT
    refine h₁.trans ?_
    rw [List.map_map]
    exact List.Perm.of_eq (List.map_congr_left hdfT)
  · have h₁ := (List.perm_insertionSort TagGroupRow.le (G.map fG)).map dG
    refine h₁.trans ?_
    rw [List.map_map]
    have : G.map (dG ∘ fG) = G := by
      conv_rhs => rw [← List.map_id G]
      exact List.map_congr_left hdfG
    rw [this]

/-- C8 (counterexample). The tag `t1` with `Count = 5` is created in an empty
store; the store is exported, the envelope imported into an empty store and
read back: the tag comes back with `Count = 0`, so the tags read back are not
the tags that were stored. And after `stampedTag`, whose `UpdatedAt` is in a
zone without a name, is created, `ExportTags` returns the error of `rows.Scan`. -/
theorem roundtrip_loses_Count :
    (TagStore.createTags exampleJSON {} [{ ID := "t1", Name := "go", Count := 5 }] =
        ({ db := { tags := [exampleRow "t1" "go" 0] } }, none) ∧
      TagStore.ExportTags Driver.unnamedZones exampleJSON
          { db := { tags := [exampleRow "t1" "go" 0] } } Time.zero =
        .ok { Tags := [{ ID := "t1", Name := "go", Count := 0 }], TagGroups := [],
              ExportedAt := Time.zero, Version := "1.0" } ∧
      TagStore.ImportTags exampleJSON {}
          { Tags := [{ ID := "t1", Name := "go", Count := 0 }], TagGroups := [],
            ExportedAt := Time.zero, Version := "1.0" } =
        ({ db := { tags := [exampleRow "t1" "go" 0] } }, none) ∧
      TagStore.GetAllTags Driver.unnamedZones exampleJSON
          { db := { tags := [exampleRow "t1" "go" 0] } } =
        .ok [{ ID := "t1", Name := "go", Count := 0 }] ∧
      ¬ ([{ ID := "t1", Name := "go", Count := 0 }] : List Tag).Perm
          [{ ID := "t1", Name := "go", Count := 5 }]) ∧
    ((TagStore.createTags exampleJSON {} [stampedTag]).2 = none ∧
      TagStore.ExportTags Driver.unnamedZones exampleJSON
          (TagStore.createTags exampleJSON {} [stampedTag]).1 Time.zero =
        .error "sql: Scan error on column index 7, name \"updated_at\": unsupported Scan, storing driver.Value type string into type *time.Time") := by
  refine ⟨⟨by decide, rfl, by decide, rfl, ?_⟩, by decide, rfl⟩
  rw [List.perm_singleton]
  decide

/-- C8 (amended) on two tags and one group, with the JSON texts of the examples
and times in UTC. -/
theorem export_import_roundtrip_witness :
    (exampleTags.map (fun t => t.ID)).Nodup ∧
      ∃ (s₁ s₂ dst : TagStore) (envelope : TagExport),
        TagStore.createTags exampleJSON {} exampleTags = (s₁, none) ∧
        TagStore.createTagGroups exampleJSON s₁ exampleGroups = (s₂, none) ∧
        s₂.ExportTags Driver.unnamedZones exampleJSON Time.zero = .ok envelope ∧
        ({} : TagStore).ImportTags exampleJSON envelope = (dst, none) ∧
        dst.GetAllTags Driver.unnamedZones exampleJSON = .ok envelope.Tags ∧
        dst.GetAllTagGroups exampleJSON = .ok envelope.TagGroups ∧
        envelope.Tags.Perm (exampleTags.map (fun t => { t with Count := 0 })) ∧
        envelope.TagGroups.Perm exampleGroups :=
  ⟨by decide,
    export_import_roundtrip Driver.unnamedZones exampleJSON exampleTags exampleGroups Time.zero
      (by decide) (by decide)
      (by
        intro t ht
        simp only [exampleTags, List.mem_cons, List.mem_singleton, List.not_mem_nil,
          or_false] at ht
        rcases ht with rfl | rfl <;> exact ⟨rfl, rfl⟩)
      (by
        intro t ht
        refine ⟨"\x7b\"last_used\":\"0001-01-01T00:00:00Z\",\"usage_count\":0,\"bookmark_count\":0,\"historical_count\":0\x7d", ?_, ?_⟩ <;>
        · simp only [exampleTags, List.mem_cons, List.mem_singleton, List.not_mem_nil,
            or_false] at ht
          rcases ht with rfl | rfl <;> rfl)
      (by
        intro g hg
        refine ⟨"[\"t1\",\"t2\"]", ?_, ?_⟩ <;>
        · simp only [exampleGroups, List.mem_singleton] at hg
          subst hg
          rfl)⟩

/-- C9 on a store holding the tag `old`: after importing the envelope with t1
only the row of t1 is stored, with the fields of t1. -/
theorem ImportTags_replaces_contents_witness :
    exampleStore.db.tags = [exampleRow "old" "stale" 3] ∧
      exampleStore.ImportTags exampleJSON exampleEnvelope =
        ({ db := { tags := [exampleRow "t1" "go" 0] } }, none) ∧
      ∀ row ∈ [exampleRow "t1" "go" 0], ∃ tag ∈ exampleEnvelope.Tags, row.id = tag.ID :=
  ⟨rfl, by decide,
    (ImportTags_replaces_contents exampleJSON exampleStore
      { db := { tags := [exampleRow "t1" "go" 0] } } exampleEnvelope (by decide)).2.2.1⟩

/-- C9 as stated fails for `Count`: the envelope with the tag t1 of `Count = 5`
and the envelope with the tag t1 of `Count = 0` leave the same table, from
which t1 is read with `Count = 0`; the table does not hold the record of the
first envelope. -/
theorem ImportTags_keeps_no_Count :
    exampleEnvelope.Tags = [{ ID := "t1", Name := "go", Count := 5 }] ∧
      exampleStore.ImportTags exampleJSON exampleEnvelope =
        ({ db := { tags := [exampleRow "t1" "go" 0] } }, none) ∧
      exampleStore.ImportTags exampleJSON
          { exampleEnvelope with Tags := [{ ID := "t1", Name := "go", Count := 0 }] } =
        ({ db := { tags := [exampleRow "t1" "go" 0] } }, none) ∧
      TagStore.GetAllTags Driver.unnamedZones exampleJSON
          { db := { tags := [exampleRow "t1" "go" 0] } } =
        .ok [{ ID := "t1", Name := "go", Count := 0 }] ∧
      ([{ ID := "t1", Name := "go", Count := 0 }] : List Tag) ≠ exampleEnvelope.Tags :=
  ⟨rfl, by decide, by decide, rfl, by decide⟩

/-- C10 on an envelope with the id t1 twice: the second insert is rejected and
the store still holds exactly the tag `old`. -/
theorem ImportTags_atomic_witness :
    exampleStore.ImportTags exampleJSON duplicateEnvelope =
        ((exampleStore.ImportTags exampleJSON duplicateEnvelope).1,
          some "UNIQUE constraint failed: tags.id") ∧
      (exampleStore.ImportTags exampleJSON duplicateEnvelope).1 = exampleStore :=
  ⟨by decide,
    ImportTags_atomic exampleJSON exampleStore _ duplicateEnvelope
      "UNIQUE constraint failed: tags.id" (by decide)⟩

/-! ## Tag groups (`internal/models/tag.go`) -/

/-- `ContainsTag` decides membership in `TagIDs`. -/
theorem ContainsTag_iff (g : TagGroup) (tagID : String) :
    g.ContainsTag tagID = true ↔ tagID ∈ g.TagIDs := by
  unfold TagGroup.ContainsTag
  induction g.TagIDs with
  | nil => simp [TagGroup.ContainsTag.loop]
  | cons id rest ih =>
    by_cases h : id = tagID
    · simp [TagGroup.ContainsTag.loop, h]
    · have h' : ¬ tagID = id := fun e => h e.symm
      simp [TagGroup.ContainsTag.loop, h, h', ih]

/-- Cutting the entry at index `pre.length` out of `pre ++ x :: post`. -/
theorem take_drop_succ_append {α : Type} (pre : List α) (x : α) (post : List α) :
    (pre ++ x :: post).take pre.length ++ (pre ++ x :: post).drop (pre.length + 1) =
      pre ++ post := by
  induction pre with
  | nil => simp
  | cons y ys ih => simp [ih]

/-- The loop of `RemoveTag`, started after a prefix without the id, erases the
first occurrence. -/
theorem RemoveTag_loop_eq (tagID : String) (pre rest : List String) (hpre : tagID ∉ pre) :
    TagGroup.RemoveTag.loop tagID (pre ++ rest) rest pre.length = pre ++ rest.erase tagID := by
  induction rest generalizing pre with
  | nil => simp [TagGroup.RemoveTag.loop]
  | cons id rest ih =>
    by_cases h : id = tagID
    · subst h
      simp [TagGroup.RemoveTag.loop, take_drop_succ_append]
    · have hpre' : tagID ∉ pre ++ [id] := by
        simp only [List.mem_append, List.mem_singleton, not_or]
        exact ⟨hpre, fun e => h e.symm⟩
      have := ih (pre ++ [id]) hpre'
      simp only [List.append_assoc, List.singleton_append, List.length_append,
        List.length_singleton] at this
      simp only [TagGroup.RemoveTag.loop, h, if_false, this]
      rw [List.erase_cons_tail (by simpa using h)]

/-- `RemoveTag` erases the first occurrence and keeps the other fields. -/
theorem RemoveTag_eq_erase (g : TagGroup) (tagID : String) :
    g.RemoveTag tagID = { g with TagIDs := g.TagIDs.erase tagID } := by
  have := RemoveTag_loop_eq tagID [] g.TagIDs (by simp)
  simp only [List.nil_append, List.length_nil] at this
  simp [TagGroup.RemoveTag, this]

/-- C14. `AddTag(id)` leaves the group as it is when `id` is already among its
`TagIDs` and otherwise appends `id` at the end, all other fields kept; a second
`AddTag(id)` changes nothing, and `ContainsTag(id)` holds afterwards. -/
theorem AddTag_spec (g : TagGroup) (tagID : String) :
    (tagID ∈ g.TagIDs → g.AddTag tagID = g) ∧
      (tagID ∉ g.TagIDs → g.AddTag tagID = { g with TagIDs := g.TagIDs ++ [tagID] }) ∧
      (g.AddTag tagID).AddTag tagID = g.AddTag tagID ∧
      (g.AddTag tagID).ContainsTag tagID = true := by
  have hin : ∀ g' : TagGroup, tagID ∈ g'.TagIDs → g'.AddTag tagID = g' := by
    intro g' h
    simp [TagGroup.AddTag, (ContainsTag_iff g' tagID).2 h]
  have hout : tagID ∉ g.TagIDs → g.AddTag tagID = { g with TagIDs := g.TagIDs ++ [tagID] } := by
    intro h
    have : g.ContainsTag tagID = false := by
      cases hc : g.ContainsTag tagID
      · rfl
      · exact absurd ((ContainsTag_iff g tagID).1 hc) h
    simp [TagGroup.AddTag, this]
  have hmem : tagID ∈ (g.AddTag tagID).TagIDs := by
    by_cases h : tagID ∈ g.TagIDs
    · rw [hin g h]; exact h
    · rw [hout h]; simp
  exact ⟨hin g, hout, hin _ hmem, (ContainsTag_iff _ tagID).2 hmem⟩

/-- C20. `RemoveTag(id)` cuts the first occurrence of `id` out of `TagIDs` and
keeps every other entry, later occurrences of `id` included, in place; without
an occurrence the group is unchanged; no other field changes; and on
duplicate-free `TagIDs` the id is gone afterwards. -/
theorem RemoveTag_spec (g : TagGroup) (tagID : String) :
    ((∃ pre post, g.TagIDs = pre ++ tagID :: post ∧ tagID ∉ pre ∧
          g.RemoveTag tagID = { g with TagIDs := pre ++ post }) ∨
        (tagID ∉ g.TagIDs ∧ g.RemoveTag tagID = g)) ∧
      (g.TagIDs.Nodup → (g.RemoveTag tagID).ContainsTag tagID = false) := by
  refine ⟨?_, ?_⟩
  · by_cases h : tagID ∈ g.TagIDs
    · left
      obtain ⟨pre, post, hsplit, hpre⟩ := List.eq_append_cons_of_mem h
      refine ⟨pre, post, hsplit, hpre, ?_⟩
      rw [RemoveTag_eq_erase]
      congr 1
      rw [hsplit, List.erase_append_right _ hpre, List.erase_cons_head]
    · right
      refine ⟨h, ?_⟩
      rw [RemoveTag_eq_erase, List.erase_of_not_mem h]
  · intro hnd
    cases hc : (g.RemoveTag tagID).ContainsTag tagID
    · rfl
    · have hm := (ContainsTag_iff _ tagID).1 hc
      rw [RemoveTag_eq_erase] at hm
      exact absurd hm (hnd.not_mem_erase)

/-! ## Application state: deleting, grouping, saving twice -/

/-- C12 (failing input). On the fresh state, whose tag sequence is empty,
`DeleteTag` computes the capacity `len(s.tags)-1 = -1` and panics instead of
returning nil. -/
theorem DeleteTag_panics_on_empty_state :
    NewAppState.DeleteTag { ID := "t1", Name := "go" } =
      Outcome.panicked NewAppState "runtime error: makeslice: cap out of range" := by
  decide

/-- `DeleteTag` on an idle state with at least one tag: it returns nil, keeps
in order exactly the tags whose id differs from the argument's, and changes
nothing else, the groups and their `TagIDs` included. -/
theorem DeleteTag_of_nonempty (s : AppState) (tag : Tag)
    (hmu : s.mu = RWMutex.unlocked) (hne : s.tags ≠ []) :
    s.DeleteTag tag = Outcome.returned
      { s with tags := s.tags.filter (fun t => t.ID != tag.ID) } none := by
  have hlen : 0 < s.tags.length := List.length_pos.2 hne
  have hcap : ¬ ((s.tags.length : Int) - 1 < 0) := by omega
  simp only [AppState.DeleteTag, AppState.withLock, hmu, RWMutex.Lock, hcap, if_false,
    deferUnlock, RWMutex.Unlock, foldl_append_if, List.nil_append]

/-- The loop of `DeleteTagGroup`, started after a prefix without the id. -/
theorem DeleteTagGroup_scan_spec (group : TagGroup) (pre rest : List TagGroup)
    (hpre : ∀ y ∈ pre, y.ID ≠ group.ID) :
    (∃ mid x post, rest = mid ++ x :: post ∧ (∀ y ∈ pre ++ mid, y.ID ≠ group.ID) ∧
        x.ID = group.ID ∧
        AppState.DeleteTagGroup.scan group (pre ++ rest) rest pre.length =
          some (pre ++ mid ++ post)) ∨
    ((∀ y ∈ pre ++ rest, y.ID ≠ group.ID) ∧
        AppState.DeleteTagGroup.scan group (pre ++ rest) rest pre.length = none) := by
  induction rest generalizing pre with
  | nil =>
    right
    simpa [AppState.DeleteTagGroup.scan] using hpre
  | cons g rest ih =>
    by_cases hg : g.ID = group.ID
    · left
      refine ⟨[], g, rest, rfl, by simpa using hpre, hg, ?_⟩
      simp [AppState.DeleteTagGroup.scan, hg, take_drop_succ_append]
    · have hpre' : ∀ y ∈ pre ++ [g], y.ID ≠ group.ID := by
        intro y hy
        rcases List.mem_append.1 hy with h | h
        · exact hpre y h
        · simp at h; subst h; exact hg
      have e : pre ++ g :: rest = (pre ++ [g]) ++ rest := by simp
      have el : pre.length + 1 = (pre ++ [g]).length := by simp
      rcases ih (pre ++ [g]) hpre' with ⟨mid, x, post, hr, hno, hx, hs⟩ | ⟨hno, hs⟩
      · left
        refine ⟨g :: mid, x, post, by simp [hr], ?_, hx, ?_⟩
        · intro y hy; apply hno; simpa using hy
        · simp only [AppState.DeleteTagGroup.scan, hg, if_false]
          rw [e, el, hs]; simp
      · right
        refine ⟨?_, ?_⟩
        · intro y hy; apply hno; simpa using hy
        · simp only [AppState.DeleteTagGroup.scan, hg, if_false]
          rw [e, el, hs]

/-- C13. On an idle state `DeleteTagGroup(group)` never touches the tag
sequence. If some group has the id, the call returns nil and cuts out the
first such group, every other group kept as it is and in place; if none has,
it reports "tag group not found" and the state is unchanged. -/
theorem DeleteTagGroup_spec (s : AppState) (group : TagGroup)
    (hmu : s.mu = RWMutex.unlocked) :
    (s.DeleteTagGroup group).state.tags = s.tags ∧
      ((∃ pre x post, s.tagGroups = pre ++ x :: post ∧ (∀ y ∈ pre, y.ID ≠ group.ID) ∧
          x.ID = group.ID ∧
          s.DeleteTagGroup group = Outcome.returned { s with tagGroups := pre ++ post } none) ∨
        ((∀ y ∈ s.tagGroups, y.ID ≠ group.ID) ∧
          s.DeleteTagGroup group = Outcome.returned s (some "tag group not found"))) := by
  cases s with
  | mk mu b u sq cp tg gr =>
    cases hmu
    rcases DeleteTagGroup_scan_spec group [] gr (by simp) with
      ⟨mid, x, post, hr, hno, hx, hs⟩ | ⟨hno, hs⟩
    · simp only [List.nil_append, List.length_nil] at hs
      have hcall : AppState.DeleteTagGroup
          { mu := RWMutex.unlocked, bookmarks := b, currentUser := u, searchQuery := sq,
            currentPage := cp, tags := tg, tagGroups := gr } group =
          Outcome.returned
            { mu := RWMutex.unlocked, bookmarks := b, currentUser := u, searchQuery := sq,
              currentPage := cp, tags := tg, tagGroups := mid ++ post } none := by
        simp [AppState.DeleteTagGroup, AppState.withLock, RWMutex.Lock, hs, deferUnlock,
          RWMutex.Unlock]
      refine ⟨by rw [hcall]; rfl, Or.inl ⟨mid, x, post, hr, by simpa using hno, hx, hcall⟩⟩
    · simp only [List.nil_append, List.length_nil] at hs
      have hcall : AppState.DeleteTagGroup
          { mu := RWMutex.unlocked, bookmarks := b, currentUser := u, searchQuery := sq,
            currentPage := cp, tags := tg, tagGroups := gr } group =
          Outcome.returned
            { mu := RWMutex.unlocked, bookmarks := b, currentUser := u, searchQuery := sq,
              currentPage := cp, tags := tg, tagGroups := gr } (some "tag group not found") := by
        simp [AppState.DeleteTagGroup, AppState.withLock, RWMutex.Lock, hs, deferUnlock,
          RWMutex.Unlock]
      refine ⟨by rw [hcall]; rfl, Or.inr ⟨by simpa using hno, hcall⟩⟩

/-- C13 on a state with the groups g1, g2 and one tag: deleting g1. -/
theorem DeleteTagGroup_spec_witness :
    ({ tags := [{ ID := "t1" }], tagGroups := [{ ID := "g1", TagIDs := ["t1"] }, { ID := "g2" }] } :
        AppState).mu = RWMutex.unlocked ∧
      (AppState.DeleteTagGroup
        { tags := [{ ID := "t1" }], tagGroups := [{ ID := "g1", TagIDs := ["t1"] }, { ID := "g2" }] }
        { ID := "g1" }).state.tags = [{ ID := "t1" }] :=
  ⟨rfl, (DeleteTagGroup_spec
    { tags := [{ ID := "t1" }], tagGroups := [{ ID := "g1", TagIDs := ["t1"] }, { ID := "g2" }] }
    { ID := "g1" } rfl).1⟩

/-- The store's `DeleteTagGroup` removes the rows of `tag_groups` with the id
and leaves table `tags` as it is. -/
theorem TagStore_DeleteTagGroup_tags (s : TagStore) (id : String) :
    s.DeleteTagGroup id =
      ({ db := { s.db with tag_groups := s.db.tag_groups.filter (fun r => r.id != id) } }, none) ∧
      (s.DeleteTagGroup id).1.db.tags = s.db.tags := by
  constructor <;> rfl

/-- The upsert loop finds the first entry with the tag's id and overwrites it. -/
theorem SaveTag_scan_of_first (t : Tag) (p₀ pre : List Tag) (x : Tag) (post : List Tag)
    (hpre : ∀ y ∈ pre, y.ID ≠ t.ID) (hx : x.ID = t.ID) :
    AppState.SaveTag.scan t (p₀ ++ pre ++ x :: post) (pre ++ x :: post) p₀.length =
      some (p₀ ++ pre ++ t :: post) := by
  induction pre generalizing p₀ with
  | nil =>
    simp only [List.append_nil, List.nil_append, AppState.SaveTag.scan, hx, if_true]
    rw [set_length_append]
  | cons y ys ih =>
    have hy : y.ID ≠ t.ID := hpre y (List.mem_cons_self _ _)
    have := ih (p₀ ++ [y]) (fun z hz => hpre z (List.mem_cons_of_mem _ hz))
    simp only [List.append_assoc, List.singleton_append, List.length_append,
      List.length_singleton] at this
    simp only [List.cons_append, AppState.SaveTag.scan, hy, if_false, List.append_assoc]
    exact this

/-- The upsert loop runs to its end when no entry has the tag's id. -/
theorem SaveTag_scan_of_none (t : Tag) (all rest : List Tag) (i : Nat)
    (h : ∀ y ∈ rest, y.ID ≠ t.ID) : AppState.SaveTag.scan t all rest i = none := by
  induction rest generalizing i with
  | nil => rfl
  | cons y ys ih =>
    simp only [AppState.SaveTag.scan, h y (List.mem_cons_self _ _), if_false]
    exact ih (i + 1) (fun z hz => h z (List.mem_cons_of_mem _ hz))

/-- `SaveTag` on an idle state, in terms of its loop. -/
theorem SaveTag_eq (s : AppState) (t : Tag) (hmu : s.mu = RWMutex.unlocked) :
    s.SaveTag t = Outcome.returned
      { s with tags := (AppState.SaveTag.scan t s.tags s.tags 0).getD (s.tags ++ [t]) } none := by
  cases s with
  | mk mu b u sq cp tg gr =>
    cases hmu
    cases h : AppState.SaveTag.scan t tg tg 0 <;>
      simp [AppState.SaveTag, AppState.withLock, RWMutex.Lock, h, deferUnlock, RWMutex.Unlock]

/-- C15. On an idle state, for tags `a` and `b` with the same id: `SaveTag(a)`
returns nil, `SaveTag(b)` on the state it leaves returns nil, and the state
after both is the state `SaveTag(b)` alone leaves when called on the original
state; in particular the tag sequences agree. -/
theorem SaveTag_last_writer_wins (s : AppState) (a b : Tag)
    (hmu : s.mu = RWMutex.unlocked) (hid : a.ID = b.ID) :
    ∃ s₁ s₂ : AppState,
      s.SaveTag a = Outcome.returned s₁ none ∧
      s₁.SaveTag b = Outcome.returned s₂ none ∧
      s.SaveTag b = Outcome.returned s₂ none := by
  have key : ((AppState.SaveTag.scan b
        ((AppState.SaveTag.scan a s.tags s.tags 0).getD (s.tags ++ [a]))
        ((AppState.SaveTag.scan a s.tags s.tags 0).getD (s.tags ++ [a])) 0).getD
        ((AppState.SaveTag.scan a s.tags s.tags 0).getD (s.tags ++ [a]) ++ [b])) =
      (AppState.SaveTag.scan b s.tags s.tags 0).getD (s.tags ++ [b]) := by
    rcases SaveTag.scan_spec a [] s.tags (by simp) with ⟨mid, x, post, hr, hno, hx, hs⟩ | ⟨hno, hs⟩
    · simp only [List.nil_append, List.length_nil] at hs hno
      have hnob : ∀ y ∈ mid, y.ID ≠ b.ID := fun y hy => hid ▸ hno y hy
      have h₁ := SaveTag_scan_of_first b [] mid a post hnob hid
      have h₂ := SaveTag_scan_of_first b [] mid x post hnob (hx.trans hid)
      simp only [List.nil_append, List.length_nil] at h₁ h₂
      rw [hs]
      simp only [Option.getD_some]
      rw [h₁, hr, h₂]
      rfl
    · simp only [List.nil_append, List.length_nil] at hs hno
      have hnob : ∀ y ∈ s.tags, y.ID ≠ b.ID := fun y hy => hid ▸ hno y hy
      have h₁ := SaveTag_scan_of_first b [] s.tags a [] hnob hid
      have h₂ := SaveTag_scan_of_none b s.tags s.tags 0 hnob
      simp only [List.nil_append, List.length_nil] at h₁
      rw [hs, h₂]
      simp only [Option.getD_none]
      rw [h₁]
      rfl
  refine ⟨{ s with tags := (AppState.SaveTag.scan a s.tags s.tags 0).getD (s.tags ++ [a]) },
    { s with tags := (AppState.SaveTag.scan b s.tags s.tags 0).getD (s.tags ++ [b]) },
    SaveTag_eq s a hmu, ?_, SaveTag_eq s b hmu⟩
  have h := SaveTag_eq
    { s with tags := (AppState.SaveTag.scan a s.tags s.tags 0).getD (s.tags ++ [a]) } b hmu
  simp only [key] at h
  exact h

/-- C15 on a state holding t1: saving two versions of t1 one after the other. -/
theorem SaveTag_last_writer_wins_witness :
    ({ tags := [{ ID := "t1", Name := "go" }] } : AppState).mu = RWMutex.unlocked ∧
      ({ ID := "t1", Name := "golang" } : Tag).ID = ({ ID := "t1", Name := "Go" } : Tag).ID ∧
      ∃ s₁ s₂ : AppState,
        AppState.SaveTag { tags := [{ ID := "t1", Name := "go" }] } { ID := "t1", Name := "golang" } =
          Outcome.returned s₁ none ∧
        s₁.SaveTag { ID := "t1", Name := "Go" } = Outcome.returned s₂ none ∧
        AppState.SaveTag { tags := [{ ID := "t1", Name := "go" }] } { ID := "t1", Name := "Go" } =
          Outcome.returned s₂ none :=
  ⟨rfl, rfl, SaveTag_last_writer_wins { tags := [{ ID := "t1", Name := "go" }] }
    { ID := "t1", Name := "golang" } { ID := "t1", Name := "Go" } rfl rfl⟩

/-- Whatever way `DeleteTags` ends, the groups it leaves behind are the old
groups with some ids filtered out, or the old groups. -/
theorem DeleteTags_state_tagGroups (s : AppState) (tagIDs : List String) :
    (s.DeleteTags tagIDs).state.tagGroups = s.tagGroups ∨
      (s.DeleteTags tagIDs).state.tagGroups = s.tagGroups.map (fun g =>
        { g with TagIDs := g.TagIDs.filter (fun id => decide (id ∉ tagIDs)) }) := by
  cases hmu : s.mu with
  | unlocked =>
    by_cases hlen : tagIDs.length ≤ s.tags.length
    · right
      rw [DeleteTags_of_length_le s tagIDs hmu hlen]; rfl
    · left
      rw [DeleteTags_of_length_gt s tagIDs hmu (by omega)]; rfl
  | writeLocked =>
    left
    simp [AppState.DeleteTags, AppState.withLock, hmu, RWMutex.Lock, Outcome.state]
  | readLocked n =>
    left
    simp [AppState.DeleteTags, AppState.withLock, hmu, RWMutex.Lock, Outcome.state]

/-- Whatever the lock state, the id list and the clock, `GroupTags` leaves the
group sequence as it found it: with the lock taken it never gets it, and with
the lock free the nested `SaveTagGroup` never gets it. -/
theorem GroupTags_state_tagGroups (s : AppState) (ids : List String) (now : Time) :
    (s.GroupTags ids now).state.tagGroups = s.tagGroups := by
  cases s with
  | mk mu b u sq cp tg gr =>
    cases mu <;>
      simp [AppState.GroupTags, AppState.withLock, AppState.SaveTagGroup, RWMutex.Lock,
        deferUnlock, Outcome.state]

/-- C19. Starting from a group and from a state whose groups have
duplicate-free `TagIDs`: `AddTag` and `RemoveTag` give a group with
duplicate-free `TagIDs`, and in the state that `GroupTags` leaves behind, for
every id list (also one that names an id twice), as in the state that
`DeleteTags` leaves behind, every group has duplicate-free `TagIDs`, however
the call ends. -/
theorem TagIDs_nodup_preserved (g : TagGroup) (tagID : String) (s : AppState)
    (ids tagIDs : List String) (now : Time)
    (hg : g.TagIDs.Nodup) (hs : ∀ g' ∈ s.tagGroups, g'.TagIDs.Nodup) :
    (g.AddTag tagID).TagIDs.Nodup ∧
      (g.RemoveTag tagID).TagIDs.Nodup ∧
      (∀ g' ∈ (s.GroupTags ids now).state.tagGroups, g'.TagIDs.Nodup) ∧
      (∀ (s' : AppState) (r : Error), s.GroupTags ids now = Outcome.returned s' r →
        ∀ g' ∈ s'.tagGroups, g'.TagIDs.Nodup) ∧
      (∀ g' ∈ (s.DeleteTags tagIDs).state.tagGroups, g'.TagIDs.Nodup) ∧
      (∀ (s' : AppState) (r : Error), s.DeleteTags tagIDs = Outcome.returned s' r →
        ∀ g' ∈ s'.tagGroups, g'.TagIDs.Nodup) := by
  have hgroup : ∀ g' ∈ (s.GroupTags ids now).state.tagGroups, g'.TagIDs.Nodup := by
    intro g' hg'
    rw [GroupTags_state_tagGroups] at hg'
    exact hs g' hg'
  have hdelete : ∀ g' ∈ (s.DeleteTags tagIDs).state.tagGroups, g'.TagIDs.Nodup := by
    intro g' hg'
    rcases DeleteTags_state_tagGroups s tagIDs with h | h
    · rw [h] at hg'; exact hs g' hg'
    · rw [h] at hg'
      obtain ⟨g₀, hg₀, rfl⟩ := List.mem_map.1 hg'
      exact (hs g₀ hg₀).filter _
  refine ⟨?_, ?_, hgroup, ?_, hdelete, ?_⟩
  · by_cases h : tagID ∈ g.TagIDs
    · have : g.AddTag tagID = g := by
        simp [TagGroup.AddTag, (ContainsTag_iff g tagID).2 h]
      rw [this]; exact hg
    · have hc : g.ContainsTag tagID = false := by
        cases hc : g.ContainsTag tagID
        · rfl
        · exact absurd ((ContainsTag_iff g tagID).1 hc) h
      have : g.AddTag tagID = { g with TagIDs := g.TagIDs ++ [tagID] } := by
        simp [TagGroup.AddTag, hc]
      rw [this]
      exact List.Nodup.append hg (List.nodup_singleton _) (by simpa using h)
  · rw [RemoveTag_eq_erase]
    exact hg.erase _
  · intro s' r h g' hg'
    have := hgroup g'
    rw [h] at this
    exact this hg'
  · intro s' r h g' hg'
    have := hdelete g'
    rw [h] at this
    exact this hg'

/-- C19 on the group g1 with the ids a, b and on a state that holds the tag a
and the group g1: adding a again leaves a, b; removing a leaves b;
`GroupTags(["t1","t1"])` ends blocked with the lock held and g1 as the only
group; `DeleteTags(["a"])` returns with g1 holding b. -/
theorem TagIDs_nodup_preserved_witness :
    (TagGroup.AddTag { ID := "g1", TagIDs := ["a", "b"] } "a").TagIDs = ["a", "b"] ∧
      (TagGroup.RemoveTag { ID := "g1", TagIDs := ["a", "b"] } "a").TagIDs = ["b"] ∧
      AppState.GroupTags
          { tags := [{ ID := "a" }], tagGroups := [{ ID := "g1", TagIDs := ["a", "b"] }] }
          ["t1", "t1"] Time.zero =
        Outcome.blocked
          { mu := RWMutex.writeLocked, tags := [{ ID := "a" }],
            tagGroups := [{ ID := "g1", TagIDs := ["a", "b"] }] } ∧
      AppState.DeleteTags
          { tags := [{ ID := "a" }], tagGroups := [{ ID := "g1", TagIDs := ["a", "b"] }] }
          ["a"] =
        Outcome.returned { tagGroups := [{ ID := "g1", TagIDs := ["b"] }] } none ∧
      ({ ID := "g1", TagIDs := ["a", "b"] } : TagGroup).TagIDs.Nodup ∧
      (TagGroup.AddTag { ID := "g1", TagIDs := ["a", "b"] } "a").TagIDs.Nodup ∧
      (TagGroup.RemoveTag { ID := "g1", TagIDs := ["a", "b"] } "a").TagIDs.Nodup ∧
      (∀ g' ∈ (AppState.GroupTags
          { tags := [{ ID := "a" }], tagGroups := [{ ID := "g1", TagIDs := ["a", "b"] }] }
          ["t1", "t1"] Time.zero).state.tagGroups, g'.TagIDs.Nodup) ∧
      (∀ g' ∈ (AppState.DeleteTags
          { tags := [{ ID := "a" }], tagGroups := [{ ID := "g1", TagIDs := ["a", "b"] }] }
          ["a"]).state.tagGroups, g'.TagIDs.Nodup) := by
  have h := TagIDs_nodup_preserved { ID := "g1", TagIDs := ["a", "b"] } "a"
    { tags := [{ ID := "a" }], tagGroups := [{ ID := "g1", TagIDs := ["a", "b"] }] }
    ["t1", "t1"] ["a"] Time.zero (by decide) (by decide)
  exact ⟨by decide, by decide, by decide, by decide, by decide, h.1, h.2.1, h.2.2.1,
    h.2.2.2.2.1⟩

/-! ## The tag store: single tags and children -/

/-- `CreateTag` with an id that is already stored returns an error and leaves
the store as it is, whatever the codec does. -/
theorem CreateTag_of_stored_id (json : JSON) (s : TagStore) (tag : Tag)
    (h : ∃ r ∈ s.db.tags, r.id = tag.ID) :
    ∃ err, s.CreateTag json tag = (s, some err) := by
  obtain ⟨r, hr, hid⟩ := h
  unfold TagStore.CreateTag
  cases hv : TagStore.tagValues json tag with
  | error err => exact ⟨err, rfl⟩
  | ok row =>
    have hrow : row.id = tag.ID := by
      unfold TagStore.tagValues at hv
      split at hv
      · simp at hv
      · simp only [Except.ok.injEq] at hv
        rw [← hv]
    have hany : s.db.tags.any (fun r => decide (r.id = row.id)) = true := by
      simp only [List.any_eq_true, decide_eq_true_eq]
      exact ⟨r, hr, hid.trans hrow.symm⟩
    refine ⟨"UNIQUE constraint failed: tags.id", ?_⟩
    simp [DB.insertTag, hany]

/-- The tag a row is read as when both times and the stats are read. -/
theorem scanTag_ok (drv : Driver) (json : JSON) (row : TagRow) (c u : Time) (stats : TagStats)
    (hc : drv.scanTime row.created_at = .ok c) (hu : drv.scanTime row.updated_at = .ok u)
    (hs : json.UnmarshalStats row.usage_stats = .ok stats) :
    TagStore.scanTag drv json row =
      .ok { ID := row.id, Name := row.name, Color := row.color, Description := row.description,
            ParentID := row.parent_id, Order := row.tag_order, Count := 0, CreatedAt := c,
            UpdatedAt := u, UsageStats := stats } := by
  simp only [TagStore.scanTag, hc, hu, hs]

/-- The error a row is read with: that of the first of creation time, update
time and stats that cannot be read, the first two as `rows.Scan` reports the
error of a column. -/
theorem scanTag_error (drv : Driver) (json : JSON) (row : TagRow) (err : String)
    (h : (∃ e, drv.scanTime row.created_at = .error e ∧
        err = "sql: Scan error on column index 6, name \"created_at\": " ++ e) ∨
      (∃ c e, drv.scanTime row.created_at = .ok c ∧ drv.scanTime row.updated_at = .error e ∧
        err = "sql: Scan error on column index 7, name \"updated_at\": " ++ e) ∨
      (∃ c u, drv.scanTime row.created_at = .ok c ∧ drv.scanTime row.updated_at = .ok u ∧
        json.UnmarshalStats row.usage_stats = .error err)) :
    TagStore.scanTag drv json row = .error err := by
  rcases h with ⟨e, h, rfl⟩ | ⟨c, e, hc, h, rfl⟩ | ⟨c, u, hc, hu, h⟩
  · simp only [TagStore.scanTag, h]
  · simp only [TagStore.scanTag, hc, h]
  · simp only [TagStore.scanTag, hc, hu, h]

/-- C16 (counterexample). No stored tag has the id, and still: `CreateTag` of a
tag whose `LastUsed` is in the year 10000, or in a zone 24 hours east, returns
the error of `json.Marshal`; and `CreateTag` of `stampedTag`, whose `UpdatedAt`
is in a zone without a name, returns nil, after which `GetTag` returns the
error of `rows.Scan` and no tag. -/
theorem CreateTag_fresh_id_is_not_enough :
    TagStore.CreateTag exampleJSON.withTimeCheck {}
        { ID := "t1", Name := "go",
          UsageStats := { LastUsed := { unixNano := 253402300800000000000 } } } =
      ({}, some "json: error calling MarshalJSON for type time.Time: Time.MarshalJSON: year outside of range [0,9999]") ∧
    TagStore.CreateTag exampleJSON.withTimeCheck {}
        { ID := "t1", Name := "go",
          UsageStats := { LastUsed := { unixNano := 0, zoneOffset := 86400 } } } =
      ({}, some "json: error calling MarshalJSON for type time.Time: Time.MarshalJSON: timezone hour outside of range [0,23]") ∧
    (TagStore.CreateTag exampleJSON.withTimeCheck {} stampedTag).2 = none ∧
    TagStore.GetTag Driver.unnamedZones exampleJSON.withTimeCheck
        (TagStore.CreateTag exampleJSON.withTimeCheck {} stampedTag).1 stampedTag.ID =
      .error "sql: Scan error on column index 7, name \"updated_at\": unsupported Scan, storing driver.Value type string into type *time.Time" :=
  ⟨by decide, by decide, by decide, rfl⟩

/-- C16 (as amended). `CreateTag(tag)` returns an error and leaves the store as
it is whenever a tag with the id is stored, and also whenever `json.Marshal`
refuses the usage stats, whose error it returns. When no stored tag has the id
and the stats are marshalled, it returns nil and appends one row with the
tag's id, name, color, description, parent id, order, the two times and the
JSON text of the stats. A following `GetTag(tag.ID)` returns the tag with
these fields, `Count` 0, the times as the driver reads them back and the stats
as `json.Unmarshal` reads them, and returns the error of the first of the three
that cannot be read, a time column's under the index and name of the column. -/
theorem CreateTag_spec (drv : Driver) (json : JSON) (s : TagStore) (tag : Tag) :
    ((∃ r ∈ s.db.tags, r.id = tag.ID) → ∃ err, s.CreateTag json tag = (s, some err)) ∧
    (∀ err, json.MarshalStats tag.UsageStats = .error err →
      s.CreateTag json tag = (s, some err)) ∧
    (∀ text, (∀ r ∈ s.db.tags, r.id ≠ tag.ID) → json.MarshalStats tag.UsageStats = .ok text →
      ∃ s' : TagStore, s.CreateTag json tag = (s', none) ∧
        s'.db.tags = s.db.tags ++
          [{ id := tag.ID, name := tag.Name, color := tag.Color, description := tag.Description,
             parent_id := tag.ParentID, tag_order := tag.Order, created_at := tag.CreatedAt,
             updated_at := tag.UpdatedAt, usage_stats := text }] ∧
        s'.db.tag_groups = s.db.tag_groups ∧
        (∀ c u stats, drv.scanTime tag.CreatedAt = .ok c → drv.scanTime tag.UpdatedAt = .ok u →
          json.UnmarshalStats text = .ok stats →
          s'.GetTag drv json tag.ID =
            .ok { ID := tag.ID, Name := tag.Name, Color := tag.Color,
                  Description := tag.Description, ParentID := tag.ParentID, Order := tag.Order,
                  Count := 0, CreatedAt := c, UpdatedAt := u, UsageStats := stats }) ∧
        (∀ err,
          ((∃ e, drv.scanTime tag.CreatedAt = .error e ∧
              err = "sql: Scan error on column index 6, name \"created_at\": " ++ e) ∨
            (∃ c e, drv.scanTime tag.CreatedAt = .ok c ∧ drv.scanTime tag.UpdatedAt = .error e ∧
              err = "sql: Scan error on column index 7, name \"updated_at\": " ++ e) ∨
            (∃ c u, drv.scanTime tag.CreatedAt = .ok c ∧ drv.scanTime tag.UpdatedAt = .ok u ∧
              json.UnmarshalStats text = .error err)) →
          s'.GetTag drv json tag.ID = .error err)) := by
  refine ⟨CreateTag_of_stored_id json s tag, ?_, ?_⟩
  · intro err hm
    simp only [TagStore.CreateTag, TagStore.tagValues, hm]
  · intro text hfresh hm
    have hv : TagStore.tagValues json tag = .ok
        { id := tag.ID, name := tag.Name, color := tag.Color, description := tag.Description,
          parent_id := tag.ParentID, tag_order := tag.Order, created_at := tag.CreatedAt,
          updated_at := tag.UpdatedAt, usage_stats := text } := by
      simp [TagStore.tagValues, hm]
    have hins := DB.insertTag_ok
      { id := tag.ID, name := tag.Name, color := tag.Color, description := tag.Description,
        parent_id := tag.ParentID, tag_order := tag.Order, created_at := tag.CreatedAt,
        updated_at := tag.UpdatedAt, usage_stats := text } s.db hfresh
    have hnone : s.db.tags.find? (fun r => decide (r.id = tag.ID)) = none := by
      simp only [List.find?_eq_none, decide_eq_true_eq]
      exact hfresh
    have hsel : DB.selectTag
        { s.db with tags := s.db.tags ++
          [{ id := tag.ID, name := tag.Name, color := tag.Color, description := tag.Description,
             parent_id := tag.ParentID, tag_order := tag.Order, created_at := tag.CreatedAt,
             updated_at := tag.UpdatedAt, usage_stats := text }] } tag.ID =
        some { id := tag.ID, name := tag.Name, color := tag.Color,
               description := tag.Description, parent_id := tag.ParentID,
               tag_order := tag.Order, created_at := tag.CreatedAt,
               updated_at := tag.UpdatedAt, usage_stats := text } := by
      simp [DB.selectTag, List.find?_append, hnone]
    refine ⟨{ db := { s.db with tags := s.db.tags ++
        [{ id := tag.ID, name := tag.Name, color := tag.Color, description := tag.Description,
           parent_id := tag.ParentID, tag_order := tag.Order, created_at := tag.CreatedAt,
           updated_at := tag.UpdatedAt, usage_stats := text }] } },
      by simp only [TagStore.CreateTag, hv, hins], rfl, rfl, ?_, ?_⟩
    · intro c u stats hc hu hs
      simp only [TagStore.GetTag, hsel]
      exact scanTag_ok drv json _ c u stats hc hu hs
    · intro err h
      simp only [TagStore.GetTag, hsel]
      exact scanTag_error drv json _ err h

/-- C16 (as amended) on the store holding `old`: creating t1, whose times are in
UTC, and reading it back. -/
theorem CreateTag_spec_witness :
    ∃ s' : TagStore, exampleStore.CreateTag exampleJSON { ID := "t1", Name := "go" } = (s', none) ∧
      s'.db.tags = exampleStore.db.tags ++ [exampleRow "t1" "go" 0] ∧
      s'.db.tag_groups = exampleStore.db.tag_groups ∧
      s'.GetTag Driver.unnamedZones exampleJSON "t1" = .ok { ID := "t1", Name := "go" } := by
  obtain ⟨s', h₁, h₂, h₃, h₄, _⟩ :=
    (CreateTag_spec Driver.unnamedZones exampleJSON exampleStore { ID := "t1", Name := "go" }).2.2
      _ (by decide) rfl
  exact ⟨s', h₁, h₂, h₃, h₄ Time.zero Time.zero {} rfl rfl rfl⟩

/-- The row loop of `GetTagsByParent` on rows that are all read: the tags read,
in the order of the rows, each with the columns of its row. -/
theorem GetTagsByParent_loop_ok (drv : Driver) (json : JSON) (parentID : String) :
    ∀ (rows : List TagRow) (acc : List Tag),
      (∀ r ∈ rows, r.parent_id = parentID) →
      (∀ r ∈ rows, ∃ c u stats, drv.scanTime r.created_at = .ok c ∧
        drv.scanTime r.updated_at = .ok u ∧ json.UnmarshalStats r.usage_stats = .ok stats) →
      ∃ tags, TagStore.GetTagsByParent.loop drv json rows acc = .ok (acc ++ tags) ∧
        List.Forall₂
          (fun r t => t.ID = r.id ∧ t.Name = r.name ∧ t.Color = r.color ∧
            t.Description = r.description ∧ t.ParentID = parentID ∧ t.Order = r.tag_order ∧
            t.Count = 0 ∧ drv.scanTime r.created_at = .ok t.CreatedAt ∧
            drv.scanTime r.updated_at = .ok t.UpdatedAt ∧
            json.UnmarshalStats r.usage_stats = .ok t.UsageStats)
          rows tags := by
  intro rows
  induction rows with
  | nil => intro acc _ _; exact ⟨[], by simp [TagStore.GetTagsByParent.loop], List.Forall₂.nil⟩
  | cons r rest ih =>
    intro acc hp hread
    obtain ⟨c, u, stats, hc, hu, hs⟩ := hread r (List.mem_cons_self _ _)
    obtain ⟨t, ht⟩ : ∃ t : Tag, t =
        { ID := r.id, Name := r.name, Color := r.color, Description := r.description,
          ParentID := r.parent_id, Order := r.tag_order, Count := 0, CreatedAt := c,
          UpdatedAt := u, UsageStats := stats } := ⟨_, rfl⟩
    obtain ⟨tags, hl, hf⟩ := ih (acc ++ [t])
      (fun r' hr' => hp r' (List.mem_cons_of_mem _ hr'))
      (fun r' hr' => hread r' (List.mem_cons_of_mem _ hr'))
    refine ⟨t :: tags, ?_, List.Forall₂.cons ?_ hf⟩
    · unfold TagStore.GetTagsByParent.loop
      rw [scanTag_ok drv json r c u stats hc hu hs, ← ht]
      simp only
      rw [hl]
      simp
    · subst ht
      exact ⟨rfl, rfl, rfl, rfl, hp r (List.mem_cons_self _ _), rfl, rfl, hc, hu, hs⟩

/-- The row loop of `GetTagsByParent` ends with the error of the first row that
is not read. -/
theorem GetTagsByParent_loop_error (drv : Driver) (json : JSON) (r : TagRow)
    (post : List TagRow) (err : String)
    (hr : (∃ e, drv.scanTime r.created_at = .error e ∧
        err = "sql: Scan error on column index 6, name \"created_at\": " ++ e) ∨
      (∃ c e, drv.scanTime r.created_at = .ok c ∧ drv.scanTime r.updated_at = .error e ∧
        err = "sql: Scan error on column index 7, name \"updated_at\": " ++ e) ∨
      (∃ c u, drv.scanTime r.created_at = .ok c ∧ drv.scanTime r.updated_at = .ok u ∧
        json.UnmarshalStats r.usage_stats = .error err)) :
    ∀ (pre : List TagRow) (acc : List Tag),
      (∀ r' ∈ pre, ∃ c u stats, drv.scanTime r'.created_at = .ok c ∧
        drv.scanTime r'.updated_at = .ok u ∧ json.UnmarshalStats r'.usage_stats = .ok stats) →
      TagStore.GetTagsByParent.loop drv json (pre ++ r :: post) acc = .error err := by
  intro pre
  induction pre with
  | nil =>
    intro acc _
    simp only [List.nil_append, TagStore.GetTagsByParent.loop, scanTag_error drv json r err hr]
  | cons r' rest ih =>
    intro acc hread
    obtain ⟨c, u, stats, hc, hu, hs⟩ := hread r' (List.mem_cons_self _ _)
    simp only [List.cons_append, TagStore.GetTagsByParent.loop,
      scanTag_ok drv json r' c u stats hc hu hs]
    exact ih _ (fun r'' hr'' => hread r'' (List.mem_cons_of_mem _ hr''))

/-- C17 (as amended). The rows of `GetTagsByParent(parentID)` are the stored
rows whose `parent_id` is `parentID`, direct children only, in non-decreasing
`tag_order`. When each of them is read (both times by the driver, the stats by
`json.Unmarshal`) the call returns one tag per row in that order, with the
row's id, name, color, description, parent id and order, `Count` 0, and the
times and stats as read, so in non-decreasing `Order`. When one of them is not
read, the call returns no tags but the error of the first such row. -/
theorem GetTagsByParent_spec (drv : Driver) (json : JSON) (s : TagStore) (parentID : String) :
    ∃ rows : List TagRow,
      rows.Perm (s.db.tags.filter (fun r => r.parent_id = parentID)) ∧
      rows.Pairwise (fun a b => a.tag_order ≤ b.tag_order) ∧
      ((∀ r ∈ rows, ∃ c u stats, drv.scanTime r.created_at = .ok c ∧
          drv.scanTime r.updated_at = .ok u ∧ json.UnmarshalStats r.usage_stats = .ok stats) →
        ∃ tags, s.GetTagsByParent drv json parentID = .ok tags ∧
          List.Forall₂
            (fun r t => t.ID = r.id ∧ t.Name = r.name ∧ t.Color = r.color ∧
              t.Description = r.description ∧ t.ParentID = parentID ∧ t.Order = r.tag_order ∧
              t.Count = 0 ∧ drv.scanTime r.created_at = .ok t.CreatedAt ∧
              drv.scanTime r.updated_at = .ok t.UpdatedAt ∧
              json.UnmarshalStats r.usage_stats = .ok t.UsageStats)
            rows tags ∧
          tags.Pairwise (fun a b => a.Order ≤ b.Order)) ∧
      (∀ pre r post err, rows = pre ++ r :: post →
        (∀ r' ∈ pre, ∃ c u stats, drv.scanTime r'.created_at = .ok c ∧
          drv.scanTime r'.updated_at = .ok u ∧ json.UnmarshalStats r'.usage_stats = .ok stats) →
        ((∃ e, drv.scanTime r.created_at = .error e ∧
            err = "sql: Scan error on column index 6, name \"created_at\": " ++ e) ∨
          (∃ c e, drv.scanTime r.created_at = .ok c ∧ drv.scanTime r.updated_at = .error e ∧
            err = "sql: Scan error on column index 7, name \"updated_at\": " ++ e) ∨
          (∃ c u, drv.scanTime r.created_at = .ok c ∧ drv.scanTime r.updated_at = .ok u ∧
            json.UnmarshalStats r.usage_stats = .error err)) →
        s.GetTagsByParent drv json parentID = .error err) := by
  have hsorted : ((s.db.tags.filter (fun r => decide (r.parent_id = parentID))).insertionSort
      TagRow.le).Pairwise (fun a b => a.tag_order ≤ b.tag_order) :=
    List.sorted_insertionSort TagRow.le _
  have hparent : ∀ r ∈ (s.db.tags.filter (fun r => decide (r.parent_id = parentID))).insertionSort
      TagRow.le, r.parent_id = parentID := by
    intro r hr
    rw [List.mem_insertionSort, List.mem_filter] at hr
    simpa using hr.2
  refine ⟨(s.db.tags.filter (fun r => decide (r.parent_id = parentID))).insertionSort TagRow.le,
    List.perm_insertionSort TagRow.le _, hsorted, ?_, ?_⟩
  · intro hread
    obtain ⟨tags, hl, hf⟩ := GetTagsByParent_loop_ok drv json parentID _ [] hparent hread
    refine ⟨tags, by simpa [TagStore.GetTagsByParent, DB.selectTagsByParent] using hl, hf, ?_⟩
    have key : ∀ (rows : List TagRow) (tags : List Tag),
        List.Forall₂ (fun (r : TagRow) (t : Tag) => t.Order = r.tag_order) rows tags →
        rows.Pairwise (fun a b => a.tag_order ≤ b.tag_order) →
        tags.Pairwise (fun a b => a.Order ≤ b.Order) := by
      intro rows tags h
      induction h with
      | nil => intro _; exact List.Pairwise.nil
      | @cons r t rows tags hrt hrest ih =>
        intro hp
        rw [List.pairwise_cons] at hp ⊢
        refine ⟨?_, ih hp.2⟩
        intro t' ht'
        obtain ⟨r', hr', ht''⟩ : ∃ r' ∈ rows, t'.Order = r'.tag_order := by
          clear ih hp
          induction hrest with
          | nil => cases ht'
          | @cons r₀ t₀ rows₀ tags₀ h₀ _ ih₀ =>
            rcases List.mem_cons.1 ht' with rfl | hmem
            · exact ⟨r₀, List.mem_cons_self _ _, h₀⟩
            · obtain ⟨r', hr', h'⟩ := ih₀ hmem
              exact ⟨r', List.mem_cons_of_mem _ hr', h'⟩
        rw [hrt, ht'']
        exact hp.1 r' hr'
    exact key _ _ (List.Forall₂.imp (fun _ _ h => h.2.2.2.2.2.1) hf) hsorted
  · intro pre r post err hrows hread hfail
    unfold TagStore.GetTagsByParent DB.selectTagsByParent
    rw [hrows]
    exact GetTagsByParent_loop_error drv json r post err hfail pre [] hread

/-- C17 (as amended) on `familyStore`, whose times are in UTC: the children of
`p` are `c2` and `c1`, in this order; the grandchild `gc` is not among them. -/
theorem GetTagsByParent_spec_witness :
    familyStore.GetTagsByParent Driver.unnamedZones exampleJSON "p" =
        .ok [{ ID := "c2", Name := "second", ParentID := "p", Order := 1 },
             { ID := "c1", Name := "first", ParentID := "p", Order := 2 }] ∧
      ∃ rows : List TagRow,
        rows.Perm (familyStore.db.tags.filter (fun r => r.parent_id = "p")) ∧
        rows.Pairwise (fun a b => a.tag_order ≤ b.tag_order) :=
  ⟨rfl,
    (GetTagsByParent_spec Driver.unnamedZones exampleJSON familyStore "p").imp
      (fun _ h => ⟨h.1, h.2.1⟩)⟩

/-- C17 as stated fails on a store with a child row that is not read: in
`zonedChildStore`, which `CreateTag` builds, the child `c1` of `p` has its
`UpdatedAt` in a zone without a name, and in `brokenChildStore` its
`usage_stats` is not JSON; `GetTagsByParent("p")` returns an error and no tag
in both, though one stored tag has the parent `p`. -/
theorem GetTagsByParent_fails_on_unread_child :
    (TagStore.createTags exampleJSON {}
        [{ ID := "p", Name := "parent" },
         { ID := "c1", Name := "first", ParentID := "p", Order := 1,
           UpdatedAt := { unixNano := 1700003600000000000, zoneOffset := 19800 } }]) =
      (zonedChildStore, none) ∧
    (zonedChildStore.db.tags.filter (fun r => r.parent_id = "p")).length = 1 ∧
    zonedChildStore.GetTagsByParent Driver.unnamedZones exampleJSON "p" =
      .error "sql: Scan error on column index 7, name \"updated_at\": unsupported Scan, storing driver.Value type string into type *time.Time" ∧
    (brokenChildStore.db.tags.filter (fun r => r.parent_id = "p")).length = 1 ∧
    (∃ err, brokenChildStore.GetTagsByParent Driver.unnamedZones exampleJSON "p" =
      .error err) :=
  ⟨by decide, by decide, rfl, by decide, _, rfl⟩

/-! ## The export file name -/

/-- Truncation to the second keeps the whole seconds. -/
theorem localSeconds_truncSecond (t : Time) : t.truncSecond.localSeconds = t.localSeconds := by
  simp only [Time.localSeconds, Time.truncSecond]
  omega

/-- The stamp has no field below the second. -/
theorem FormatStamp_truncSecond (t : Time) : Time.FormatStamp t.truncSecond = Time.FormatStamp t := by
  simp only [Time.FormatStamp, localSeconds_truncSecond]

/-- A successful `ExportTags` returns the path built from the second clock reading. -/
theorem ExportTags_path_of_success (w : ExportWorld) (s r : AppState) (tagIDs : List String)
    (path : String) (h : s.ExportTags w tagIDs = Outcome.returned r (path, none)) :
    path = "tag_export_" ++ w.Format w.nowPath ++ ".json" := by
  unfold AppState.ExportTags AppState.withRLock at h
  cases hmu : s.mu.RLock with
  | none => simp [hmu] at h
  | some m =>
    simp only [hmu] at h
    cases hj : w.MarshalIndent (AppState.ExportTags.envelope { s with mu := m } tagIDs w.now) with
    | error e =>
      simp only [hj, deferRUnlock] at h
      split at h <;> simp at h
    | ok data =>
      simp only [hj] at h
      cases hw : w.WriteFile ("tag_export_" ++ w.Format w.nowPath ++ ".json") data with
      | some e =>
        simp only [hw, deferRUnlock] at h
        split at h <;> simp at h
      | none =>
        simp only [hw, deferRUnlock] at h
        split at h
        · simp only [Outcome.returned.injEq, Prod.mk.injEq, and_true] at h
          exact h.2.symm
        · simp at h

/-- Month and day computed by `civilFromDays` are a month and a day. -/
theorem civilFromDays_bounds (days : Int) :
    1 ≤ (civilFromDays days).2.1 ∧ (civilFromDays days).2.1 ≤ 12 ∧
      1 ≤ (civilFromDays days).2.2 ∧ (civilFromDays days).2.2 ≤ 31 := by
  simp only [civilFromDays]
  split <;> omega

/-- C18. With `Time.Format` rendering the layout `2006-01-02_15-04-05`, the
path a successful `ExportTags` returns is `tag_export_`, the stamp of the clock
reading taken for the file name, and `.json`. The stamp is year, month, day,
hour, minute, second of that reading, zero-padded, the hour counted to 23; it
is the stamp of the reading truncated to whole seconds, so two successful
exports whose readings agree after truncation return the same path. -/
theorem ExportTags_path_spec (w₁ w₂ : ExportWorld) (s₁ s₂ r₁ r₂ : AppState)
    (ids₁ ids₂ : List String) (p₁ p₂ : String)
    (hf₁ : w₁.Format = Time.FormatStamp) (hf₂ : w₂.Format = Time.FormatStamp)
    (h₁ : s₁.ExportTags w₁ ids₁ = Outcome.returned r₁ (p₁, none))
    (h₂ : s₂.ExportTags w₂ ids₂ = Outcome.returned r₂ (p₂, none)) :
    p₁ = "tag_export_" ++ Time.FormatStamp w₁.nowPath ++ ".json" ∧
      (∃ year month day hour minute second : Int,
        1 ≤ month ∧ month ≤ 12 ∧ 1 ≤ day ∧ day ≤ 31 ∧ 0 ≤ hour ∧ hour < 24 ∧
        0 ≤ minute ∧ minute < 60 ∧ 0 ≤ second ∧ second < 60 ∧
        w₁.nowPath.localSeconds =
          w₁.nowPath.localSeconds / 86400 * 86400 + hour * 3600 + minute * 60 + second ∧
        (year, month, day) = civilFromDays (w₁.nowPath.localSeconds / 86400) ∧
        Time.FormatStamp w₁.nowPath =
          appendInt year 4 ++ "-" ++ appendInt month 2 ++ "-" ++ appendInt day 2 ++ "_" ++
            appendInt hour 2 ++ "-" ++ appendInt minute 2 ++ "-" ++ appendInt second 2) ∧
      p₁ = "tag_export_" ++ Time.FormatStamp w₁.nowPath.truncSecond ++ ".json" ∧
      (w₁.nowPath.truncSecond = w₂.nowPath.truncSecond → p₁ = p₂) := by
  have e₁ := ExportTags_path_of_success w₁ s₁ r₁ ids₁ p₁ h₁
  have e₂ := ExportTags_path_of_success w₂ s₂ r₂ ids₂ p₂ h₂
  rw [hf₁] at e₁
  rw [hf₂] at e₂
  refine ⟨e₁, ?_, by rw [FormatStamp_truncSecond]; exact e₁, ?_⟩
  · have hb := civilFromDays_bounds (w₁.nowPath.localSeconds / 86400)
    refine ⟨(civilFromDays (w₁.nowPath.localSeconds / 86400)).1,
      (civilFromDays (w₁.nowPath.localSeconds / 86400)).2.1,
      (civilFromDays (w₁.nowPath.localSeconds / 86400)).2.2,
      w₁.nowPath.localSeconds % 86400 / 3600,
      w₁.nowPath.localSeconds % 86400 % 3600 / 60,
      w₁.nowPath.localSeconds % 86400 % 60,
      hb.1, hb.2.1, hb.2.2.1, hb.2.2.2, by omega, by omega, by omega, by omega, by omega,
      by omega, by omega, rfl, rfl⟩
  · intro ht
    rw [e₁, e₂, ← FormatStamp_truncSecond w₁.nowPath, ← FormatStamp_truncSecond w₂.nowPath, ht]

/-- C18 on two exports taken 0.9 s apart within one second: both return
`tag_export_2023-11-14_22-13-20.json`. -/
theorem ExportTags_path_spec_witness :
    NewAppState.ExportTags (exampleWorld { unixNano := 1700000000000000000 }) [] =
        Outcome.returned NewAppState ("tag_export_2023-11-14_22-13-20.json", none) ∧
      NewAppState.ExportTags (exampleWorld { unixNano := 1700000000900000000 }) [] =
        Outcome.returned NewAppState ("tag_export_2023-11-14_22-13-20.json", none) ∧
      (exampleWorld { unixNano := 1700000000000000000 }).nowPath.truncSecond =
        (exampleWorld { unixNano := 1700000000900000000 }).nowPath.truncSecond ∧
      "tag_export_2023-11-14_22-13-20.json" =
        "tag_export_" ++
          Time.FormatStamp (exampleWorld { unixNano := 1700000000000000000 }).nowPath ++ ".json" :=
  ⟨by decide, by decide, by decide,
    (ExportTags_path_spec (exampleWorld { unixNano := 1700000000000000000 })
      (exampleWorld { unixNano := 1700000000900000000 }) NewAppState NewAppState
      NewAppState NewAppState [] [] "tag_export_2023-11-14_22-13-20.json"
      "tag_export_2023-11-14_22-13-20.json" rfl rfl (by decide) (by decide)).1⟩

/-! ## Usage counters -/

/-- A result inside the range of `int` is not changed by the wrap. -/
theorem wrapInt_of_inIntRange (bits : Nat) (hbits : 0 < bits) (x : Int)
    (h : inIntRange bits x) : wrapInt bits x = x := by
  obtain ⟨k, rfl⟩ : ∃ k, bits = k + 1 := ⟨bits - 1, by omega⟩
  simp only [inIntRange, wrapInt, Nat.add_sub_cancel] at h ⊢
  have hpos : (0 : Int) < 2 ^ k := by positivity
  have hpow : (2 : Int) ^ (k + 1) = 2 * 2 ^ k := by ring
  rw [hpow, Int.emod_eq_of_lt (by omega) (by omega)]
  omega

/-- C21 (as amended). Where `int` is `bits` wide and the three counters of the
tag are values of `int`: `UpdateStats(_, "remove")` takes exactly 1 from
`BookmarkCount` unless it is the least `int` (0 becomes -1, there is no guard
at zero), and keeps `UsageCount` and `HistoricalCount`; `UpdateStats(_, "add")`
adds exactly 1 to each counter that is not the largest `int`; every other
operation string keeps all three. -/
theorem UpdateStats_counters (bits : Nat) (t : Tag) (now : Time) (bookmarkID : String)
    (hbits : 0 < bits)
    (hU : inIntRange bits t.UsageStats.UsageCount)
    (hB : inIntRange bits t.UsageStats.BookmarkCount)
    (hH : inIntRange bits t.UsageStats.HistoricalCount) :
    ((-2 ^ (bits - 1) < t.UsageStats.BookmarkCount →
        (t.UpdateStats bits now bookmarkID "remove").UsageStats.BookmarkCount =
          t.UsageStats.BookmarkCount - 1) ∧
      (t.UpdateStats bits now bookmarkID "remove").UsageStats.UsageCount =
        t.UsageStats.UsageCount ∧
      (t.UpdateStats bits now bookmarkID "remove").UsageStats.HistoricalCount =
        t.UsageStats.HistoricalCount) ∧
    (t.UsageStats.BookmarkCount = 0 →
      (t.UpdateStats bits now bookmarkID "remove").UsageStats.BookmarkCount = -1) ∧
    ((t.UsageStats.UsageCount + 1 < 2 ^ (bits - 1) →
        (t.UpdateStats bits now bookmarkID "add").UsageStats.UsageCount =
          t.UsageStats.UsageCount + 1) ∧
      (t.UsageStats.BookmarkCount + 1 < 2 ^ (bits - 1) →
        (t.UpdateStats bits now bookmarkID "add").UsageStats.BookmarkCount =
          t.UsageStats.BookmarkCount + 1) ∧
      (t.UsageStats.HistoricalCount + 1 < 2 ^ (bits - 1) →
        (t.UpdateStats bits now bookmarkID "add").UsageStats.HistoricalCount =
          t.UsageStats.HistoricalCount + 1)) ∧
    (∀ operation : String, operation ≠ "add" → operation ≠ "remove" →
      (t.UpdateStats bits now bookmarkID operation).UsageStats.UsageCount =
        t.UsageStats.UsageCount ∧
      (t.UpdateStats bits now bookmarkID operation).UsageStats.BookmarkCount =
        t.UsageStats.BookmarkCount ∧
      (t.UpdateStats bits now bookmarkID operation).UsageStats.HistoricalCount =
        t.UsageStats.HistoricalCount) := by
  have hpos : (0 : Int) < 2 ^ (bits - 1) := by positivity
  obtain ⟨hU₀, hU₁⟩ := hU
  obtain ⟨hB₀, hB₁⟩ := hB
  obtain ⟨hH₀, hH₁⟩ := hH
  refine ⟨⟨?_, ?_, ?_⟩, ?_, ⟨?_, ?_, ?_⟩, ?_⟩
  · intro h
    have := wrapInt_of_inIntRange bits hbits (t.UsageStats.BookmarkCount - 1)
      ⟨by omega, by omega⟩
    simp [Tag.UpdateStats, this]
  · simp [Tag.UpdateStats]
  · simp [Tag.UpdateStats]
  · intro h
    have := wrapInt_of_inIntRange bits hbits (-1) ⟨by omega, by omega⟩
    simp [Tag.UpdateStats, this, h]
  · intro h
    have := wrapInt_of_inIntRange bits hbits (t.UsageStats.UsageCount + 1) ⟨by omega, h⟩
    simp [Tag.UpdateStats, this]
  · intro h
    have := wrapInt_of_inIntRange bits hbits (t.UsageStats.BookmarkCount + 1) ⟨by omega, h⟩
    simp [Tag.UpdateStats, this]
  · intro h
    have := wrapInt_of_inIntRange bits hbits (t.UsageStats.HistoricalCount + 1) ⟨by omega, h⟩
    simp [Tag.UpdateStats, this]
  · intro operation h₁ h₂
    simp [Tag.UpdateStats, h₁, h₂]

/-- C21 on a new tag with zero usage stats, where `int` is 64 bits wide:
"remove" makes `BookmarkCount` -1. -/
theorem UpdateStats_counters_witness :
    (Tag.UpdateStats 64 { ID := "t1" } Time.zero "b1" "remove").UsageStats.BookmarkCount = -1 :=
  (UpdateStats_counters 64 { ID := "t1" } Time.zero "b1" (by decide) (by decide) (by decide)
    (by decide)).2.1 rfl

/-- C21 as stated fails at the ends of the range of `int`: where `int` is 64
bits wide, "add" on a tag whose counters are 9223372036854775807 makes each of
them -9223372036854775808. -/
theorem UpdateStats_add_wraps_around :
    inIntRange 64 saturatedTag.UsageStats.UsageCount ∧
      (saturatedTag.UpdateStats 64 Time.zero "b1" "add").UsageStats.UsageCount =
        -9223372036854775808 ∧
      (saturatedTag.UpdateStats 64 Time.zero "b1" "add").UsageStats.BookmarkCount =
        -9223372036854775808 ∧
      (saturatedTag.UpdateStats 64 Time.zero "b1" "add").UsageStats.HistoricalCount =
        -9223372036854775808 :=
  ⟨by decide, by decide, by decide, by decide⟩

/-- C28 (as amended). Where `int` is `bits` wide and the three counters of the
tag are values of `int`, with `HistoricalCount` not the largest and
`BookmarkCount` not the least of them: if `UsageCount = HistoricalCount` and
`BookmarkCount ≤ HistoricalCount` hold before `UpdateStats`, they hold after
it, for every operation string. -/
theorem UpdateStats_preserves_relations (bits : Nat) (t : Tag) (now : Time)
    (bookmarkID operation : String) (hbits : 0 < bits)
    (hB : inIntRange bits t.UsageStats.BookmarkCount)
    (hH : inIntRange bits t.UsageStats.HistoricalCount)
    (hmax : t.UsageStats.HistoricalCount + 1 < 2 ^ (bits - 1))
    (hmin : -2 ^ (bits - 1) < t.UsageStats.BookmarkCount)
    (h₁ : t.UsageStats.UsageCount = t.UsageStats.HistoricalCount)
    (h₂ : t.UsageStats.BookmarkCount ≤ t.UsageStats.HistoricalCount) :
    (t.UpdateStats bits now bookmarkID operation).UsageStats.UsageCount =
        (t.UpdateStats bits now bookmarkID operation).UsageStats.HistoricalCount ∧
      (t.UpdateStats bits now bookmarkID operation).UsageStats.BookmarkCount ≤
        (t.UpdateStats bits now bookmarkID operation).UsageStats.HistoricalCount := by
  obtain ⟨hB₀, hB₁⟩ := hB
  obtain ⟨hH₀, hH₁⟩ := hH
  have wH := wrapInt_of_inIntRange bits hbits (t.UsageStats.HistoricalCount + 1)
    ⟨by omega, hmax⟩
  have wB := wrapInt_of_inIntRange bits hbits (t.UsageStats.BookmarkCount + 1)
    ⟨by omega, by omega⟩
  have wB' := wrapInt_of_inIntRange bits hbits (t.UsageStats.BookmarkCount - 1)
    ⟨by omega, by omega⟩
  unfold Tag.UpdateStats
  split
  · simp only []
    rw [h₁, wH, wB]
    omega
  · split
    · simp only []
      rw [wB']
      omega
    · simp only []
      omega

/-- C28 on a new tag with zero usage stats and the operation "remove", where
`int` is 64 bits wide. -/
theorem UpdateStats_preserves_relations_witness :
    (Tag.UpdateStats 64 { ID := "t1" } Time.zero "b1" "remove").UsageStats.UsageCount =
        (Tag.UpdateStats 64 { ID := "t1" } Time.zero "b1" "remove").UsageStats.HistoricalCount ∧
      (Tag.UpdateStats 64 { ID := "t1" } Time.zero "b1" "remove").UsageStats.BookmarkCount ≤
        (Tag.UpdateStats 64 { ID := "t1" } Time.zero "b1" "remove").UsageStats.HistoricalCount :=
  UpdateStats_preserves_relations 64 { ID := "t1" } Time.zero "b1" "remove" (by decide)
    (by decide) (by decide) (by decide) (by decide) rfl (by decide)

/-- C28 as stated fails when `HistoricalCount` is the largest `int`: where `int`
is 64 bits wide, on a tag with `UsageCount = HistoricalCount =
9223372036854775807` and `BookmarkCount = 0` both relations hold, and after
"add" `BookmarkCount` is 1 and `HistoricalCount` is -9223372036854775808. -/
theorem UpdateStats_breaks_relation_at_largest_int :
    wornTag.UsageStats.UsageCount = wornTag.UsageStats.HistoricalCount ∧
      wornTag.UsageStats.BookmarkCount ≤ wornTag.UsageStats.HistoricalCount ∧
      (wornTag.UpdateStats 64 Time.zero "b1" "add").UsageStats.BookmarkCount = 1 ∧
      (wornTag.UpdateStats 64 Time.zero "b1" "add").UsageStats.HistoricalCount =
        -9223372036854775808 ∧
      ¬ (wornTag.UpdateStats 64 Time.zero "b1" "add").UsageStats.BookmarkCount ≤
        (wornTag.UpdateStats 64 Time.zero "b1" "add").UsageStats.HistoricalCount :=
  ⟨by decide, by decide, by decide, by decide, by decide⟩

/-! ## Panics of the delete operations -/

/-- C23 (failing inputs). On a state holding the single tag t1, `DeleteTags`
panics on an id list that is longer than the tag sequence: with ids that match
no stored tag, with a repeated id, and with the stored id among others. -/
theorem DeleteTags_panics_on_negative_capacity :
    AppState.DeleteTags { tags := [{ ID := "t1", Name := "go" }] } ["x", "y"] =
        Outcome.panicked { tags := [{ ID := "t1", Name := "go" }] }
          "runtime error: makeslice: cap out of range" ∧
      AppState.DeleteTags { tags := [{ ID := "t1", Name := "go" }] } ["t1", "t1"] =
        Outcome.panicked { tags := [{ ID := "t1", Name := "go" }] }
          "runtime error: makeslice: cap out of range" ∧
      AppState.DeleteTags { tags := [{ ID := "t1", Name := "go" }] } ["t1", "t2"] =
        Outcome.panicked { tags := [{ ID := "t1", Name := "go" }] }
          "runtime error: makeslice: cap out of range" := by
  refine ⟨by decide, by decide, by decide⟩

/-- C24 (failing inputs). On the state of `NewAppState()`, and on the state a
`Logout()` leaves, `DeleteTag` and `DeleteBookmark` compute the capacity -1 and
panic. -/
theorem DeleteTag_DeleteBookmark_panic_on_empty :
    NewAppState.DeleteBookmark { ID := "b1" } =
        Outcome.panicked NewAppState "runtime error: makeslice: cap out of range" ∧
      NewAppState.DeleteTag { ID := "t2" } =
        Outcome.panicked NewAppState "runtime error: makeslice: cap out of range" ∧
      AppState.Logout { tags := [{ ID := "t1" }], bookmarks := [{ ID := "b1" }] } =
        Outcome.returned NewAppState () ∧
      (AppState.Logout { tags := [{ ID := "t1" }], bookmarks := [{ ID := "b1" }] }).state.DeleteTag
          { ID := "t1" } =
        Outcome.panicked NewAppState "runtime error: makeslice: cap out of range" ∧
      (AppState.Logout
          { tags := [{ ID := "t1" }], bookmarks := [{ ID := "b1" }] }).state.DeleteBookmark
          { ID := "b1" } =
        Outcome.panicked NewAppState "runtime error: makeslice: cap out of range" := by
  refine ⟨by decide, by decide, by decide, by decide, by decide⟩

/-- `DeleteBookmark` on an idle state with at least one bookmark returns and
keeps, in order, the bookmarks with another id. -/
theorem DeleteBookmark_of_nonempty (s : AppState) (bookmark : Bookmark)
    (hmu : s.mu = RWMutex.unlocked) (hne : s.bookmarks ≠ []) :
    s.DeleteBookmark bookmark = Outcome.returned
      { s with bookmarks := s.bookmarks.filter (fun b => b.ID != bookmark.ID) } () := by
  have hlen : 0 < s.bookmarks.length := List.length_pos.2 hne
  have hcap : ¬ ((s.bookmarks.length : Int) - 1 < 0) := by omega
  simp only [AppState.DeleteBookmark, AppState.withLock, hmu, RWMutex.Lock, hcap, if_false,
    deferUnlock, RWMutex.Unlock, foldl_append_if, List.nil_append]

/-! ## Unique tag ids -/

/-- The upsert of `SaveTag` keeps the ids pairwise distinct. -/
theorem SaveTag_ids_nodup (s : AppState) (t : Tag) (hmu : s.mu = RWMutex.unlocked)
    (hnd : (s.tags.map (fun x => x.ID)).Nodup) :
    (s.SaveTag t).state.mu = RWMutex.unlocked ∧
      ((s.SaveTag t).state.tags.map (fun x => x.ID)).Nodup := by
  rw [SaveTag_eq s t hmu]
  refine ⟨hmu, ?_⟩
  simp only [Outcome.state]
  rcases SaveTag.scan_spec t [] s.tags (by simp) with ⟨mid, x, post, hr, _, hx, hs⟩ | ⟨hno, hs⟩
  · simp only [List.nil_append, List.length_nil] at hs
    rw [hs]
    simp only [Option.getD_some]
    rw [hr] at hnd
    simpa [hx] using hnd
  · simp only [List.nil_append, List.length_nil] at hs hno
    rw [hs]
    simp only [Option.getD_none, List.map_append, List.map_cons, List.map_nil]
    exact List.Nodup.append hnd (List.nodup_singleton _) (by simpa using fun y hy => hno y hy)

/-- Whatever way `DeleteTag` ends, the tags it leaves are the old tags or a
filtering of them, and an idle state stays idle. -/
theorem DeleteTag_state (s : AppState) (tag : Tag) (hmu : s.mu = RWMutex.unlocked) :
    (s.DeleteTag tag).state.mu = RWMutex.unlocked ∧
      ((s.DeleteTag tag).state.tags = s.tags ∨
        (s.DeleteTag tag).state.tags = s.tags.filter (fun t => t.ID != tag.ID)) := by
  by_cases hne : s.tags = []
  · have hcap : (s.tags.length : Int) - 1 < 0 := by simp [hne]
    have : s.DeleteTag tag = Outcome.panicked s "runtime error: makeslice: cap out of range" := by
      simp only [AppState.DeleteTag, AppState.withLock, hmu, RWMutex.Lock, hcap, if_true,
        deferUnlock, RWMutex.Unlock]
      cases s; simp_all
    rw [this]
    exact ⟨hmu, Or.inl rfl⟩
  · rw [DeleteTag_of_nonempty s tag hmu hne]
    exact ⟨hmu, Or.inr rfl⟩

/-- Whatever way `DeleteTags` ends on an idle state, the tags it leaves are the
old tags or a filtering of them, and the state stays idle. -/
theorem DeleteTags_state (s : AppState) (tagIDs : List String) (hmu : s.mu = RWMutex.unlocked) :
    (s.DeleteTags tagIDs).state.mu = RWMutex.unlocked ∧
      ((s.DeleteTags tagIDs).state.tags = s.tags ∨
        (s.DeleteTags tagIDs).state.tags = s.tags.filter (fun t => decide (t.ID ∉ tagIDs))) := by
  by_cases hlen : tagIDs.length ≤ s.tags.length
  · rw [DeleteTags_of_length_le s tagIDs hmu hlen]
    exact ⟨hmu, Or.inr rfl⟩
  · rw [DeleteTags_of_length_gt s tagIDs hmu (by omega)]
    exact ⟨hmu, Or.inl rfl⟩

/-- Each of the four operations, called on an idle state with pairwise distinct
tag ids, leaves an idle state with pairwise distinct tag ids. -/
theorem TagOp_apply_ids_nodup (s : AppState) (op : TagOp) (hmu : s.mu = RWMutex.unlocked)
    (hnd : (s.tags.map (fun x => x.ID)).Nodup) :
    (op.apply s).mu = RWMutex.unlocked ∧ ((op.apply s).tags.map (fun x => x.ID)).Nodup := by
  cases op with
  | saveTag t => exact SaveTag_ids_nodup s t hmu hnd
  | deleteTag t =>
    obtain ⟨h₁, h₂⟩ := DeleteTag_state s t hmu
    refine ⟨h₁, ?_⟩
    simp only [TagOp.apply]
    rcases h₂ with h | h <;> rw [h]
    · exact hnd
    · exact (List.filter_sublist _).map _ |>.nodup hnd
  | deleteTags ids =>
    obtain ⟨h₁, h₂⟩ := DeleteTags_state s ids hmu
    refine ⟨h₁, ?_⟩
    simp only [TagOp.apply]
    rcases h₂ with h | h <;> rw [h]
    · exact hnd
    · exact (List.filter_sublist _).map _ |>.nodup hnd
  | logout =>
    cases s with
    | mk mu b u sq cp tg gr =>
      cases hmu
      simp [TagOp.apply, AppState.Logout, AppState.withLock, RWMutex.Lock, deferUnlock,
        RWMutex.Unlock, Outcome.state]

/-- C25. In every state reached from `NewAppState()` by a sequence of
`SaveTag`, `DeleteTag`, `DeleteTags` and `Logout` calls, however each call
ends, the lock is free and no two tags of the tag sequence have the same id. -/
theorem reachable_tag_ids_nodup (ops : List TagOp) :
    (TagOp.run NewAppState ops).mu = RWMutex.unlocked ∧
      ((TagOp.run NewAppState ops).tags.map (fun x => x.ID)).Nodup := by
  have gen : ∀ (ops : List TagOp) (s : AppState), s.mu = RWMutex.unlocked →
      (s.tags.map (fun x => x.ID)).Nodup →
      (TagOp.run s ops).mu = RWMutex.unlocked ∧
        ((TagOp.run s ops).tags.map (fun x => x.ID)).Nodup := by
    intro ops
    induction ops with
    | nil => intro s hmu hnd; exact ⟨hmu, hnd⟩
    | cons op rest ih =>
      intro s hmu hnd
      obtain ⟨h₁, h₂⟩ := TagOp_apply_ids_nodup s op hmu hnd
      exact ih (op.apply s) h₁ h₂
  exact gen ops NewAppState rfl (by simp [NewAppState])

/-! ## Deleting a group: the result -/

/-- `DeleteTagGroup` on an idle state, in terms of its loop. -/
theorem DeleteTagGroup_eq (s : AppState) (group : TagGroup) (hmu : s.mu = RWMutex.unlocked) :
    s.DeleteTagGroup group =
      match AppState.DeleteTagGroup.scan group s.tagGroups s.tagGroups 0 with
      | some groups' => Outcome.returned { s with tagGroups := groups' } none
      | none => Outcome.returned s (some "tag group not found") := by
  cases s with
  | mk mu b u sq cp tg gr =>
    cases hmu
    cases h : AppState.DeleteTagGroup.scan group gr gr 0 <;>
      simp [AppState.DeleteTagGroup, AppState.withLock, RWMutex.Lock, h, deferUnlock,
        RWMutex.Unlock]

/-- C29. On an idle state `DeleteTagGroup(group)` returns; it returns the error
"tag group not found" exactly when no stored group has the id, and then the
state is unchanged; otherwise it returns nil, changes only the group sequence,
and the number of groups goes down by exactly one. -/
theorem DeleteTagGroup_result (s : AppState) (group : TagGroup)
    (hmu : s.mu = RWMutex.unlocked) :
    ∃ (s' : AppState) (err : Error), s.DeleteTagGroup group = Outcome.returned s' err ∧
      (err = some "tag group not found" ↔ ∀ y ∈ s.tagGroups, y.ID ≠ group.ID) ∧
      (err = some "tag group not found" → s' = s) ∧
      (err ≠ some "tag group not found" →
        err = none ∧ s'.tagGroups.length + 1 = s.tagGroups.length ∧
          s' = { s with tagGroups := s'.tagGroups }) := by
  have hcall := DeleteTagGroup_eq s group hmu
  rcases DeleteTagGroup_scan_spec group [] s.tagGroups (by simp) with
    ⟨mid, x, post, hr, hno, hx, hs⟩ | ⟨hno, hs⟩
  · simp only [List.nil_append, List.length_nil] at hs
    rw [hs] at hcall
    refine ⟨{ s with tagGroups := mid ++ post }, none, hcall, ?_, ?_, ?_⟩
    · constructor
      · intro h; cases h
      · intro h
        exact absurd hx (h x (by simp [hr]))
    · intro h; cases h
    · intro _
      refine ⟨rfl, ?_, rfl⟩
      simp only [hr, List.length_append, List.length_cons]
      omega
  · simp only [List.nil_append, List.length_nil] at hs hno
    rw [hs] at hcall
    refine ⟨s, some "tag group not found", hcall, ⟨fun _ => hno, fun _ => rfl⟩, fun _ => rfl, ?_⟩
    intro h; exact absurd rfl h

/-- C29 on a state with the groups g1 and g2: deleting g1. -/
theorem DeleteTagGroup_result_witness :
    ({ tagGroups := [{ ID := "g1" }, { ID := "g2" }] } : AppState).mu = RWMutex.unlocked ∧
      ∃ (s' : AppState) (err : Error),
        AppState.DeleteTagGroup { tagGroups := [{ ID := "g1" }, { ID := "g2" }] } { ID := "g1" } =
          Outcome.returned s' err ∧
        (err = some "tag group not found" ↔
          ∀ y ∈ ({ tagGroups := [{ ID := "g1" }, { ID := "g2" }] } : AppState).tagGroups,
            y.ID ≠ ({ ID := "g1" } : TagGroup).ID) ∧
        (err = some "tag group not found" →
          s' = { tagGroups := [{ ID := "g1" }, { ID := "g2" }] }) ∧
        (err ≠ some "tag group not found" →
          err = none ∧
            s'.tagGroups.length + 1 =
              ({ tagGroups := [{ ID := "g1" }, { ID := "g2" }] } : AppState).tagGroups.length ∧
            s' = { ({ tagGroups := [{ ID := "g1" }, { ID := "g2" }] } : AppState) with
                   tagGroups := s'.tagGroups }) :=
  ⟨rfl, DeleteTagGroup_result { tagGroups := [{ ID := "g1" }, { ID := "g2" }] } { ID := "g1" } rfl⟩

/-! ## Scraping a meta tag -/

/-- Where `strings.Index` finds the text, the text stands. -/
theorem strings.IndexChars_some (sub : List Char) :
    ∀ (s : List Char) (i : Nat), strings.IndexChars s sub = some i →
      i ≤ s.length ∧ ∃ post, s.drop i = sub ++ post := by
  intro s
  induction s with
  | nil =>
    intro i h
    simp only [strings.IndexChars] at h
    split at h
    · rename_i hp
      cases h
      refine ⟨Nat.le_refl _, [], ?_⟩
      have := List.isPrefixOf_iff_prefix.mp hp
      have h0 : sub = [] := List.prefix_nil.mp this
      simp [h0]
    · cases h
  | cons c cs ih =>
    intro i h
    simp only [strings.IndexChars] at h
    split at h
    · rename_i hp
      cases h
      obtain ⟨post, hpost⟩ := List.isPrefixOf_iff_prefix.mp hp
      exact ⟨Nat.zero_le _, post, by simpa using hpost.symm⟩
    · cases hrec : strings.IndexChars cs sub with
      | none => rw [hrec] at h; cases h
      | some j =>
        rw [hrec] at h
        simp only [Option.map, Option.some.injEq] at h
        subst h
        obtain ⟨hle, post, hpost⟩ := ih j hrec
        exact ⟨by simpa using hle, post, by simpa using hpost⟩

/-- Before the position `strings.Index` finds a character at, the character
does not occur. -/
theorem strings.IndexChars_single_not_mem (c : Char) :
    ∀ (s : List Char) (i : Nat), strings.IndexChars s [c] = some i → c ∉ s.take i := by
  intro s
  induction s with
  | nil => intro i _; simp
  | cons d ds ih =>
    intro i h
    simp only [strings.IndexChars] at h
    split at h
    · cases h; simp
    · rename_i hp
      cases hrec : strings.IndexChars ds [c] with
      | none => rw [hrec] at h; cases h
      | some j =>
        rw [hrec] at h
        simp only [Option.map, Option.some.injEq] at h
        subst h
        have hne : c ≠ d := by
          intro hcd
          apply hp
          subst hcd
          simp [List.isPrefixOf]
        simp only [List.take_succ_cons, List.mem_cons, not_or]
        exact ⟨hne, ih j hrec⟩

theorem strings.Index_of_none {s sub : String}
    (h : strings.IndexChars s.data sub.data = none) : strings.Index s sub = -1 := by
  simp only [strings.Index, h]

theorem strings.Index_of_some {s sub : String} {i : Nat}
    (h : strings.IndexChars s.data sub.data = some i) : strings.Index s sub = (i : Int) := by
  simp only [strings.Index, h]

theorem sliceString_of_le (s : String) (lo hi : Nat) (h₁ : lo ≤ hi)
    (h₂ : hi ≤ s.data.length) :
    sliceString s lo hi = some ⟨(s.data.drop lo).take (hi - lo)⟩ := by
  have hc : (0 : Int) ≤ (lo : Int) ∧ (lo : Int) ≤ (hi : Int) ∧
      (hi : Int) ≤ (s.data.length : Int) := by omega
  simp only [sliceString, hc, and_self, if_true, Int.toNat_ofNat]

/-- The two cases of the search for the meta element. -/
theorem metaTagOccurrence_cases (html tag : String) :
    (metaTagOccurrence html tag = none ∧
      (if strings.Index html ("<meta name=\"" ++ tag ++ "\"") = -1
        then strings.Index html ("<meta property=\"" ++ tag ++ "\"")
        else strings.Index html ("<meta name=\"" ++ tag ++ "\"")) = -1) ∨
    (∃ (k : Nat) (pfx post : List Char),
      metaTagOccurrence html tag = some (k, k + (pfx.length + tag.data.length + 1)) ∧
      (if strings.Index html ("<meta name=\"" ++ tag ++ "\"") = -1
        then strings.Index html ("<meta property=\"" ++ tag ++ "\"")
        else strings.Index html ("<meta name=\"" ++ tag ++ "\"")) = (k : Int) ∧
      k ≤ html.data.length ∧
      html.data.drop k = pfx ++ (tag.data ++ '"' :: post) ∧
      (pfx = "<meta name=\"".data ∨ pfx = "<meta property=\"".data)) := by
  cases h₁ : strings.IndexChars html.data ("<meta name=\"" ++ tag ++ "\"").data with
  | some k =>
    right
    obtain ⟨hk, post, hpost⟩ := strings.IndexChars_some _ _ _ h₁
    refine ⟨k, "<meta name=\"".data, post, ?_, ?_, hk, ?_, Or.inl rfl⟩
    · simp only [metaTagOccurrence, h₁]
      simp only [String.data_append, List.length_append]
      rfl
    · have hne : ((k : Nat) : Int) ≠ -1 := by omega
      rw [strings.Index_of_some h₁, if_neg hne]
    · rw [hpost]
      simp only [String.data_append, List.append_assoc]
      rfl
  | none =>
    cases h₂ : strings.IndexChars html.data ("<meta property=\"" ++ tag ++ "\"").data with
    | some k =>
      right
      obtain ⟨hk, post, hpost⟩ := strings.IndexChars_some _ _ _ h₂
      refine ⟨k, "<meta property=\"".data, post, ?_, ?_, hk, ?_, Or.inr rfl⟩
      · simp only [metaTagOccurrence, h₁, h₂]
        simp only [String.data_append, List.length_append]
        rfl
      · rw [strings.Index_of_none h₁, if_pos rfl, strings.Index_of_some h₂]
      · rw [hpost]
        simp only [String.data_append, List.append_assoc]
        rfl
    | none =>
      left
      refine ⟨?_, ?_⟩
      · simp only [metaTagOccurrence, h₁, h₂]
      · rw [strings.Index_of_none h₁, if_pos rfl, strings.Index_of_none h₂]

/-- A `content="` found from the start of a meta element whose tag name has no
double quote ends at or after the end of that element's opening text. -/
theorem content_not_inside_meta (pfx tag post post' l : List Char) (j : Nat)
    (hl : l = pfx ++ (tag ++ '"' :: post))
    (hj : l.drop j = "content=\"".data ++ post')
    (hq : '"' ∉ tag)
    (hpfx : pfx = "<meta name=\"".data ∨ pfx = "<meta property=\"".data) :
    pfx.length + tag.length + 1 ≤ j + 9 := by
  by_contra hlt
  have hlt' : j + 8 < pfx.length + tag.length := by omega
  have h8 : l[j + 8]? = some '"' := by
    rw [← List.getElem?_drop, hj, List.getElem?_append_left (by decide)]; rfl
  have h0 : l[j + 0]? = some 'c' := by
    rw [← List.getElem?_drop, hj, List.getElem?_append_left (by decide)]; rfl
  by_cases hin : j + 8 < pfx.length
  · rw [hl, List.getElem?_append_left hin] at h8
    rw [hl, List.getElem?_append_left (by omega)] at h0
    rcases hpfx with hp | hp
    · subst hp
      have hj' : j < 4 := by
        have : j + 8 < 12 := hin
        omega
      interval_cases j <;> revert h8 h0 <;> decide
    · subst hp
      have hj' : j < 8 := by
        have : j + 8 < 16 := hin
        omega
      interval_cases j <;> revert h8 h0 <;> decide
  · rw [hl, List.getElem?_append_right (by omega),
      List.getElem?_append_left (by omega)] at h8
    exact hq (List.getElem?_mem h8)

/-- C30 (as amended). For every html string and tag name `extractMetaTag`
returns without a slice panic. Its result is the empty string, or a contiguous
piece of html without a double quote that starts at least 9 characters after
the first character of the first `<meta name="tag"` (failing that, of the first
`<meta property="tag"`); when the tag name holds no double quote the piece
starts at or after the end of that occurrence. -/
theorem extractMetaTag_spec (html tag : String) :
    ∃ r, extractMetaTag html tag = some r ∧
      (r = "" ∨ ∃ (pre post : List Char) (first last : Nat),
        html.data = pre ++ (r.data ++ post) ∧ '"' ∉ r.data ∧
        metaTagOccurrence html tag = some (first, last) ∧
        first + 9 ≤ pre.length ∧ ('"' ∉ tag.data → last ≤ pre.length)) := by
  rcases metaTagOccurrence_cases html tag with
    ⟨_, hts⟩ | ⟨k, pfx, post₀, hocc, hts, hk, hdrop, hpfx⟩
  · refine ⟨"", ?_, Or.inl rfl⟩
    simp only [extractMetaTag, hts, if_true]
  · have hne : ((k : Nat) : Int) ≠ -1 := by omega
    have hslice := sliceString_of_le html k html.data.length hk (Nat.le_refl _)
    rw [List.take_of_length_le (by simp)] at hslice
    cases hc : strings.IndexChars (html.data.drop k) "content=\"".data with
    | none =>
      have hi : strings.Index ⟨html.data.drop k⟩ "content=\"" = -1 :=
        strings.Index_of_none hc
      refine ⟨"", ?_, Or.inl rfl⟩
      simp only [extractMetaTag, hts, if_neg hne, hslice, hi, if_true]
    | some j =>
      have hi : strings.Index ⟨html.data.drop k⟩ "content=\"" = (j : Int) :=
        strings.Index_of_some hc
      obtain ⟨_, post₁, hpost₁⟩ := strings.IndexChars_some _ _ _ hc
      have hlen₁ : j + k + 9 ≤ html.data.length := by
        have := congrArg List.length hpost₁
        simp only [List.length_drop, List.length_append, List.length_cons,
          List.length_nil] at this
        omega
      have hnej : ((j : Nat) : Int) ≠ -1 := by omega
      have hcs : (j : Int) + (k : Int) + 9 = ((j + k + 9 : Nat) : Int) := by
        push_cast; ring
      have hslice₂ := sliceString_of_le html (j + k + 9) html.data.length hlen₁
        (Nat.le_refl _)
      rw [List.take_of_length_le (by simp)] at hslice₂
      cases hq : strings.IndexChars (html.data.drop (j + k + 9)) "\"".data with
      | none =>
        have hi₂ : strings.Index ⟨html.data.drop (j + k + 9)⟩ "\"" = -1 :=
          strings.Index_of_none hq
        refine ⟨"", ?_, Or.inl rfl⟩
        simp only [extractMetaTag, hts, if_neg hne, hslice, hi, if_neg hnej, hcs,
          hslice₂, hi₂, if_true]
      | some e =>
        have hi₂ : strings.Index ⟨html.data.drop (j + k + 9)⟩ "\"" = (e : Int) :=
          strings.Index_of_some hq
        obtain ⟨_, post₂, hpost₂⟩ := strings.IndexChars_some _ _ _ hq
        have hnoq := strings.IndexChars_single_not_mem '"' _ _ hq
        have hlen₂ : j + k + 9 + e + 1 ≤ html.data.length := by
          have := congrArg List.length hpost₂
          simp only [List.length_drop, List.length_append, List.length_cons,
          List.length_nil] at this
          omega
        have hnee : ((e : Nat) : Int) ≠ -1 := by omega
        have hce : (e : Int) + ((j + k + 9 : Nat) : Int) = ((j + k + 9 + e : Nat) : Int) := by
          push_cast; ring
        have hslice₃ := sliceString_of_le html (j + k + 9) (j + k + 9 + e) (by omega)
          (by omega)
        rw [Nat.add_sub_cancel_left] at hslice₃
        refine ⟨⟨(html.data.drop (j + k + 9)).take e⟩, ?_, Or.inr ?_⟩
        · simp only [extractMetaTag, hts, if_neg hne, hslice, hi, if_neg hnej, hcs,
            hslice₂, hi₂, if_neg hnee, hce, hslice₃]
        · refine ⟨html.data.take (j + k + 9), (html.data.drop (j + k + 9)).drop e,
            k, k + (pfx.length + tag.data.length + 1), ?_, hnoq, hocc, ?_, ?_⟩
          · rw [List.take_append_drop, List.take_append_drop]
          · rw [List.length_take, Nat.min_eq_left hlen₁]; omega
          · intro htag
            rw [List.length_take, Nat.min_eq_left hlen₁]
            have hdd : (html.data.drop k).drop j = "content=\"".data ++ post₁ := hpost₁
            have := content_not_inside_meta pfx tag.data post₀ post₁ _ j hdrop hdd htag hpfx
            omega

/-! ## The calendar -/

theorem civil_core (c f g doy b doe : Int) (hc0 : 0 ≤ c) (hc1 : c ≤ 3) (hf0 : 0 ≤ f)
    (hf1 : f ≤ 24) (hg0 : 0 ≤ g) (hg1 : g ≤ 3) (hd0 : 0 ≤ doy) (hd1 : doy ≤ 365)
    (hleap : doy = 365 → g = 3 ∧ (f = 24 → c = 3))
    (hdoe : doe = 36524 * c + 1461 * f + 365 * g + doy)
    (hb : b = doe / 1460) :
    (doe - b + c) / 365 = 100 * c + 4 * f + g := by
  omega

theorem civil_decomp (doe c r f r2 g doy : Int) (h0 : 0 ≤ doe) (h1 : doe ≤ 146096)
    (hc : c = doe / 36524 - doe / 146096) (hr : r = doe - 36524 * c)
    (hf : f = r / 1461) (hr2 : r2 = r - 1461 * f)
    (hg : g = r2 / 365 - r2 / 1460) (hdoy : doy = r2 - 365 * g) :
    0 ≤ c ∧ c ≤ 3 ∧ 0 ≤ f ∧ f ≤ 24 ∧ 0 ≤ g ∧ g ≤ 3 ∧ 0 ≤ doy ∧ doy ≤ 365 ∧
      (doy = 365 → g = 3 ∧ (f = 24 → c = 3)) ∧
      doe = 36524 * c + 1461 * f + 365 * g + doy := by
  omega

theorem civil_final (c f g doy' doe yoe doy : Int) (hc0 : 0 ≤ c) (hc1 : c ≤ 3) (hf0 : 0 ≤ f)
    (hf1 : f ≤ 24) (hg0 : 0 ≤ g) (hg1 : g ≤ 3) (hd0 : 0 ≤ doy') (hd1 : doy' ≤ 365)
    (hleap : doy' = 365 → g = 3 ∧ (f = 24 → c = 3))
    (hdoe : doe = 36524 * c + 1461 * f + 365 * g + doy')
    (hy : yoe = 100 * c + 4 * f + g)
    (hdoy : doy = doe - (365 * yoe + yoe / 4 - yoe / 100)) :
    0 ≤ yoe ∧ yoe ≤ 399 ∧ 0 ≤ doy ∧ doy ≤ 365 ∧
      (doy = 365 → yoe % 4 = 3 ∧ (yoe % 100 ≠ 99 ∨ yoe = 399)) := by
  omega

/-- The year of the era and the day of the year that `civilFromDays` computes
from a day of the era: the year is one of the 400 years of the era, the day
one of its days, and the 366th day exists only in a year before a leap
February. -/
theorem civil_yoe_facts (doe yoe doy : Int) (h0 : 0 ≤ doe) (h1 : doe ≤ 146096)
    (hyoe : yoe = (doe - doe / 1460 + doe / 36524 - doe / 146096) / 365)
    (hdoy : doy = doe - (365 * yoe + yoe / 4 - yoe / 100)) :
    0 ≤ yoe ∧ yoe ≤ 399 ∧ 0 ≤ doy ∧ doy ≤ 365 ∧
      (doy = 365 → yoe % 4 = 3 ∧ (yoe % 100 ≠ 99 ∨ yoe = 399)) := by
  obtain ⟨hc0, hc1, hf0, hf1, hg0, hg1, hd0, hd1, hleap, hdoe⟩ :=
    civil_decomp doe _ _ _ _ _ _ h0 h1 rfl rfl rfl rfl rfl rfl
  have hcore := civil_core _ _ _ _ _ doe hc0 hc1 hf0 hf1 hg0 hg1 hd0 hd1 hleap hdoe rfl
  have hN : doe - doe / 1460 + doe / 36524 - doe / 146096 =
      doe - doe / 1460 + (doe / 36524 - doe / 146096) := by ring
  rw [hN] at hyoe
  exact civil_final _ _ _ _ doe yoe doy hc0 hc1 hf0 hf1 hg0 hg1 hd0 hd1 hleap hdoe
    (hyoe.trans hcore) hdoy

theorem civil_tail (era yoe doy mp d m y : Int) (hy0 : 0 ≤ yoe) (hy1 : yoe ≤ 399)
    (hd0 : 0 ≤ doy) (hd1 : doy ≤ 365)
    (hleap : doy = 365 → yoe % 4 = 3 ∧ (yoe % 100 ≠ 99 ∨ yoe = 399))
    (hmp : mp = (5 * doy + 2) / 153) (hd : d = doy - (153 * mp + 2) / 5 + 1)
    (hm : m = if mp < 10 then mp + 3 else mp - 9)
    (hy : y = yoe + era * 400 + (if m ≤ 2 then 1 else 0)) :
    daysFromCivil y m d = era * 146097 + (365 * yoe + yoe / 4 - yoe / 100 + doy) - 719468 ∧
      1 ≤ m ∧ m ≤ 12 ∧ 1 ≤ d ∧ d ≤ daysIn m y := by
  have hmp0 : 0 ≤ mp ∧ mp ≤ 11 := by omega
  refine ⟨?_, ?_, ?_, ?_, ?_⟩
  · simp only [daysFromCivil]
    split_ifs at hm hy ⊢ <;> omega
  · split_ifs at hm <;> omega
  · split_ifs at hm <;> omega
  · omega
  · simp only [daysIn, isLeap]
    split_ifs at hm hy ⊢ <;> simp only [decide_eq_true_eq] at * <;> omega

/-! ## Decimal digits -/

theorem toDigitsCore_append (fuel : Nat) : ∀ (n : Nat) (ds : List Char),
    Nat.toDigitsCore 10 fuel n ds = Nat.toDigitsCore 10 fuel n [] ++ ds := by
  induction fuel with
  | zero => intro n ds; simp [Nat.toDigitsCore]
  | succ fuel ih =>
    intro n ds
    simp only [Nat.toDigitsCore]
    split
    · simp
    · rw [ih (n / 10) (_ :: ds), ih (n / 10) [_]]
      simp

theorem toDigitsCore_fuel (fuel : Nat) : ∀ (n : Nat), n < fuel →
    Nat.toDigitsCore 10 fuel n [] = Nat.toDigitsCore 10 (n + 1) n [] := by
  induction fuel using Nat.strong_induction_on with
  | _ fuel ih =>
    intro n hn
    cases fuel with
    | zero => omega
    | succ fuel =>
      simp only [Nat.toDigitsCore]
      split
      · rfl
      · rename_i hne
        have h1 : n / 10 < fuel := by omega
        have h2 : n / 10 < n := by omega
        rw [toDigitsCore_append fuel, toDigitsCore_append n, ih fuel (by omega) _ h1,
          ih n (by omega) _ h2]

theorem toDigits_lt (n : Nat) (h : n < 10) : Nat.toDigits 10 n = [Nat.digitChar n] := by
  have h0 : n / 10 = 0 := by omega
  have h1 : n % 10 = n := by omega
  simp [Nat.toDigits, Nat.toDigitsCore, h0, h1]

theorem toDigits_ge (n : Nat) (h : 10 ≤ n) :
    Nat.toDigits 10 n = Nat.toDigits 10 (n / 10) ++ [Nat.digitChar (n % 10)] := by
  have h0 : n / 10 ≠ 0 := by omega
  have h2 : n / 10 < n := by omega
  have hL : Nat.toDigits 10 n =
      Nat.toDigitsCore 10 n (n / 10) [Nat.digitChar (n % 10)] := by
    simp only [Nat.toDigits, Nat.toDigitsCore, h0, if_false]
  rw [hL, toDigitsCore_append, toDigitsCore_fuel n _ h2]
  rfl

theorem digitChar_facts (k : Nat) (h : k < 10) :
    isDigit (Nat.digitChar k) = true ∧ digitValue (Nat.digitChar k) = (k : Int) := by
  interval_cases k <;> decide

theorem padded_step (w n : Nat) (hw : 1 ≤ w) :
    List.replicate (w + 1 - (Nat.toDigits 10 n).length) '0' ++ Nat.toDigits 10 n =
      (List.replicate (w - (Nat.toDigits 10 (n / 10)).length) '0' ++ Nat.toDigits 10 (n / 10)) ++
        [Nat.digitChar (n % 10)] := by
  by_cases h : n < 10
  · have h0 : n / 10 = 0 := by omega
    have h1 : n % 10 = n := by omega
    rw [toDigits_lt n h, h0, h1, toDigits_lt 0 (by decide)]
    simp only [List.length_singleton, Nat.add_sub_cancel]
    have : ([Nat.digitChar 0] : List Char) = List.replicate 1 '0' := rfl
    rw [this, ← List.replicate_add, Nat.sub_add_cancel hw]
  · rw [toDigits_ge n (by omega)]
    simp only [List.length_append, List.length_singleton, Nat.add_sub_add_right,
      List.append_assoc]

theorem padded_two (n : Nat) (h : n < 100) :
    List.replicate (2 - (Nat.toDigits 10 n).length) '0' ++ Nat.toDigits 10 n =
      [Nat.digitChar (n / 10), Nat.digitChar (n % 10)] := by
  rw [padded_step 1 n (Nat.le_refl _), toDigits_lt (n / 10) (by omega)]
  rfl

theorem padded_four (n : Nat) (h : n < 10000) :
    List.replicate (4 - (Nat.toDigits 10 n).length) '0' ++ Nat.toDigits 10 n =
      [Nat.digitChar (n / 1000), Nat.digitChar (n / 100 % 10), Nat.digitChar (n / 10 % 10),
        Nat.digitChar (n % 10)] := by
  rw [padded_step 3 n (by decide), padded_step 2 (n / 10) (by decide),
    padded_step 1 (n / 10 / 10) (by decide), toDigits_lt (n / 10 / 10 / 10) (by omega)]
  have h1 : n / 10 / 10 / 10 = n / 1000 := by omega
  have h2 : n / 10 / 10 % 10 = n / 100 % 10 := by omega
  rw [h1, h2]
  rfl

/-- The characters `appendInt` writes for a number that is not negative. -/
theorem appendInt_data (n w : Nat) :
    (appendInt (n : Int) w).data =
      List.replicate (w - (Nat.toDigits 10 n).length) '0' ++ Nat.toDigits 10 n := by
  have hneg : ¬ ((n : Int) < 0) := by omega
  simp only [appendInt, hneg, if_false, Int.natAbs_ofNat, String.data_append]
  rfl

/-- A two-digit field of `Time.Format`, as `getnum` reads it. -/
theorem appendInt_two (x : Int) (h0 : 0 ≤ x) (h1 : x < 100) :
    ∃ c₀ c₁ : Char, (appendInt x 2).data = [c₀, c₁] ∧ isDigit c₀ = true ∧ isDigit c₁ = true ∧
      digitValue c₀ * 10 + digitValue c₁ = x := by
  obtain ⟨n, rfl⟩ := Int.eq_ofNat_of_zero_le h0
  have hn : n < 100 := by omega
  refine ⟨Nat.digitChar (n / 10), Nat.digitChar (n % 10), ?_, ?_, ?_, ?_⟩
  · rw [appendInt_data, padded_two n hn]
  · exact (digitChar_facts _ (by omega)).1
  · exact (digitChar_facts _ (by omega)).1
  · rw [(digitChar_facts (n / 10) (by omega)).2, (digitChar_facts (n % 10) (by omega)).2]
    omega

/-- The year field of `Time.Format` for a year of four digits, as `getYear`
reads it. -/
theorem appendInt_four (x : Int) (h0 : 0 ≤ x) (h1 : x < 10000) :
    ∃ c₀ c₁ c₂ c₃ : Char, (appendInt x 4).data = [c₀, c₁, c₂, c₃] ∧
      isDigit c₀ = true ∧ isDigit c₁ = true ∧ isDigit c₂ = true ∧ isDigit c₃ = true ∧
      digitValue c₀ * 1000 + digitValue c₁ * 100 + digitValue c₂ * 10 + digitValue c₃ = x := by
  obtain ⟨n, rfl⟩ := Int.eq_ofNat_of_zero_le h0
  have hn : n < 10000 := by omega
  refine ⟨Nat.digitChar (n / 1000), Nat.digitChar (n / 100 % 10), Nat.digitChar (n / 10 % 10),
    Nat.digitChar (n % 10), ?_, ?_, ?_, ?_, ?_, ?_⟩
  · rw [appendInt_data, padded_four n hn]
  · exact (digitChar_facts _ (by omega)).1
  · exact (digitChar_facts _ (by omega)).1
  · exact (digitChar_facts _ (by omega)).1
  · exact (digitChar_facts _ (by omega)).1
  · rw [(digitChar_facts (n / 1000) (by omega)).2, (digitChar_facts (n / 100 % 10) (by omega)).2,
      (digitChar_facts (n / 10 % 10) (by omega)).2, (digitChar_facts (n % 10) (by omega)).2]
    omega

/-! ## Reading back what `Format` wrote -/

theorem getnum_two (c₀ c₁ : Char) (rest : List Char) (fixed : Bool)
    (h₀ : isDigit c₀ = true) (h₁ : isDigit c₁ = true) :
    getnum (c₀ :: c₁ :: rest) fixed = some (digitValue c₀ * 10 + digitValue c₁, rest) := by
  simp [getnum, h₀, h₁]

theorem getYear_four (c₀ c₁ c₂ c₃ : Char) (rest : List Char)
    (h₀ : isDigit c₀ = true) (h₁ : isDigit c₁ = true) (h₂ : isDigit c₂ = true)
    (h₃ : isDigit c₃ = true) :
    getYear (c₀ :: c₁ :: c₂ :: c₃ :: rest) =
      some (digitValue c₀ * 1000 + digitValue c₁ * 100 + digitValue c₂ * 10 + digitValue c₃,
        rest) := by
  simp [getYear, h₀, h₁, h₂, h₃]

/-- `time.Parse` on a text whose fields are all present and in range. -/
theorem ParseRFC3339_of_fields (value : String) (y₀ y₁ y₂ y₃ n₀ n₁ d₀ d₁ h₀ h₁ m₀ m₁ s₀ s₁ : Char)
    (zone : List Char) (offset : Int)
    (hvalue : value.data =
      y₀ :: y₁ :: y₂ :: y₃ :: '-' :: n₀ :: n₁ :: '-' :: d₀ :: d₁ :: 'T' :: h₀ :: h₁ :: ':' ::
        m₀ :: m₁ :: ':' :: s₀ :: s₁ :: zone)
    (hy₀ : isDigit y₀ = true) (hy₁ : isDigit y₁ = true) (hy₂ : isDigit y₂ = true)
    (hy₃ : isDigit y₃ = true) (hn₀ : isDigit n₀ = true) (hn₁ : isDigit n₁ = true)
    (hd₀ : isDigit d₀ = true) (hd₁ : isDigit d₁ = true) (hh₀ : isDigit h₀ = true)
    (hh₁ : isDigit h₁ = true) (hm₀ : isDigit m₀ = true) (hm₁ : isDigit m₁ = true)
    (hs₀ : isDigit s₀ = true) (hs₁ : isDigit s₁ = true)
    (hfrac : getFraction zone = (0, zone)) (hzone : getZone zone = some (offset, []))
    (hmonth : 1 ≤ digitValue n₀ * 10 + digitValue n₁ ∧ digitValue n₀ * 10 + digitValue n₁ ≤ 12)
    (hhour : 0 ≤ digitValue h₀ * 10 + digitValue h₁ ∧ digitValue h₀ * 10 + digitValue h₁ < 24)
    (hmin : 0 ≤ digitValue m₀ * 10 + digitValue m₁ ∧ digitValue m₀ * 10 + digitValue m₁ < 60)
    (hsec : 0 ≤ digitValue s₀ * 10 + digitValue s₁ ∧ digitValue s₀ * 10 + digitValue s₁ < 60)
    (hday : 1 ≤ digitValue d₀ * 10 + digitValue d₁ ∧
      digitValue d₀ * 10 + digitValue d₁ ≤
        daysIn (digitValue n₀ * 10 + digitValue n₁)
          (digitValue y₀ * 1000 + digitValue y₁ * 100 + digitValue y₂ * 10 + digitValue y₃)) :
    ParseRFC3339 value =
      .ok { unixNano :=
              (daysFromCivil
                  (digitValue y₀ * 1000 + digitValue y₁ * 100 + digitValue y₂ * 10 + digitValue y₃)
                  (digitValue n₀ * 10 + digitValue n₁) (digitValue d₀ * 10 + digitValue d₁)
                  * 86400 +
                (digitValue h₀ * 10 + digitValue h₁) * 3600 +
                (digitValue m₀ * 10 + digitValue m₁) * 60 +
                (digitValue s₀ * 10 + digitValue s₁) - offset) * 1000000000 + 0
            zoneOffset := offset } := by
  have hmonth' : ¬ (digitValue n₀ * 10 + digitValue n₁ ≤ 0 ∨
      12 < digitValue n₀ * 10 + digitValue n₁) := by omega
  have hhour' : ¬ (digitValue h₀ * 10 + digitValue h₁ < 0 ∨
      24 ≤ digitValue h₀ * 10 + digitValue h₁) := by omega
  have hmin' : ¬ (digitValue m₀ * 10 + digitValue m₁ < 0 ∨
      60 ≤ digitValue m₀ * 10 + digitValue m₁) := by omega
  have hsec' : ¬ (digitValue s₀ * 10 + digitValue s₁ < 0 ∨
      60 ≤ digitValue s₀ * 10 + digitValue s₁) := by omega
  have hday' : ¬ (digitValue d₀ * 10 + digitValue d₁ < 1 ∨
      digitValue d₀ * 10 + digitValue d₁ >
        daysIn (digitValue n₀ * 10 + digitValue n₁)
          (digitValue y₀ * 1000 + digitValue y₁ * 100 + digitValue y₂ * 10 + digitValue y₃)) := by
    omega
  have hfields : ParseRFC3339.fields value.data =
      some { year := digitValue y₀ * 1000 + digitValue y₁ * 100 + digitValue y₂ * 10 + digitValue y₃
             month := digitValue n₀ * 10 + digitValue n₁
             day := digitValue d₀ * 10 + digitValue d₁
             hour := digitValue h₀ * 10 + digitValue h₁
             min := digitValue m₀ * 10 + digitValue m₁
             sec := digitValue s₀ * 10 + digitValue s₁
             nsec := 0
             zoneOffset := offset
             rest := [] } := by
    rw [hvalue]
    simp only [ParseRFC3339.fields, getYear_four _ _ _ _ _ hy₀ hy₁ hy₂ hy₃, skipChar,
      getnum_two _ _ _ _ hn₀ hn₁, getnum_two _ _ _ _ hd₀ hd₁, getnum_two _ _ _ _ hh₀ hh₁,
      getnum_two _ _ _ _ hm₀ hm₁, getnum_two _ _ _ _ hs₀ hs₁, hfrac, hzone, hmonth', hhour',
      hmin', hsec', if_true, if_false]
  simp only [ParseRFC3339, hfields, hday', if_false, ne_eq, not_true_eq_false]

/-- The date `civilFromDays` computes is a date of the calendar, and
`daysFromCivil` leads back from it to the day number. -/
theorem civilFromDays_spec (z : Int) :
    daysFromCivil (civilFromDays z).1 (civilFromDays z).2.1 (civilFromDays z).2.2 = z ∧
      1 ≤ (civilFromDays z).2.1 ∧ (civilFromDays z).2.1 ≤ 12 ∧ 1 ≤ (civilFromDays z).2.2 ∧
      (civilFromDays z).2.2 ≤ daysIn (civilFromDays z).2.1 (civilFromDays z).1 := by
  have h0 : 0 ≤ z + 719468 - (z + 719468) / 146097 * 146097 := by omega
  have h1 : z + 719468 - (z + 719468) / 146097 * 146097 ≤ 146096 := by omega
  obtain ⟨hy0, hy1, hd0, hd1, hleap⟩ := civil_yoe_facts _ _ _ h0 h1 rfl rfl
  obtain ⟨hback, hrest⟩ := civil_tail ((z + 719468) / 146097) _ _ _ _ _ _ hy0 hy1 hd0 hd1 hleap
    rfl rfl rfl rfl
  refine ⟨?_, hrest⟩
  refine Eq.trans hback ?_
  omega

/-- The years 0 to 9999 are the days -719528 to 2932896. -/
theorem civilFromDays_year (z : Int) (hlo : -719528 ≤ z) (hhi : z < 2932897) :
    0 ≤ (civilFromDays z).1 ∧ (civilFromDays z).1 ≤ 9999 := by
  have h0 : 0 ≤ z + 719468 - (z + 719468) / 146097 * 146097 := by omega
  have h1 : z + 719468 - (z + 719468) / 146097 * 146097 ≤ 146096 := by omega
  obtain ⟨hy0, hy1, hd0, hd1, _⟩ := civil_yoe_facts _ _ _ h0 h1 rfl rfl
  simp only [civilFromDays]
  generalize hyoe : (z + 719468 - (z + 719468) / 146097 * 146097 -
    (z + 719468 - (z + 719468) / 146097 * 146097) / 1460 +
    (z + 719468 - (z + 719468) / 146097 * 146097) / 36524 -
    (z + 719468 - (z + 719468) / 146097 * 146097) / 146096) / 365 = yoe at *
  generalize hera : (z + 719468) / 146097 = era at *
  have hera' : -1 ≤ era ∧ era ≤ 24 := by omega
  split_ifs <;> omega

theorem daysIn_le (month year : Int) : daysIn month year ≤ 31 := by
  simp only [daysIn]
  split_ifs <;> omega

/-- The zone `Format` writes for an offset of whole minutes, less than a day
either way, is read back as that offset. -/
theorem getZone_formatZone (offset : Int) (hmin : offset % 60 = 0) (hlo : -86400 < offset)
    (hhi : offset < 86400) :
    getFraction (formatZone offset).data = (0, (formatZone offset).data) ∧
      getZone (formatZone offset).data = some (offset, []) := by
  by_cases h0 : offset = 0
  · subst h0
    exact ⟨rfl, rfl⟩
  · have hdvd : (60 : Int) ∣ offset := Int.dvd_of_emod_eq_zero hmin
    have hzone : Int.tdiv offset 60 = offset / 60 := Int.tdiv_eq_ediv_of_dvd hdvd
    by_cases hneg : offset / 60 < 0
    · obtain ⟨a₀, a₁, ha, ha₀, ha₁, hav⟩ := appendInt_two (-(offset / 60) / 60) (by omega)
        (by omega)
      obtain ⟨b₀, b₁, hb, hb₀, hb₁, hbv⟩ := appendInt_two (-(offset / 60) % 60) (by omega)
        (by omega)
      have hdata : (formatZone offset).data = '-' :: a₀ :: a₁ :: ':' :: b₀ :: b₁ :: [] := by
        simp only [formatZone, h0, if_false, hzone, hneg, if_true, String.data_append, ha, hb]
        rfl
      rw [hdata]
      refine ⟨by simp [getFraction], ?_⟩
      have hr : ¬ (digitValue a₀ * 10 + digitValue a₁ > 24 ∨
          digitValue b₀ * 10 + digitValue b₁ > 60) := by omega
      simp only [getZone, getnum_two _ _ _ _ ha₀ ha₁, getnum_two _ _ _ _ hb₀ hb₁, hr]
      simp only [show ('-' : Char) ≠ 'Z' by decide, show ('-' : Char) ≠ '+' by decide, if_false,
        if_true, ne_eq, not_true_eq_false, Option.some.injEq, Prod.mk.injEq, and_true]
      omega
    · obtain ⟨a₀, a₁, ha, ha₀, ha₁, hav⟩ := appendInt_two (offset / 60 / 60) (by omega)
        (by omega)
      obtain ⟨b₀, b₁, hb, hb₀, hb₁, hbv⟩ := appendInt_two (offset / 60 % 60) (by omega)
        (by omega)
      have hdata : (formatZone offset).data = '+' :: a₀ :: a₁ :: ':' :: b₀ :: b₁ :: [] := by
        simp only [formatZone, h0, if_false, hzone, hneg, String.data_append, ha, hb]
        rfl
      rw [hdata]
      refine ⟨by simp [getFraction], ?_⟩
      have hr : ¬ (digitValue a₀ * 10 + digitValue a₁ > 24 ∨
          digitValue b₀ * 10 + digitValue b₁ > 60) := by omega
      simp only [getZone, getnum_two _ _ _ _ ha₀ ha₁, getnum_two _ _ _ _ hb₀ hb₁, hr]
      simp only [show ('+' : Char) ≠ 'Z' by decide, if_false,
        if_true, ne_eq, not_true_eq_false, Option.some.injEq, Prod.mk.injEq, and_true]
      omega

/-- Reading back with `time.Parse` what `Format(time.RFC3339)` wrote gives the
time truncated to the second, in the same zone: for a time of the years 0 to
9999 whose zone offset is a whole number of minutes, less than a day either
way. -/
theorem ParseRFC3339_FormatRFC3339 (t : Time)
    (hyear : -62167219200 ≤ t.localSeconds ∧ t.localSeconds < 253402300800)
    (hmin : t.zoneOffset % 60 = 0) (hlo : -86400 < t.zoneOffset) (hhi : t.zoneOffset < 86400) :
    ParseRFC3339 t.FormatRFC3339 =
      .ok { unixNano := t.unixNano / 1000000000 * 1000000000, zoneOffset := t.zoneOffset } := by
  obtain ⟨hback, hm0, hm1, hd0, hd1⟩ := civilFromDays_spec (t.localSeconds / 86400)
  obtain ⟨hy0, hy1⟩ := civilFromDays_year (t.localSeconds / 86400) (by omega) (by omega)
  have hd31 := daysIn_le (civilFromDays (t.localSeconds / 86400)).2.1
    (civilFromDays (t.localSeconds / 86400)).1
  obtain ⟨y₀, y₁, y₂, y₃, hy, hy₀, hy₁, hy₂, hy₃, hyv⟩ :=
    appendInt_four (civilFromDays (t.localSeconds / 86400)).1 hy0 (by omega)
  obtain ⟨n₀, n₁, hn, hn₀, hn₁, hnv⟩ :=
    appendInt_two (civilFromDays (t.localSeconds / 86400)).2.1 (by omega) (by omega)
  obtain ⟨d₀, d₁, hd, hd₀, hd₁, hdv⟩ :=
    appendInt_two (civilFromDays (t.localSeconds / 86400)).2.2 (by omega) (by omega)
  obtain ⟨h₀, h₁, hh, hh₀, hh₁, hhv⟩ :=
    appendInt_two (t.localSeconds % 86400 / 3600) (by omega) (by omega)
  obtain ⟨m₀, m₁, hm, hm₀, hm₁, hmv⟩ :=
    appendInt_two (t.localSeconds % 86400 % 3600 / 60) (by omega) (by omega)
  obtain ⟨s₀, s₁, hs, hs₀, hs₁, hsv⟩ :=
    appendInt_two (t.localSeconds % 86400 % 60) (by omega) (by omega)
  obtain ⟨hfrac, hzone⟩ := getZone_formatZone t.zoneOffset hmin hlo hhi
  have hdata : t.FormatRFC3339.data =
      y₀ :: y₁ :: y₂ :: y₃ :: '-' :: n₀ :: n₁ :: '-' :: d₀ :: d₁ :: 'T' :: h₀ :: h₁ :: ':' ::
        m₀ :: m₁ :: ':' :: s₀ :: s₁ :: (formatZone t.zoneOffset).data := by
    simp only [Time.FormatRFC3339, String.data_append, hy, hn, hd, hh, hm, hs]
    rfl
  rw [ParseRFC3339_of_fields _ y₀ y₁ y₂ y₃ n₀ n₁ d₀ d₁ h₀ h₁ m₀ m₁ s₀ s₁ _ t.zoneOffset hdata
    hy₀ hy₁ hy₂ hy₃ hn₀ hn₁ hd₀ hd₁ hh₀ hh₁ hm₀ hm₁ hs₀ hs₁ hfrac hzone (by omega) (by omega)
    (by omega) (by omega) (by rw [hdv, hnv, hyv]; exact ⟨hd0, hd1⟩)]
  rw [hyv, hnv, hdv, hhv, hmv, hsv, hback]
  have hsecs : t.localSeconds = t.unixNano / 1000000000 + t.zoneOffset := rfl
  congr 2
  omega

/-! ## The texts `time.Parse` takes -/

theorem ParseRFC3339_of_exact (t : Time) (h : t.exactInRFC3339 = true) :
    ParseRFC3339 t.FormatRFC3339 = .ok t := by
  simp only [Time.exactInRFC3339, Time.jsonYearInRange, decide_eq_true_eq] at h
  obtain ⟨hns, hyear, hmin, hlo, hhi⟩ := h
  rw [ParseRFC3339_FormatRFC3339 t hyear hmin hlo hhi]
  have : t.unixNano / 1000000000 * 1000000000 = t.unixNano := by omega
  rw [this]

/-- C26 (as amended). For every tag whose `CreatedAt` and `UpdatedAt` have no
fraction of a second, lie in the years 0 to 9999 and carry a zone offset of
whole minutes, less than a day either way, and whose usage stats the JSON
library writes and reads back unchanged: `Tag.MarshalJSON` succeeds, the
`created_at` and `updated_at` it writes are the RFC 3339 renderings of the two
fields, and `Tag.UnmarshalJSON` of the result into a zero tag succeeds with a
tag equal to the original in every field. -/
theorem Tag_json_roundtrip (json : JSON) (t : Tag) (text : String)
    (hstats : json.MarshalStats t.UsageStats = .ok text)
    (hback : json.UnmarshalStats text = .ok t.UsageStats)
    (hc : t.CreatedAt.exactInRFC3339 = true) (hu : t.UpdatedAt.exactInRFC3339 = true) :
    ∃ data, Tag.MarshalJSON json t = .ok data ∧
      data.created_at = some t.CreatedAt.FormatRFC3339 ∧
      data.updated_at = some t.UpdatedAt.FormatRFC3339 ∧
      Tag.UnmarshalJSON json {} data = .ok t := by
  have hm : Tag.MarshalJSON json t =
      .ok { id := some t.ID, name := some t.Name, color := some t.Color,
            description := some t.Description,
            parent_id := if t.ParentID = "" then none else some t.ParentID,
            order := some t.Order, count := some t.Count, usage_stats := some text,
            created_at := some t.CreatedAt.FormatRFC3339,
            updated_at := some t.UpdatedAt.FormatRFC3339 } := by
    simp only [Tag.MarshalJSON, hstats]
  refine ⟨_, hm, rfl, rfl, ?_⟩
  simp only [Tag.UnmarshalJSON, hback, Option.getD_some, ParseRFC3339_of_exact _ hc,
    ParseRFC3339_of_exact _ hu]
  congr 1
  cases t with
  | mk ID Name Color Description ParentID Order Count CreatedAt UpdatedAt UsageStats =>
    by_cases hp : ParentID = "" <;> simp [hp]

/-- C26 on `stampedTag`: it is written with `created_at` 2023-11-14T22:13:20Z
and `updated_at` 2023-11-15T04:43:20+05:30, and read back unchanged. -/
theorem Tag_json_roundtrip_witness :
    (Tag.MarshalJSON exampleJSON stampedTag).toOption.bind (fun data => data.created_at) =
        some "2023-11-14T22:13:20Z" ∧
      (Tag.MarshalJSON exampleJSON stampedTag).toOption.bind (fun data => data.updated_at) =
        some "2023-11-15T04:43:20+05:30" ∧
      ∃ data, Tag.MarshalJSON exampleJSON stampedTag = .ok data ∧
        data.created_at = some stampedTag.CreatedAt.FormatRFC3339 ∧
        data.updated_at = some stampedTag.UpdatedAt.FormatRFC3339 ∧
        Tag.UnmarshalJSON exampleJSON {} data = .ok stampedTag :=
  ⟨by decide, by decide,
    Tag_json_roundtrip exampleJSON stampedTag _ rfl rfl (by decide) (by decide)⟩

/-- C26 as stated fails on a tag created at the first instant of the year
10000, whose times have no fraction of a second: `Tag.MarshalJSON` writes
`created_at` as `10000-01-01T00:00:00Z`, and `Tag.UnmarshalJSON` of the result
returns the error of `time.Parse`, which reads a year of four digits. -/
theorem Tag_json_roundtrip_fails_in_year_10000 :
    lateTag.CreatedAt.unixNano % 1000000000 = 0 ∧ lateTag.UpdatedAt.unixNano % 1000000000 = 0 ∧
      ∃ data err, Tag.MarshalJSON exampleJSON lateTag = .ok data ∧
        data.created_at = some "10000-01-01T00:00:00Z" ∧
        Tag.UnmarshalJSON exampleJSON {} data = .error err :=
  ⟨by decide, by decide, _, _, rfl, by decide, rfl⟩

/-- Two timestamps of RFC 3339 that `time.Parse` refuses, one with `t` and `z`
in lower case and one with the second 60: `Tag.UnmarshalJSON` returns an error
for an object with either as `created_at`. -/
theorem Tag_UnmarshalJSON_refuses_lower_case_and_leap_second :
    TimestampGrammar.rfc3339.accepts "2023-11-14t22:13:20z" = true ∧
      TimestampGrammar.rfc3339.accepts "2016-12-31T23:59:60Z" = true ∧
      (∃ err, Tag.UnmarshalJSON exampleJSON {}
          { id := some "t1", created_at := some "2023-11-14t22:13:20z",
            updated_at := some "2023-11-14T22:13:20Z" } = .error err) ∧
      (∃ err, Tag.UnmarshalJSON exampleJSON {}
          { id := some "t1", created_at := some "2016-12-31T23:59:60Z",
            updated_at := some "2023-11-14T22:13:20Z" } = .error err) :=
  ⟨by decide, by decide, ⟨_, rfl⟩, ⟨_, rfl⟩⟩

theorem TagsPage.selectedIDs_eq (tp : TagsPage) :
    tp.selectedIDs = tp.selectedTags.map Prod.fst := by
  have h : ∀ (l : List (String × Bool)) (acc : List String),
      l.foldl (fun tagIDs entry => tagIDs ++ [entry.1]) acc = acc ++ l.map Prod.fst := by
    intro l
    induction l with
    | nil => intro acc; simp
    | cons x xs ih => intro acc; simp [ih]
  simpa [TagsPage.selectedIDs] using h tp.selectedTags []

/-- `DeleteTags` has no error return: when it returns, it returns nil. -/
theorem DeleteTags_returns_nil (s s' : AppState) (tagIDs : List String) (err : Error)
    (h : s.DeleteTags tagIDs = Outcome.returned s' err) : err = none := by
  unfold AppState.DeleteTags AppState.withLock at h
  cases hl : s.mu.Lock with
  | none => rw [hl] at h; cases h
  | some m =>
    rw [hl] at h
    simp only [] at h
    by_cases hcap : (s.tags.length : Int) - (tagIDs.length : Int) < 0
    · simp only [hcap, if_true, deferUnlock] at h
      split at h <;> cases h
    · simp only [hcap, if_false, deferUnlock] at h
      split at h
      · cases h; rfl
      · cases h

/-- `ExportTags` on a state that is not locked returns, leaving the state as
it was. -/
theorem ExportTags_returns (w : ExportWorld) (s : AppState) (tagIDs : List String)
    (hmu : s.mu = RWMutex.unlocked) :
    ∃ r, s.ExportTags w tagIDs = Outcome.returned s r := by
  have hs : ({ s with mu := RWMutex.unlocked } : AppState) = s := by
    cases s; simp_all
  cases hj : w.MarshalIndent
      (AppState.ExportTags.envelope { s with mu := RWMutex.readLocked 0 } tagIDs w.now) with
  | error e =>
    simp only [AppState.ExportTags, AppState.withRLock, hmu, RWMutex.RLock, hj, deferRUnlock,
      RWMutex.RUnlock, hs]
    exact ⟨_, rfl⟩
  | ok data =>
    cases hw : w.WriteFile ("tag_export_" ++ w.Format w.nowPath ++ ".json") data with
    | some e =>
      simp only [AppState.ExportTags, AppState.withRLock, hmu, RWMutex.RLock, hj, hw,
        deferRUnlock, RWMutex.RUnlock, hs]
      exact ⟨_, rfl⟩
    | none =>
      simp only [AppState.ExportTags, AppState.withRLock, hmu, RWMutex.RLock, hj, hw,
        deferRUnlock, RWMutex.RUnlock, hs]
      exact ⟨_, rfl⟩

/-- C22 (as amended). Whenever `handleBatchDelete` completes, the selection is
empty and the batch toolbar flag is false, and it does complete, with the
filtered tags refreshed from the state, on a page whose state is not locked and
holds at least as many tags as are selected. Whenever `handleBatchExport`
completes, after a successful or a failed export, the selection and the flag
are as they were before, and it does complete on a page whose state is not
locked. -/
theorem batch_handlers_spec (tp : TagsPage) (w : ExportWorld) (now : Time)
    (hmu : tp.state.mu = RWMutex.unlocked)
    (hlen : tp.selectedTags.length ≤ tp.state.tags.length) :
    (∃ tp', tp.handleBatchDelete now = .completed tp' ∧ tp'.filteredTags = tp'.state.tags) ∧
    (∃ tp', tp.handleBatchExport w now = .completed tp') ∧
    (∀ (q q' : TagsPage), q.handleBatchDelete now = .completed q' →
      q'.selectedTags = [] ∧ q'.batchOps.visible = false) ∧
    (∀ (q q' : TagsPage), q.handleBatchExport w now = .completed q' →
      q'.selectedTags = q.selectedTags ∧ q'.batchOps = q.batchOps) := by
  refine ⟨?_, ?_, ?_, ?_⟩
  · have hl : tp.selectedIDs.length ≤ tp.state.tags.length := by
      rw [TagsPage.selectedIDs_eq, List.length_map]; exact hlen
    have hd := DeleteTags_of_length_le tp.state tp.selectedIDs hmu hl
    simp only [TagsPage.handleBatchDelete, hd, AppState.GetTags, AppState.withRLock, hmu,
      RWMutex.RLock, deferRUnlock, RWMutex.RUnlock]
    exact ⟨_, rfl, rfl⟩
  · obtain ⟨⟨path, err⟩, hr⟩ := ExportTags_returns w tp.state tp.selectedIDs hmu
    simp only [TagsPage.handleBatchExport, hr]
    cases err with
    | none => exact ⟨_, rfl⟩
    | some e => exact ⟨_, rfl⟩
  · intro q q' h
    simp only [TagsPage.handleBatchDelete] at h
    cases hd : q.state.DeleteTags q.selectedIDs with
    | blocked s => simp only [hd] at h; cases h
    | panicked s msg => simp only [hd] at h; cases h
    | returned s err =>
      have hnil := DeleteTags_returns_nil _ _ _ _ hd
      subst hnil
      simp only [hd] at h
      split at h
      · cases h
      · cases h
      · cases h; exact ⟨rfl, rfl⟩
  · intro q q' h
    simp only [TagsPage.handleBatchExport] at h
    split at h
    · cases h
    · cases h
    · cases h; exact ⟨rfl, rfl⟩
    · cases h; exact ⟨rfl, rfl⟩

/-- C22 on `examplePage`: deleting the selected tag `t1` completes and clears
the selection; a failed export completes and leaves it. -/
theorem batch_handlers_spec_witness :
    (∃ tp', examplePage.handleBatchDelete Time.zero = .completed tp' ∧
      tp'.filteredTags = tp'.state.tags) ∧
    (∃ tp', examplePage.handleBatchExport failingWorld Time.zero = .completed tp') ∧
    (∀ (q q' : TagsPage), q.handleBatchDelete Time.zero = .completed q' →
      q'.selectedTags = [] ∧ q'.batchOps.visible = false) ∧
    (∀ (q q' : TagsPage), q.handleBatchExport failingWorld Time.zero = .completed q' →
      q'.selectedTags = q.selectedTags ∧ q'.batchOps = q.batchOps) :=
  batch_handlers_spec examplePage failingWorld Time.zero rfl (by decide)

/-- C22 as stated fails for `handleBatchExport`: on `examplePage` it completes
after a failed export, and after a successful one, with `t1` still selected
and the batch toolbar flag still true. -/
theorem handleBatchExport_keeps_selection :
    (∃ tp', examplePage.handleBatchExport failingWorld Time.zero = .completed tp' ∧
      tp'.toast.message =
        "Failed to export tags: failed to write export file: permission denied" ∧
      tp'.selectedTags = [("t1", true)] ∧ tp'.batchOps.visible = true) ∧
    (∃ tp', examplePage.handleBatchExport (exampleWorld Time.zero) Time.zero = .completed tp' ∧
      tp'.toast.message = "Tags exported successfully to tag_export_0001-01-01_00-00-00.json" ∧
      tp'.selectedTags = [("t1", true)] ∧ tp'.batchOps.visible = true) :=
  ⟨⟨_, rfl, by decide, rfl, rfl⟩, ⟨_, rfl, by decide, rfl, rfl⟩⟩

/-! ## Scraping a meta tag: the examples -/

/-- C30 on a page with a `title` element: the result is `Hello`. -/
theorem extractMetaTag_spec_witness :
    extractMetaTag "<meta name=\"title\" content=\"Hello\">" "title" = some "Hello" ∧
      ∃ r, extractMetaTag "<meta name=\"title\" content=\"Hello\">" "title" = some r ∧
        (r = "" ∨ ∃ (pre post : List Char) (first last : Nat),
          "<meta name=\"title\" content=\"Hello\">".data = pre ++ (r.data ++ post) ∧
          '"' ∉ r.data ∧
          metaTagOccurrence "<meta name=\"title\" content=\"Hello\">" "title" =
            some (first, last) ∧
          first + 9 ≤ pre.length ∧ ('"' ∉ "title".data → last ≤ pre.length)) :=
  ⟨by decide, extractMetaTag_spec _ _⟩

/-- C30 as stated fails for a tag name that holds `content="` itself: for the
tag name `content="abc` the html `<meta name="content="abc"` is one occurrence
of the searched text, from position 0 to position 25, and the result `abc` is
the piece of html from position 21 to 24, inside that occurrence. -/
theorem extractMetaTag_result_inside_occurrence :
    extractMetaTag "<meta name=\"content=\"abc\"" "content=\"abc" = some "abc" ∧
      metaTagOccurrence "<meta name=\"content=\"abc\"" "content=\"abc" = some (0, 25) ∧
      ∀ pre post : List Char,
        "<meta name=\"content=\"abc\"".data = pre ++ ("abc".data ++ post) → pre.length < 25 := by
  refine ⟨by decide, by decide, ?_⟩
  intro pre post h
  have hl := congrArg List.length h
  simp only [List.length_append, List.length_cons, List.length_nil] at hl
  omega

end GoBookMarker
